import Mathlib

/-! # sharkstore master-server: cluster metadata and placement engine

A shallow embedding of `master-server/server/cluster.go`.

Conventions of the embedding:

* a Go `[]byte` is a `List Nat` (each element a byte value); byte slices are
  treated as immutable values;
* a Go `string` is a Lean `String`;
* a Go map is an association list with at most one entry per key;
* objects shared through pointers (`*Table`) live in an explicit heap, and the
  caches hold heap addresses;
* the receiver `c *Cluster` is passed explicitly and the updated cluster is
  returned next to the result;
* locks and logging are left out (the model is sequential);
* functions of other packages (`util.EncodePrimaryKey`,
  `util.EncodeStorePrefix`, `isSqlReservedWord`, the node selectors,
  `uint64ToBytes`, `NewNode`, `NewClusterIDGenerator`) and the constant
  `DefaultRetentionTime` are parameters, collected in `Deps`;
* a runtime panic is an explicit result of the functions that can panic
  (`LoadResult.panicked`).
-/

set_option linter.dupNamespace false

namespace Sharkstore

/-! ## Byte slices -/

abbrev Bytes := List Nat

/-- Go `bytes.Compare`: lexicographic comparison, result `-1`, `0` or `1`. -/
def bytesCompare : Bytes → Bytes → Int
  | [], [] => 0
  | [], _ :: _ => -1
  | _ :: _, [] => 1
  | a :: as, b :: bs =>
    if a < b then -1 else if b < a then 1 else bytesCompare as bs

/-- The method `ByLetter.Less`, on the two elements it compares. -/
def ByLetter.Less (x y : Bytes) : Bool := bytesCompare x y == -1

/-- The order `sort.Sort(ByLetter(keys))` sorts by: `x` may stand before `y`
when `y` is not `Less` than `x`. -/
def ByLetter.le (x y : Bytes) : Prop := ByLetter.Less y x = false

instance ByLetter.decLe : DecidableRel ByLetter.le :=
  fun x y => inferInstanceAs (Decidable (ByLetter.Less y x = false))

/-- Go `sort.Sort(ByLetter(keys))`. `Less` is a strict total order on byte
slices under which two slices that compare equal are the same value, so the
sorted permutation is unique (`sortByLetter_unique`); it is computed here by
insertion sort. -/
def sortByLetter (keys : List Bytes) : List Bytes :=
  keys.insertionSort ByLetter.le

/-- Modelled from the spec: `bytesPrefix` is not in `cluster.go`. The upper
bound of a prefix scan is "computed by incrementing the last byte of the
prefix, carrying over `0xFF` bytes": the bytes after the last byte below
`0xFF` are dropped and that byte is incremented; a prefix without such a byte
has no upper bound (`none`, Go `nil`). -/
def prefixLimit : Bytes → Option Bytes
  | [] => none
  | b :: bs =>
    match prefixLimit bs with
    | some l => some (b :: l)
    | none => if b < 255 then some [b + 1] else none

/-- Modelled from the spec: `bytesPrefix(prefix)` returns the scan bounds
`(prefix, limit)`; a missing limit is the `nil` slice, here `[]`. -/
def bytesPrefix (p : Bytes) : Bytes × Bytes :=
  (p, (prefixLimit p).getD [])

/-- The bytes of an ASCII string constant, Go `[]byte(s)`. -/
def strBytes (s : String) : Bytes := s.toList.map Char.toNat

/-- Go `fmt.Sprintf("%d", n)` as bytes. -/
def fmtD (n : Nat) : Bytes := (Nat.toDigits 10 n).map Char.toNat

/-- Go `binary.BigEndian.PutUint64` on a fresh 8-byte slice. -/
def putUint64BE (n : Nat) : Bytes :=
  [n / 2 ^ 56 % 256, n / 2 ^ 48 % 256, n / 2 ^ 40 % 256, n / 2 ^ 32 % 256,
   n / 2 ^ 24 % 256, n / 2 ^ 16 % 256, n / 2 ^ 8 % 256, n % 256]

/-- Go `binary.BigEndian.Uint64` on a slice of at least 8 bytes. -/
def uint64BE (b : Bytes) : Nat :=
  (b.take 8).foldl (fun acc x => acc * 256 + x % 256) 0

/-! ## Go maps -/

abbrev GoMap (κ : Type) (α : Type) := List (κ × α)

namespace GoMap

variable {κ α : Type} [DecidableEq κ]

/-- The Go statement `delete(m, k)`. -/
def del (m : GoMap κ α) (k : κ) : GoMap κ α := m.filter (fun e => e.1 ≠ k)

/-- The Go statement `m[k] = v`. -/
def put (m : GoMap κ α) (k : κ) (v : α) : GoMap κ α := (k, v) :: del m k

/-- The Go expression `v, ok := m[k]`. -/
def get? (m : GoMap κ α) (k : κ) : Option α :=
  (m.find? (fun e => e.1 = k)).map Prod.snd

/-- Whether `k` is a key of `m`. -/
def has (m : GoMap κ α) (k : κ) : Bool := (get? m k).isSome

end GoMap

/-! ## Strings -/

/-- Worker of `stringsSplit` for a non-empty separator: `skip` counts the
characters of a separator occurrence that are still to be dropped, `cur` holds
the current piece in reverse. -/
def splitGo (sep : List Char) : List Char → Nat → List Char → List (List Char)
  | [], _, cur => [cur.reverse]
  | _ :: rest, skip + 1, cur => splitGo sep rest skip cur
  | c :: rest, 0, cur =>
    if sep.isPrefixOf (c :: rest) then
      cur.reverse :: splitGo sep rest (sep.length - 1) []
    else splitGo sep rest 0 (c :: cur)

/-- Go `strings.Split(s, sep)` on strings that are valid UTF-8: with an empty
separator the string is exploded into its characters, otherwise it is cut at
each occurrence of `sep`, found from left to right without overlap. -/
def stringsSplit (s sep : String) : List String :=
  if sep.toList = [] then s.toList.map (fun c => String.mk [c])
  else (splitGo sep.toList s.toList 0 []).map String.mk

/-- The Go conversion `[]byte(s)`: the UTF-8 bytes of a string. -/
def utf8Bytes (s : String) : Bytes := s.toUTF8.data.toList.map UInt8.toNat

/-- Concatenation of the pieces with `sep` between two neighbours: the common
shape of Go `strings.Join` and `bytes.Join`. -/
def joinWith {α : Type} (sep : List α) : List (List α) → List α
  | [] => []
  | [x] => x
  | x :: y :: rest => x ++ sep ++ joinWith sep (y :: rest)

/-- Go `strings.Join(elems, sep)`. -/
def stringsJoin (elems : List String) (sep : String) : String :=
  String.mk (joinWith sep.toList (elems.map String.toList))

/-- Go `bytes.Join(s, sep)`. -/
def bytesJoin (s : List Bytes) (sep : Bytes) : Bytes := joinWith sep s

/-! ## Errors -/

/-- The error values the modelled functions return. -/
inductive Err where
  | ErrSqlReservedWord
  | ErrNotExistDatabase
  | ErrNotExistTable
  | ErrDupTable
  | ErrDupDatabase
  | ErrGenID
  | ErrNotCancel
  | ErrInternalError
  | ErrNotFound
  | ERR_NO_SELECTED_NODE
  /-- The error of `fmt.Errorf("dup key in split keys: %v", k)`. -/
  | dupKey (k : String)
  /-- An error returned by `util.EncodePrimaryKey`. -/
  | encode (msg : String)
  /-- An error returned by `proto.Unmarshal`. -/
  | unmarshal
  /-- An error returned by the persistent store. -/
  | store
  deriving DecidableEq, Repr

/-! ## Metadata records (`metapb`) -/

/-- The enum `metapb.TableStatus`; `Other` stands for a persisted value
outside the five named ones. -/
inductive TableStatus where
  | TableInit
  | TablePrepare
  | TableRunning
  | TableDelete
  | TableDeleting
  | Other (code : Nat)
  deriving DecidableEq, Repr

structure Column where
  Name : String
  Id : Nat
  DataType : Nat
  PrimaryKey : Nat
  deriving DecidableEq, Repr

structure TableEpoch where
  ConfVer : Nat
  Version : Nat
  deriving DecidableEq, Repr

/-- The record `metapb.Table`. -/
structure MetaTable where
  Name : String
  DbName : String
  Id : Nat
  DbId : Nat
  Columns : List Column
  Regxs : List Column
  Epoch : Option TableEpoch
  CreateTime : Int
  PkDupCheck : Bool
  Status : TableStatus
  Expand : Bytes
  deriving DecidableEq, Repr

/-- The record `metapb.Peer`. -/
structure Peer where
  Id : Nat
  NodeId : Nat
  deriving DecidableEq, Repr

/-- The record `metapb.DownPeer`; its `Peer` field is a pointer and may be
`nil`. -/
structure DownPeer where
  Peer : Option Peer
  DownSeconds : Nat
  deriving DecidableEq, Repr

/-- The record `metapb.DataBase`. -/
structure MetaDataBase where
  Name : String
  Id : Nat
  Properties : String
  Version : Nat
  CreateTime : Int
  deriving DecidableEq, Repr

/-- The fields of the record `metapb.Node` the model reads. -/
structure MetaNode where
  Id : Nat
  ServerAddr : String
  deriving DecidableEq, Repr

/-- The fields of the record `metapb.Range` the model reads. -/
structure MetaRange where
  Id : Nat
  StartKey : Bytes
  EndKey : Bytes
  TableId : Nat
  Peers : List Peer
  deriving DecidableEq, Repr

/-- The record `metapb.Replica`; its `Peer` field is a pointer and may be
`nil`. -/
structure Replica where
  RangeId : Nat
  Peer : Option Peer
  StartKey : Bytes
  EndKey : Bytes
  deriving DecidableEq, Repr

/-! ## Time -/

/-- A `time.Time` as nanoseconds since the Unix epoch; a `time.Duration` is a
number of nanoseconds. -/
abbrev Time := Int

/-- The method `time.Time.Unix`: whole seconds since the epoch. -/
def Time.Unix (t : Time) : Int := t / 1000000000

/-- The Go call `time.Unix(sec, 0)`. -/
def Time.ofUnix (sec : Int) : Time := sec * 1000000000

/-- The zero `time.Time`, January 1 of year 1. -/
def Time.zero : Time := -62135596800 * 1000000000

/-- The Go conversion `uint64(x)` of an `int64`. -/
def toUint64 (x : Int) : Nat := (x % 2 ^ 64).toNat

/-- The Go conversion `int64(x)` of a `uint64`. -/
def toInt64 (x : Nat) : Int :=
  if x % 2 ^ 64 < 2 ^ 63 then (x % 2 ^ 64 : Nat) else (x % 2 ^ 64 : Nat) - 2 ^ 64

/-! ## Server-side objects -/

/-- The server `Table`: the embedded `*metapb.Table` and the deletion time. -/
structure Table where
  Table : MetaTable
  deleteTime : Time
  deriving DecidableEq, Repr

instance : Inhabited Table :=
  ⟨{ Table := { Name := "", DbName := "", Id := 0, DbId := 0, Columns := [],
                Regxs := [], Epoch := none, CreateTime := 0, PkDupCheck := false,
                Status := .TableInit, Expand := [] },
     deleteTime := Time.zero }⟩

/-- The constructor `NewTable(t)`. -/
def NewTable (t : MetaTable) : Table := { Table := t, deleteTime := Time.zero }

/-- An entry of a database's table set: the keys of a table (name and id) and
the address of the `*Table`. -/
structure TableRef where
  name : String
  id : Nat
  ptr : Nat
  deriving DecidableEq, Repr

/-- Modelled from the spec: the `Database` type is not in `cluster.go`. A
database has a "name (unique), numeric id, opaque properties string, creation
time" and "owns a set of Tables keyed by name and by id". -/
structure Database where
  Name : String
  Id : Nat
  Properties : String
  Version : Nat
  CreateTime : Int
  tables : List TableRef
  deriving DecidableEq, Repr

/-- Modelled from the spec: `Database.FindTable(name)`, lookup by name. -/
def Database.FindTable (db : Database) (name : String) : Option TableRef :=
  db.tables.find? (fun e => e.name = name)

/-- Modelled from the spec: `Database.AddTable(t)`; the set is keyed by name
and by id, so an entry under the same name or the same id is replaced. -/
def Database.AddTable (db : Database) (r : TableRef) : Database :=
  { db with tables := r :: db.tables.filter (fun e => e.name ≠ r.name ∧ e.id ≠ r.id) }

/-- Modelled from the spec: `Database.DeleteTableById(id)`. -/
def Database.DeleteTableById (db : Database) (id : Nat) : Database :=
  { db with tables := db.tables.filter (fun e => e.id ≠ id) }

/-- Modelled from the spec: `Database.DeleteTableByName(name)`. -/
def Database.DeleteTableByName (db : Database) (name : String) : Database :=
  { db with tables := db.tables.filter (fun e => e.name ≠ name) }

/-- A queued range-creation request. -/
structure rangeToCreate where
  startKey : Bytes
  endKey : Bytes
  deriving DecidableEq, Repr

/-- Modelled from the spec: the `CreateTable` wrapper is not in `cluster.go`.
It "holds a queue of pending `(startKey,endKey)` range-creation requests and a
countdown of how many ranges remain to be created". -/
structure CreateTable where
  Table : Nat
  rangesToCreateList : List rangeToCreate
  rangeNumber : Nat
  deriving DecidableEq, Repr

/-- Modelled from the spec: `NewCreateTable(table, n)`, an empty queue and a
countdown of `n`. -/
def NewCreateTable (table : Nat) (n : Nat) : CreateTable :=
  { Table := table, rangesToCreateList := [], rangeNumber := n }

/-- Modelled from the spec: a storage `Node` with the values its accessors
return: `GetId()`, `GetServerAddr()`, `GetRangesCount()` (the range count of
its statistics) and `availableRatio()` (only the order of ratios is used). -/
structure Node where
  Id : Nat
  ServerAddr : String
  RangeCount : Nat
  availableRatio : Nat
  /-- The "set of trash Replicas pending garbage collection". -/
  trashReplicas : List Replica := []
  deriving DecidableEq, Repr

/-- A cached range: the object `NewRange(r, leader)` builds. -/
structure CachedRange where
  Range : MetaRange
  Leader : Option Peer
  deriving DecidableEq, Repr

/-- The part of a `Range` the modelled functions read. -/
structure Range where
  Id : Nat
  Peers : List Peer
  DownPeers : List DownPeer
  deriving DecidableEq, Repr

/-- The interface `NodeSelector`. -/
structure NodeSelector where
  Name : String
  CanSelect : Node → Bool

/-! ## Persistent store -/

/-- A stored value. `proto.Marshal` of a record is the record itself, so that
`proto.Unmarshal` gives it back; `raw` is any other content. -/
inductive StoreValue where
  | table (t : MetaTable)
  | raw (b : Bytes)
  | database (db : MetaDataBase)
  | node (n : MetaNode)
  | range (r : MetaRange)
  | replica (rep : Replica)
  deriving DecidableEq, Repr

/-- An operation queued in a batch. -/
inductive BatchOp where
  | Put (key : Bytes) (value : StoreValue)
  | Delete (key : Bytes)
  deriving DecidableEq, Repr

/-- A call received by the store. -/
inductive StoreCall where
  | Get (key : Bytes)
  | Put (key : Bytes) (value : StoreValue)
  | Delete (key : Bytes)
  | Scan (start limit : Bytes)
  | NewBatch
  | Commit (ops : List BatchOp)
  deriving DecidableEq, Repr

/-- Modelled from the spec: the `Store` interface, an "ordered key-value
storage with prefix scan and atomic batch commit". `calls` records every call
made on the store, oldest first; while `failing` is set every call that can
return an error returns one and changes no data. -/
structure Store where
  kv : GoMap Bytes StoreValue
  calls : List StoreCall
  failing : Bool
  deriving DecidableEq, Repr

/-- A `Batch` under construction: its queued operations, oldest first. -/
structure Batch where
  ops : List BatchOp
  deriving DecidableEq, Repr

def Store.NewBatch (s : Store) : Batch × Store :=
  ({ ops := [] }, { s with calls := s.calls ++ [.NewBatch] })

def Batch.Put (b : Batch) (key : Bytes) (value : StoreValue) : Batch :=
  { ops := b.ops ++ [.Put key value] }

def Batch.Delete (b : Batch) (key : Bytes) : Batch :=
  { ops := b.ops ++ [.Delete key] }

/-- The effect of one batch operation on the data. -/
def BatchOp.apply (kv : GoMap Bytes StoreValue) : BatchOp → GoMap Bytes StoreValue
  | .Put k v => GoMap.put kv k v
  | .Delete k => GoMap.del kv k

/-- The method `Batch.Commit`: all queued operations are applied, or none. -/
def Store.Commit (s : Store) (b : Batch) : Option Err × Store :=
  if s.failing then (some .store, { s with calls := s.calls ++ [.Commit b.ops] })
  else (none, { s with kv := b.ops.foldl BatchOp.apply s.kv,
                       calls := s.calls ++ [.Commit b.ops] })

def Store.Put (s : Store) (key : Bytes) (value : StoreValue) : Option Err × Store :=
  if s.failing then (some .store, { s with calls := s.calls ++ [.Put key value] })
  else (none, { s with kv := GoMap.put s.kv key value,
                       calls := s.calls ++ [.Put key value] })

def Store.Delete (s : Store) (key : Bytes) : Option Err × Store :=
  if s.failing then (some .store, { s with calls := s.calls ++ [.Delete key] })
  else (none, { s with kv := GoMap.del s.kv key, calls := s.calls ++ [.Delete key] })

/-- The method `Store.Scan(start, limit)`: the entries with
`start <= key < limit`, in ascending key order. -/
def Store.Scan (s : Store) (start limit : Bytes) : List (Bytes × StoreValue) × Store :=
  (((s.kv.filter (fun e => !ByLetter.Less e.1 start && ByLetter.Less e.1 limit)).insertionSort
      (fun a b => ByLetter.le a.1 b.1)),
   { s with calls := s.calls ++ [.Scan start limit] })

/-- Modelled from the spec: the ID generator "monotonically-issues
cluster-unique 64-bit identifiers"; while `failing` is set it returns an
error. -/
structure IDGenerator where
  next : Nat
  failing : Bool
  deriving DecidableEq, Repr

def IDGenerator.GenID (g : IDGenerator) : Except Err Nat × IDGenerator :=
  if g.failing then (.error .ErrGenID, g) else (.ok g.next, { g with next := g.next + 1 })

/-! ## Functions and constants defined outside `cluster.go` -/

/-- What `cluster.go` uses from other files, taken as parameters. -/
structure Deps where
  /-- The call `util.EncodePrimaryKey(nil, c, k)`. -/
  EncodePrimaryKey : Column → Bytes → Except Err Bytes
  /-- The call `util.EncodeStorePrefix(util.Store_Prefix_KV, tableId)`. -/
  EncodeStorePrefix : Nat → Bytes
  isSqlReservedWord : String → Bool
  /-- The duration `DefaultRetentionTime`, in nanoseconds. -/
  DefaultRetentionTime : Int
  /-- The key `fmt.Sprintf(PREFIX_AUTO_TRANSFER_TABLE, id)`. -/
  autoTransferTableKey : Nat → Bytes
  /-- The key `fmt.Sprintf(PREFIX_AUTO_FAILOVER_TABLE, id)`. -/
  autoFailoverTableKey : Nat → Bytes
  /-- The selector `NewNodeLoginSelector(c.opt)`. -/
  NewNodeLoginSelector : NodeSelector
  /-- The selector `NewDifferIPSelector(nodes)`. -/
  NewDifferIPSelector : List Node → NodeSelector
  /-- The selector `NewWriterOpsThresholdSelector(c.opt)`. -/
  NewWriterOpsThresholdSelector : NodeSelector
  /-- The selector `NewStorageThresholdSelector(c.opt)`. -/
  NewStorageThresholdSelector : NodeSelector
  /-- The helper `uint64ToBytes`. -/
  uint64ToBytes : Nat → Bytes
  /-- The constructor `NewNode(n)`. -/
  NewNode : MetaNode → Node
  /-- The constructor `NewClusterIDGenerator(store)`. -/
  NewClusterIDGenerator : Store → IDGenerator

/-! ## The cluster -/

def SCHEMA_SPLITOR : String := " "

def PREFIX_TABLE : String := "schema" ++ SCHEMA_SPLITOR ++ "table" ++ SCHEMA_SPLITOR

/-- The key `[]byte(fmt.Sprintf("%s%d", PREFIX_TABLE, id))`. -/
def tableKey (id : Nat) : Bytes := strBytes PREFIX_TABLE ++ fmtD id

/-- The fields of `Cluster` the modelled functions use. `heap` maps an
address to the `Table` object stored there and `heapSize` is the number of
objects allocated so far (the next free address); `dbs` is the database cache
keyed by name; the three table caches are keyed by table id. -/
structure Cluster where
  clusterId : Nat
  nodeId : Nat
  idGener : IDGenerator
  dbs : GoMap String Database
  heap : Nat → Table
  heapSize : Nat
  creatingTables : GoMap Nat CreateTable
  workingTables : GoMap Nat Nat
  deletingTables : GoMap Nat Nat
  nodes : List Node
  store : Store
  autoFailoverUnable : Bool
  autoTransferUnable : Bool
  /-- The range cache, keyed by range id. -/
  ranges : GoMap Nat CachedRange := []
  /-- The ranges staged for garbage collection, keyed by range id. -/
  preGCRanges : GoMap Nat MetaRange := []
  /-- The deleted ranges, keyed by range id. -/
  deletedRanges : GoMap Nat MetaRange := []

namespace Cluster

/-- The table object at address `p`. -/
def deref (c : Cluster) (p : Nat) : Table := c.heap p

/-- Allocation of a new table object; returns its address. -/
def alloc (c : Cluster) (t : Table) : Nat × Cluster :=
  (c.heapSize,
   { c with heap := fun q => if q = c.heapSize then t else c.heap q,
            heapSize := c.heapSize + 1 })

/-- Assignment through the pointer `p`. -/
def store! (c : Cluster) (p : Nat) (t : Table) : Cluster :=
  { c with heap := fun q => if q = p then t else c.heap q }

/-- In-place change of the database object cached under `name`. -/
def setDb (c : Cluster) (name : String) (db : Database) : Cluster :=
  { c with dbs := c.dbs.map (fun e => if e.1 = name then (e.1, db) else e) }

def FindDatabase (c : Cluster) (name : String) : Option Database :=
  GoMap.get? c.dbs name

def FindTableById (c : Cluster) (tableId : Nat) : Option Nat :=
  GoMap.get? c.workingTables tableId

def FindDeleteTableById (c : Cluster) (tableId : Nat) : Option Nat :=
  GoMap.get? c.deletingTables tableId

def GetAllNode (c : Cluster) : List Node := c.nodes

def FindNodeById (c : Cluster) (id : Nat) : Option Node :=
  c.nodes.find? (fun n => n.Id = id)

end Cluster

/-- The function `rangeKeysSplit`, its loop over the pieces: `seen` is the key
set of `kmap`, `acc` is `ks_`. -/
def rangeKeysSplitLoop : List String → List String → List Bytes → Except Err (List Bytes)
  | [], _, acc => .ok acc
  | k :: ks, seen, acc =>
    if k ∈ seen then .error (.dupKey k)
    else rangeKeysSplitLoop ks (k :: seen) (acc ++ [utf8Bytes k])

def rangeKeysSplit (keys sep : String) : Except Err (List Bytes) :=
  rangeKeysSplitLoop (stringsSplit keys sep) [] []

/-- The inner loop of `encodeSplitKeys`: every key is encoded by column `c`;
the first error is returned. -/
def encodeKeysBy (d : Deps) (c : Column) : List Bytes → Except Err (List Bytes)
  | [] => .ok []
  | k :: ks =>
    match d.EncodePrimaryKey c k with
    | .error e => .error e
    | .ok buf =>
      match encodeKeysBy d c ks with
      | .error e => .error e
      | .ok rest => .ok (buf :: rest)

/-- The function `encodeSplitKeys`: the keys are encoded by the first column
whose `PrimaryKey` is 1; without such a column the result is empty. -/
def encodeSplitKeys (d : Deps) (keys : List Bytes) : List Column → Except Err (List Bytes)
  | [] => .ok []
  | c :: columns =>
    if c.PrimaryKey = 1 then encodeKeysBy d c keys
    else encodeSplitKeys d keys columns

/-- The requests queued by the loop `for i := 0; i < keysNum-1; i++`. -/
def rangesOf (sharingKeys : List Bytes) : List rangeToCreate :=
  (List.range (sharingKeys.length - 1)).map
    (fun i => { startKey := sharingKeys.getD i [], endKey := sharingKeys.getD (i + 1) [] })

namespace Cluster

/-- The method `Cluster.CreateTable`; `now` is the value of `time.Now()`. The
result is the address of the new table. -/
def CreateTable (d : Deps) (c : Cluster) (now : Time) (dbName tableName : String)
    (columns regxs : List Column) (pkDupCheck : Bool) (sliceKeys : List Bytes) :
    Except Err Nat × Cluster :=
  if columns.any (fun col => d.isSqlReservedWord col.Name) then
    (.error .ErrSqlReservedWord, c)
  else
    match c.FindDatabase dbName with
    | none => (.error .ErrNotExistDatabase, c)
    | some db =>
      match db.FindTable tableName with
      | some _ => (.error .ErrDupTable, c)
      | none =>
        match c.idGener.GenID with
        | (.error _, g) => (.error .ErrGenID, { c with idGener := g })
        | (.ok tableId, g) =>
          let start := d.EncodeStorePrefix tableId
          let end_ := (bytesPrefix start).2
          let t : MetaTable :=
            { Name := tableName, DbName := dbName, Id := tableId, DbId := db.Id,
              Columns := columns, Regxs := regxs,
              Epoch := some { ConfVer := 1, Version := 1 },
              CreateTime := Time.Unix now, PkDupCheck := pkDupCheck,
              Status := .TableInit, Expand := [] }
          let (table, c1) := ({ c with idGener := g } : Cluster).alloc (NewTable t)
          let c2 := c1.setDb dbName (db.AddTable { name := tableName, id := tableId, ptr := table })
          let c3 := { c2 with workingTables := GoMap.put c2.workingTables tableId table }
          let queue (sharingKeys : List Bytes) : Except Err Nat × Cluster :=
            let createTable := NewCreateTable table (sharingKeys.length - 1)
            let createTable :=
              { createTable with rangesToCreateList := rangesOf sharingKeys }
            (.ok table,
             { c3 with creatingTables := GoMap.put c3.creatingTables tableId createTable })
          if sliceKeys.length ≠ 0 then
            match encodeSplitKeys d sliceKeys columns with
            | .error err =>
              let c4 := c3.setDb dbName
                ((db.AddTable { name := tableName, id := tableId, ptr := table }).DeleteTableById
                  tableId)
              (.error err, { c4 with workingTables := GoMap.del c4.workingTables tableId })
            | .ok _keys =>
              let _sliceKeys := (sortByLetter _keys).map (fun key => start ++ key)
              queue ([start] ++ _sliceKeys ++ [end_])
          else queue ([start] ++ [end_])

/-- The method `Cluster.DeleteTable`; `now` is the value of `time.Now()`. -/
def DeleteTable (d : Deps) (c : Cluster) (now : Time) (dbName tableName : String)
    (fast : Bool) : Except Err Nat × Cluster :=
  match c.FindDatabase dbName with
  | none => (.error .ErrNotExistDatabase, c)
  | some db =>
    match db.FindTable tableName with
    | none => (.error .ErrNotExistTable, c)
    | some ref =>
      let table := c.deref ref.ptr
      let (batch, store1) := c.store.NewBatch
      let delTime : Time := if fast then now + d.DefaultRetentionTime * (-1) else now
      let tt : MetaTable :=
        { table.Table with
          Status := if fast then .TableDeleting else .TableDelete,
          Expand := putUint64BE (toUint64 (Time.Unix delTime)) }
      let batch := batch.Put (tableKey table.Table.Id) (.table tt)
      let batch := batch.Delete (d.autoTransferTableKey table.Table.Id)
      let batch := batch.Delete (d.autoFailoverTableKey table.Table.Id)
      match store1.Commit batch with
      | (some err, store2) => (.error err, { c with store := store2 })
      | (none, store2) =>
        let c1 := ({ c with store := store2 } : Cluster).store! ref.ptr
          { Table := tt, deleteTime := delTime }
        let c2 := { c1 with deletingTables := GoMap.put c1.deletingTables tt.Id ref.ptr }
        let c3 := c2.setDb dbName (db.DeleteTableByName tableName)
        (.ok ref.ptr, { c3 with workingTables := GoMap.del c3.workingTables tt.Id })

/-- The method `Cluster.CancelTable`. -/
def CancelTable (c : Cluster) (dbName tName : String) : Option Err × Cluster :=
  match c.FindDatabase dbName with
  | none => (some .ErrNotExistDatabase, c)
  | some db =>
    match db.FindTable tName with
    | none => (some .ErrNotExistTable, c)
    | some ref =>
      let table := c.deref ref.ptr
      if table.Table.Status ≠ .TableInit ∧ table.Table.Status ≠ .TablePrepare then
        (some .ErrNotCancel, c)
      else
        let finish (c : Cluster) : Option Err × Cluster :=
          let c1 := c.store! ref.ptr
            { table with Table := { table.Table with Status := .TableDelete } }
          let c2 := c1.setDb dbName (db.DeleteTableById table.Table.Id)
          (none, { c2 with creatingTables := GoMap.del c2.creatingTables table.Table.Id })
        if table.Table.Status = .TablePrepare then
          match c.store.Delete (tableKey table.Table.Id) with
          | (some err, store1) => (some err, { c with store := store1 })
          | (none, store1) => finish { c with store := store1 }
        else finish c

/-- The function `proto.Unmarshal` into a `metapb.Table`. -/
def unmarshalTable : StoreValue → Except Err MetaTable
  | .table t => .ok t
  | _ => .error .unmarshal

/-- One round of the loop of `loadTables`, on the entry with key `k` and value
`v`: the result is the error the function returns with, or `none` when the
loop goes on to the next entry. -/
def loadTablesBody (c : Cluster) (k : Bytes) (v : StoreValue) : Option Err × Cluster :=
  if k = [] then (none, c)
  else
    match unmarshalTable v with
    | .error err => (some err, c)
    | .ok t =>
      match c.FindDatabase t.DbName with
      | none => (some .ErrNotExistDatabase, c)
      | some db =>
        let (table, c1) := c.alloc (NewTable t)
        let ref : TableRef := { name := t.Name, id := t.Id, ptr := table }
        match t.Status with
        | .TablePrepare =>
          let c2 := c1.setDb t.DbName (db.AddTable ref)
          let c3 := { c2 with workingTables := GoMap.put c2.workingTables t.Id table }
          let createTable : Sharkstore.CreateTable :=
            { Table := table, rangesToCreateList := [], rangeNumber := 0 }
          (none, { c3 with creatingTables := GoMap.put c3.creatingTables t.Id createTable })
        | .TableRunning =>
          let c2 := c1.setDb t.DbName (db.AddTable ref)
          (none, { c2 with workingTables := GoMap.put c2.workingTables t.Id table })
        | .TableDelete =>
          if t.Expand.length ≠ 8 then (some .ErrInternalError, c1)
          else
            let delTime := uint64BE t.Expand
            let c2 := c1.store! table
              { (NewTable t) with deleteTime := Time.ofUnix (toInt64 delTime) }
            (none, { c2 with deletingTables := GoMap.put c2.deletingTables t.Id table })
        | .TableDeleting =>
          if t.Expand.length ≠ 8 then (some .ErrInternalError, c1)
          else
            let delTime := uint64BE t.Expand
            let c2 := c1.store! table
              { (NewTable t) with deleteTime := Time.ofUnix (toInt64 delTime) }
            (none, { c2 with deletingTables := GoMap.put c2.deletingTables t.Id table })
        | _ => (some .ErrInternalError, c1)

/-- The loop `for it.Next()` of `loadTables` over the scanned entries. -/
def loadTablesLoop (c : Cluster) : List (Bytes × StoreValue) → Option Err × Cluster
  | [] => (none, c)
  | (k, v) :: rest =>
    match c.loadTablesBody k v with
    | (some err, c1) => (some err, c1)
    | (none, c1) => loadTablesLoop c1 rest

/-- The method `Cluster.loadTables`. -/
def loadTables (c : Cluster) : Option Err × Cluster :=
  let bounds := bytesPrefix (strBytes PREFIX_TABLE)
  let (it, store1) := c.store.Scan bounds.1 bounds.2
  loadTablesLoop { c with store := store1 } it

/-- The method `Cluster.allocPeer`. -/
def allocPeer (c : Cluster) (nodeId : Nat) : Except Err Peer × Cluster :=
  match c.idGener.GenID with
  | (.error _, g) => (.error .ErrGenID, { c with idGener := g })
  | (.ok peerId, g) => (.ok { Id := peerId, NodeId := nodeId }, { c with idGener := g })

end Cluster

/-- Modelled from the spec: `Range.GetNodes(c)` is not in `cluster.go`; it
gives the nodes the "current peers sit on", in peer order. -/
def Range.GetNodes (rng : Range) (c : Cluster) : List Node :=
  rng.Peers.filterMap (fun peer => c.FindNodeById peer.NodeId)

namespace Cluster

/-- Modelled from the spec: `Cluster.getRangeNodes(rng)` is not in
`cluster.go`; the pool is "the full peer set", the nodes of the peers. -/
def getRangeNodes (c : Cluster) (rng : Range) : List Node :=
  rng.Peers.filterMap (fun peer => c.FindNodeById peer.NodeId)

/-- The selector pipeline `newSelectors` of `selectNodeForAddPeer`. -/
def newSelectors (d : Deps) (c : Cluster) (rng : Range) : List NodeSelector :=
  [d.NewNodeLoginSelector, d.NewDifferIPSelector (rng.GetNodes c),
   d.NewWriterOpsThresholdSelector, d.NewStorageThresholdSelector]

/-- One round of the loop choosing `bestNode`. -/
def betterNode (bestNode : Option Node) (node : Node) : Option Node :=
  match bestNode with
  | none => some node
  | some best => if node.RangeCount < best.RangeCount then some node else some best

/-- The method `Cluster.selectNodeForAddPeer`; `none` is the `nil` node. -/
def selectNodeForAddPeer (d : Deps) (c : Cluster) (rng : Range) : Option Node :=
  let nodes := c.GetAllNode.filter
    (fun node => (newSelectors d c rng).all (fun selector => selector.CanSelect node))
  nodes.foldl betterNode none

/-- The method `Cluster.allocPeerAndSelectNode`. -/
def allocPeerAndSelectNode (d : Deps) (c : Cluster) (rng : Range) : Except Err Peer × Cluster :=
  match c.selectNodeForAddPeer d rng with
  | none => (.error .ERR_NO_SELECTED_NODE, c)
  | some node =>
    match c.allocPeer node.Id with
    | (.error err, c1) => (.error err, c1)
    | (.ok newPeer, c1) =>
      let bump (n : Node) : Node :=
        if n.Id = node.Id then { n with RangeCount := n.RangeCount + 1 } else n
      (.ok newPeer, { c1 with nodes := c1.nodes.map bump })

end Cluster

/-- The expression `strings.Split(n.GetServerAddr(), ":")[0]`. -/
def nodeIp (n : Node) : String := (stringsSplit n.ServerAddr ":").headD ""

/-- The loop of `checkSameIpNode`; `m` holds the keys of the map `m`. -/
def checkSameIpNodeLoop : List Node → List String → String × Bool
  | [], _ => ("", false)
  | n :: nodes, m =>
    let ip := nodeIp n
    if ip.length ≠ 0 then
      if ip ∈ m then (ip, true) else checkSameIpNodeLoop nodes (ip :: m)
    else checkSameIpNodeLoop nodes m

namespace Cluster

/-- The method `Cluster.checkSameIpNode`. -/
def checkSameIpNode (nodes : List Node) : String × Bool := checkSameIpNodeLoop nodes []

/-- One round of the loop choosing `worstNode`. -/
def worseNode (worstNode : Option Node) (node : Node) : Option Node :=
  match worstNode with
  | none => some node
  | some worst => if node.availableRatio < worst.availableRatio then some node else some worst

/-- The method `Cluster.selectWorstPeer`; `none` is the `nil` peer. -/
def selectWorstPeer (c : Cluster) (rng : Range) : Option Peer :=
  match rng.DownPeers with
  | down :: _ => down.Peer
  | [] =>
    let allNodes := rng.GetNodes c
    let (ip, ok) := checkSameIpNode allNodes
    let nodes := if ok then allNodes.filter (fun n => nodeIp n = ip) else c.getRangeNodes rng
    match nodes.foldl worseNode none with
    | none => none
    | some worstNode => rng.Peers.find? (fun peer => peer.NodeId = worstNode.Id)

end Cluster

/-! ## Switches and databases -/

/-- The constant `PREFIX_AUTO_TRANSFER`: `fmt.Sprintf("$auto_transfer_%d")` is
called without an operand, so the verb is printed as missing. -/
def PREFIX_AUTO_TRANSFER : String := "$auto_transfer_%!d(MISSING)"

/-- The constant `PREFIX_AUTO_FAILOVER`, built like `PREFIX_AUTO_TRANSFER`. -/
def PREFIX_AUTO_FAILOVER : String := "$auto_failover_%!d(MISSING)"

/-- The key `[]byte(fmt.Sprintf(PREFIX_AUTO_TRANSFER, clusterId))`: in the
format `PREFIX_AUTO_TRANSFER` the character after `%` is `!`, which is no verb
for a `uint64`, so the operand is printed as a bad verb and the rest of the
format follows as text. -/
def autoTransferKey (clusterId : Nat) : Bytes :=
  strBytes "$auto_transfer_%!!(uint64=" ++ fmtD clusterId ++ strBytes ")d(MISSING)"

/-- The key `[]byte(fmt.Sprintf(PREFIX_AUTO_FAILOVER, clusterId))`. -/
def autoFailoverKey (clusterId : Nat) : Bytes :=
  strBytes "$auto_failover_%!!(uint64=" ++ fmtD clusterId ++ strBytes ")d(MISSING)"

def PREFIX_DB : String := "schema" ++ SCHEMA_SPLITOR ++ "db" ++ SCHEMA_SPLITOR

/-- The key `[]byte(fmt.Sprintf("%s%d", PREFIX_DB, id))`. -/
def dbKey (id : Nat) : Bytes := strBytes PREFIX_DB ++ fmtD id

/-- Modelled from the spec: the constructor `NewDatabase(db)`, a database
that owns no table yet. -/
def NewDatabase (db : MetaDataBase) : Database :=
  { Name := db.Name, Id := db.Id, Properties := db.Properties, Version := db.Version,
    CreateTime := db.CreateTime, tables := [] }

namespace Cluster

/-- The method `Cluster.UpdateAutoScheduleInfo`. -/
def UpdateAutoScheduleInfo (d : Deps) (c : Cluster)
    (autoFailoverUnable autoTransferUnable : Bool) : Option Err × Cluster :=
  if c.autoFailoverUnable = autoFailoverUnable ∧ c.autoTransferUnable = autoTransferUnable then
    (none, c)
  else
    let (batch, store1) := c.store.NewBatch
    let batch := batch.Put (autoTransferKey c.clusterId)
      (.raw (if autoTransferUnable then d.uint64ToBytes 1 else d.uint64ToBytes 0))
    let batch := batch.Put (autoFailoverKey c.clusterId)
      (.raw (if autoFailoverUnable then d.uint64ToBytes 1 else d.uint64ToBytes 0))
    match store1.Commit batch with
    | (some err, store2) => (some err, { c with store := store2 })
    | (none, store2) =>
      (none, { c with store := store2, autoTransferUnable := autoTransferUnable,
                      autoFailoverUnable := autoFailoverUnable })

/-- The method `Cluster.storeDatabase`. -/
def storeDatabase (c : Cluster) (db : MetaDataBase) : Option Err × Cluster :=
  match c.store.Put (dbKey db.Id) (.database db) with
  | (err, store1) => (err, { c with store := store1 })

/-- The method `Cluster.CreateDatabase`; `now` is the value of `time.Now()`.
The database cache is keyed by name. -/
def CreateDatabase (c : Cluster) (now : Time) (name properties : String) :
    Except Err Database × Cluster :=
  match c.FindDatabase name with
  | some _ => (.error .ErrDupDatabase, c)
  | none =>
    match c.idGener.GenID with
    | (.error _, g) => (.error .ErrGenID, { c with idGener := g })
    | (.ok id, g) =>
      let db : MetaDataBase :=
        { Name := name, Id := id, Properties := properties, Version := 0,
          CreateTime := Time.Unix now }
      match ({ c with idGener := g } : Cluster).storeDatabase db with
      | (some err, c1) => (.error err, c1)
      | (none, c1) =>
        let database := NewDatabase db
        (.ok database, { c1 with dbs := GoMap.put c1.dbs database.Name database })

end Cluster

/-! ## Loading the caches from the store -/

def PREFIX_NODE : String := "schema" ++ SCHEMA_SPLITOR ++ "node" ++ SCHEMA_SPLITOR

def PREFIX_RANGE : String := "schema" ++ SCHEMA_SPLITOR ++ "range" ++ SCHEMA_SPLITOR

def PREFIX_DELETED_RANGE : String :=
  "schema" ++ SCHEMA_SPLITOR ++ "deleted_range" ++ SCHEMA_SPLITOR

def PREFIX_REPLICA : String := "schema" ++ SCHEMA_SPLITOR ++ "replica" ++ SCHEMA_SPLITOR

def PREFIX_PRE_GC : String := "schema" ++ SCHEMA_SPLITOR ++ "pre_gc" ++ SCHEMA_SPLITOR

/-- The key `[]byte(fmt.Sprintf("%s%d", PREFIX_RANGE, id))`. -/
def rangeKey (id : Nat) : Bytes := strBytes PREFIX_RANGE ++ fmtD id

/-- The function `proto.Unmarshal` into a `metapb.DataBase`. -/
def unmarshalDataBase : StoreValue → Except Err MetaDataBase
  | .database db => .ok db
  | _ => .error .unmarshal

/-- The function `proto.Unmarshal` into a `metapb.Node`. -/
def unmarshalNode : StoreValue → Except Err MetaNode
  | .node n => .ok n
  | _ => .error .unmarshal

/-- The function `proto.Unmarshal` into a `metapb.Range`. -/
def unmarshalRange : StoreValue → Except Err MetaRange
  | .range r => .ok r
  | _ => .error .unmarshal

/-- The function `proto.Unmarshal` into a `metapb.Replica`. -/
def unmarshalReplica : StoreValue → Except Err Replica
  | .replica rep => .ok rep
  | _ => .error .unmarshal

/-- How a call of a loading function ends: it returns its `error` result
(`none` is `nil`), or the goroutine panics. -/
inductive LoadResult where
  | returned (err : Option Err)
  | panicked
  deriving DecidableEq, Repr

/-- How one round of a loading loop ends: the loop goes on, the function
returns an error, or the goroutine panics. -/
inductive Round where
  | next
  | ret (err : Err)
  | panic
  deriving DecidableEq, Repr

/-- Modelled from the spec: the method `NodeCache.Add`; "nodes are looked up
by id", so the node takes the place of a cached node with its id. -/
def NodeCache.Add (nodes : List Node) (node : Node) : List Node :=
  nodes.filter (fun n => n.Id ≠ node.Id) ++ [node]

/-- Modelled from the spec: the method `Node.AddTrashReplica`, which adds the
replica to the node's "set of trash Replicas pending garbage collection". -/
def Node.AddTrashReplica (node : Node) (rep : Replica) : Node :=
  { node with trashReplicas := node.trashReplicas ++ [rep] }

/-- The constructor `NewRange(r, leader)`. -/
def NewRange (r : MetaRange) (leader : Peer) : CachedRange :=
  { Range := r, Leader := some leader }

/-- The loop over `trashRanges` of `loadRanges` and the commit after it.
`batch` is the variable `batch` (`none` is `nil`) and `count` the variable
`count`; every path returns `nil`, so the result is the store alone. -/
def purgeTrashRanges (store : Store) (batch : Option Batch) (count : Nat) :
    List MetaRange → Store
  | [] =>
    match batch with
    | some b => if count > 0 then (store.Commit b).2 else store
    | none => store
  | r :: rest =>
    let (b, store1) :=
      match batch with
      | none => store.NewBatch
      | some b => (b, store)
    let b := b.Delete (rangeKey r.Id)
    let count := count + 1
    if count = 100 then
      match store1.Commit b with
      | (some _, store2) => store2
      | (none, store2) =>
        let (b2, store3) := store2.NewBatch
        purgeTrashRanges store3 (some b2) 0 rest
    else purgeTrashRanges store1 (some b) count rest

namespace Cluster

/-- Modelled from the spec: the method `Cluster.AddRange`, which puts the
range into the range cache under its id. -/
def AddRange (c : Cluster) (rr : CachedRange) : Cluster :=
  { c with ranges := GoMap.put c.ranges rr.Range.Id rr }

/-- One round of the loop of `loadNodes`. -/
def loadNodesBody (d : Deps) (c : Cluster) (k : Bytes) (v : StoreValue) : Option Err × Cluster :=
  if k = [] then (none, c)
  else
    match unmarshalNode v with
    | .error err => (some err, c)
    | .ok n =>
      let node := d.NewNode n
      (none, { c with nodes := NodeCache.Add c.nodes node })

def loadNodesLoop (d : Deps) (c : Cluster) : List (Bytes × StoreValue) → Option Err × Cluster
  | [] => (none, c)
  | (k, v) :: rest =>
    match c.loadNodesBody d k v with
    | (some err, c1) => (some err, c1)
    | (none, c1) => loadNodesLoop d c1 rest

/-- The method `Cluster.loadNodes`. -/
def loadNodes (d : Deps) (c : Cluster) : Option Err × Cluster :=
  let bounds := bytesPrefix (strBytes PREFIX_NODE)
  let (it, store1) := c.store.Scan bounds.1 bounds.2
  loadNodesLoop d { c with store := store1 } it

/-- One round of the loop of `loadDatabases`. -/
def loadDatabasesBody (c : Cluster) (k : Bytes) (v : StoreValue) : Option Err × Cluster :=
  if k = [] then (none, c)
  else
    match unmarshalDataBase v with
    | .error err => (some err, c)
    | .ok db =>
      let database := NewDatabase db
      (none, { c with dbs := GoMap.put c.dbs database.Name database })

def loadDatabasesLoop (c : Cluster) : List (Bytes × StoreValue) → Option Err × Cluster
  | [] => (none, c)
  | (k, v) :: rest =>
    match c.loadDatabasesBody k v with
    | (some err, c1) => (some err, c1)
    | (none, c1) => loadDatabasesLoop c1 rest

/-- The method `Cluster.loadDatabases`. -/
def loadDatabases (c : Cluster) : Option Err × Cluster :=
  let bounds := bytesPrefix (strBytes PREFIX_DB)
  let (it, store1) := c.store.Scan bounds.1 bounds.2
  loadDatabasesLoop { c with store := store1 } it

/-- One round of the first loop of `loadRanges`. The expression
`r.GetPeers()[0]` indexes the peer list without a check of its length: on a
record without peers the index is out of range and the goroutine panics. -/
def loadRangesBody (c : Cluster) (k : Bytes) (v : StoreValue) : Round × Cluster :=
  if k = [] then (.next, c)
  else
    match unmarshalRange v with
    | .error err => (.ret err, c)
    | .ok r =>
      match r.Peers with
      | [] => (.panic, c)
      | leader :: _ =>
        let rr := NewRange r leader
        (.next, c.AddRange rr)

/-- The first loop of `loadRanges`; no round appends to `trashRanges`. -/
def loadRangesLoop (c : Cluster) : List (Bytes × StoreValue) → Round × Cluster
  | [] => (.next, c)
  | (k, v) :: rest =>
    match c.loadRangesBody k v with
    | (.next, c1) => loadRangesLoop c1 rest
    | res => res

/-- The method `Cluster.loadRanges`. The variable `trashRanges` is declared
`nil` and never assigned, so the second loop runs over the empty list. -/
def loadRanges (c : Cluster) : LoadResult × Cluster :=
  let bounds := bytesPrefix (strBytes PREFIX_RANGE)
  let (it, store1) := c.store.Scan bounds.1 bounds.2
  let trashRanges : List MetaRange := []
  match loadRangesLoop { c with store := store1 } it with
  | (.ret err, c1) => (.returned (some err), c1)
  | (.panic, c1) => (.panicked, c1)
  | (.next, c1) =>
    (.returned none, { c1 with store := purgeTrashRanges c1.store none 0 trashRanges })

/-- The replacement of the cached node with the id of `node` by `node`: the
effect on the cache of a change made through a `*Node`. -/
def setNode (c : Cluster) (node : Node) : Cluster :=
  { c with nodes := c.nodes.map (fun n => if n.Id = node.Id then node else n) }

/-- One round of the loop of `loadTrashReplicas`. `GetPeer().GetNodeId()` is
0 on a record without peer; `FindNodeById` gives `nil` for an id that is not
cached, and `AddTrashReplica`, which writes a field of its receiver, is taken
to panic on it. -/
def loadTrashReplicasBody (c : Cluster) (k : Bytes) (v : StoreValue) : Round × Cluster :=
  if k = [] then (.next, c)
  else
    match unmarshalReplica v with
    | .error err => (.ret err, c)
    | .ok rep =>
      let nodeId := match rep.Peer with
        | some p => p.NodeId
        | none => 0
      match c.FindNodeById nodeId with
      | none => (.panic, c)
      | some node => (.next, c.setNode (node.AddTrashReplica rep))

def loadTrashReplicasLoop (c : Cluster) : List (Bytes × StoreValue) → Round × Cluster
  | [] => (.next, c)
  | (k, v) :: rest =>
    match c.loadTrashReplicasBody k v with
    | (.next, c1) => loadTrashReplicasLoop c1 rest
    | res => res

/-- The method `Cluster.loadTrashReplicas`. -/
def loadTrashReplicas (c : Cluster) : LoadResult × Cluster :=
  let bounds := bytesPrefix (strBytes PREFIX_REPLICA)
  let (it, store1) := c.store.Scan bounds.1 bounds.2
  match loadTrashReplicasLoop { c with store := store1 } it with
  | (.ret err, c1) => (.returned (some err), c1)
  | (.panic, c1) => (.panicked, c1)
  | (.next, c1) => (.returned none, c1)

/-- One round of the loop of `loadDeletedRanges`. -/
def loadDeletedRangesBody (c : Cluster) (k : Bytes) (v : StoreValue) : Option Err × Cluster :=
  if k = [] then (none, c)
  else
    match unmarshalRange v with
    | .error err => (some err, c)
    | .ok r => (none, { c with deletedRanges := GoMap.put c.deletedRanges r.Id r })

def loadDeletedRangesLoop (c : Cluster) : List (Bytes × StoreValue) → Option Err × Cluster
  | [] => (none, c)
  | (k, v) :: rest =>
    match c.loadDeletedRangesBody k v with
    | (some err, c1) => (some err, c1)
    | (none, c1) => loadDeletedRangesLoop c1 rest

/-- The method `Cluster.loadDeletedRanges`. -/
def loadDeletedRanges (c : Cluster) : Option Err × Cluster :=
  let bounds := bytesPrefix (strBytes PREFIX_DELETED_RANGE)
  let (it, store1) := c.store.Scan bounds.1 bounds.2
  loadDeletedRangesLoop { c with store := store1 } it

/-- One round of the loop of `loadPreGCRanges`. -/
def loadPreGCRangesBody (c : Cluster) (k : Bytes) (v : StoreValue) : Option Err × Cluster :=
  if k = [] then (none, c)
  else
    match unmarshalRange v with
    | .error err => (some err, c)
    | .ok r => (none, { c with preGCRanges := GoMap.put c.preGCRanges r.Id r })

def loadPreGCRangesLoop (c : Cluster) : List (Bytes × StoreValue) → Option Err × Cluster
  | [] => (none, c)
  | (k, v) :: rest =>
    match c.loadPreGCRangesBody k v with
    | (some err, c1) => (some err, c1)
    | (none, c1) => loadPreGCRangesLoop c1 rest

/-- The method `Cluster.loadPreGCRanges`. -/
def loadPreGCRanges (c : Cluster) : Option Err × Cluster :=
  let bounds := bytesPrefix (strBytes PREFIX_PRE_GC)
  let (it, store1) := c.store.Scan bounds.1 bounds.2
  loadPreGCRangesLoop { c with store := store1 } it

/-- The caches as the first statements of `LoadCache` leave them: every cache
is a new empty one and the id generator is rebuilt from the store. The field
`writeStatistics` is not modelled. -/
def resetCaches (d : Deps) (c : Cluster) : Cluster :=
  { c with dbs := [], nodes := [], ranges := [], creatingTables := [], workingTables := [],
           deletingTables := [], idGener := d.NewClusterIDGenerator c.store,
           preGCRanges := [], deletedRanges := [] }

/-- The method `Cluster.LoadCache`. -/
def LoadCache (d : Deps) (c : Cluster) : LoadResult × Cluster :=
  let c0 := c.resetCaches d
  match c0.loadNodes d with
  | (some err, c1) => (.returned (some err), c1)
  | (none, c1) =>
    match c1.loadDatabases with
    | (some err, c2) => (.returned (some err), c2)
    | (none, c2) =>
      match c2.loadTables with
      | (some err, c3) => (.returned (some err), c3)
      | (none, c3) =>
        match c3.loadRanges with
        | (.panicked, c4) => (.panicked, c4)
        | (.returned (some err), c4) => (.returned (some err), c4)
        | (.returned none, c4) =>
          match c4.loadTrashReplicas with
          | (.panicked, c5) => (.panicked, c5)
          | (.returned (some err), c5) => (.returned (some err), c5)
          | (.returned none, c5) =>
            match c5.loadPreGCRanges with
            | (some err, c6) => (.returned (some err), c6)
            | (none, c6) =>
              match c6.loadDeletedRanges with
              | (some err, c7) => (.returned (some err), c7)
              | (none, c7) => (.returned none, c7)

end Cluster

/-! ## Definitions used to state the properties -/

/-- The cluster a successful `CreateTable` leaves behind: `db` is the database
found under `dbName`, `ks` are the encoded split keys. -/
def createdCluster (d : Deps) (c : Cluster) (now : Time) (dbName tableName : String)
    (columns regxs : List Column) (pkDupCheck : Bool) (db : Database) (ks : List Bytes) :
    Cluster :=
  let tableId := c.idGener.next
  let start := d.EncodeStorePrefix tableId
  let sharingKeys := [start] ++ (sortByLetter ks).map (fun key => start ++ key) ++
    [(bytesPrefix start).2]
  { c with
    idGener := { c.idGener with next := c.idGener.next + 1 }
    heap := fun q => if q = c.heapSize then NewTable
      { Name := tableName, DbName := dbName, Id := tableId, DbId := db.Id,
        Columns := columns, Regxs := regxs, Epoch := some { ConfVer := 1, Version := 1 },
        CreateTime := Time.Unix now, PkDupCheck := pkDupCheck,
        Status := .TableInit, Expand := [] } else c.heap q
    heapSize := c.heapSize + 1
    dbs := c.dbs.map (fun e => if e.1 = dbName then
      (e.1, db.AddTable { name := tableName, id := tableId, ptr := c.heapSize }) else e)
    workingTables := GoMap.put c.workingTables tableId c.heapSize
    creatingTables := GoMap.put c.creatingTables tableId
      { Table := c.heapSize, rangesToCreateList := rangesOf sharingKeys,
        rangeNumber := sharingKeys.length - 1 } }

/-- The boundary keys of a queue of requests: the first start key followed by
every end key. -/
def boundaries (q : List rangeToCreate) : List Bytes :=
  (q.head?.map (fun r => r.startKey)).toList ++ q.map (fun r => r.endKey)

/-- The strict order of `ByLetter`, as a proposition. -/
def ByLetter.lt (x y : Bytes) : Prop := bytesCompare x y = -1

instance ByLetter.decLt : DecidableRel ByLetter.lt :=
  fun x y => inferInstanceAs (Decidable (bytesCompare x y = -1))

/-- One round of a loop that keeps the first element of least `key`: the
common shape of `betterNode` and `worseNode`. -/
def pickMin {α : Type} (key : α → Nat) (acc : Option α) (x : α) : Option α :=
  match acc with
  | none => some x
  | some best => if key x < key best then some x else some best

/-- The non-empty port-stripped IPs of a list of nodes, in node order. -/
def nodeIps (nodes : List Node) : List String :=
  (nodes.map nodeIp).filter (fun ip => ip.length ≠ 0)

/-- The deletion time `DeleteTable` computes. -/
def deletionTime (d : Deps) (now : Time) (fast : Bool) : Time :=
  if fast then now + d.DefaultRetentionTime * (-1) else now

/-- The record `DeleteTable` persists for the table object `table`. -/
def deletedRecord (d : Deps) (now : Time) (fast : Bool) (table : Table) : MetaTable :=
  { table.Table with
    Status := if fast then .TableDeleting else .TableDelete,
    Expand := putUint64BE (toUint64 (Time.Unix (deletionTime d now fast))) }

/-- The batch `DeleteTable` commits for the table object `table`. -/
def deleteBatch (d : Deps) (now : Time) (fast : Bool) (table : Table) : List BatchOp :=
  [.Put (tableKey table.Table.Id) (.table (deletedRecord d now fast table)),
   .Delete (d.autoTransferTableKey table.Table.Id),
   .Delete (d.autoFailoverTableKey table.Table.Id)]

/-- The cluster a successful `DeleteTable` leaves behind: `db` is the database
found under `dbName`, `ref` the entry found under `tableName`. -/
def deletedCluster (d : Deps) (c : Cluster) (now : Time) (dbName tableName : String)
    (fast : Bool) (db : Database) (ref : TableRef) : Cluster :=
  let table := c.deref ref.ptr
  { c with
    store := { c.store with
      kv := (deleteBatch d now fast table).foldl BatchOp.apply c.store.kv
      calls := c.store.calls ++ [.NewBatch] ++ [.Commit (deleteBatch d now fast table)] }
    heap := fun q => if q = ref.ptr then
      { Table := deletedRecord d now fast table, deleteTime := deletionTime d now fast }
      else c.heap q
    deletingTables := GoMap.put c.deletingTables table.Table.Id ref.ptr
    dbs := c.dbs.map (fun e => if e.1 = dbName then
      (e.1, db.DeleteTableByName tableName) else e)
    workingTables := GoMap.del c.workingTables table.Table.Id }

/-- The record `CreateDatabase` builds for a new database. -/
def newDatabaseRecord (c : Cluster) (now : Time) (name properties : String) : MetaDataBase :=
  { Name := name, Id := c.idGener.next, Properties := properties, Version := 0,
    CreateTime := Time.Unix now }

/-- The cluster a successful `CreateDatabase` leaves behind. -/
def databaseCluster (c : Cluster) (now : Time) (name properties : String) : Cluster :=
  let db := newDatabaseRecord c now name properties
  let kv := GoMap.put c.store.kv (dbKey c.idGener.next) (.database db)
  let calls := c.store.calls ++ [.Put (dbKey c.idGener.next) (.database db)]
  { c with
    idGener := { c.idGener with next := c.idGener.next + 1 }
    store := { c.store with kv := kv, calls := calls }
    dbs := GoMap.put c.dbs name (NewDatabase db) }

/-- A table record the status switch of `loadTables` rejects: its status is
`Delete` or `Deleting` and its expansion field is not 8 bytes long, or its
status is none of `Prepare`, `Running`, `Delete` and `Deleting`. -/
def uninterpretable (t : MetaTable) : Prop :=
  ((t.Status = .TableDelete ∨ t.Status = .TableDeleting) ∧ t.Expand.length ≠ 8) ∨
  (t.Status ≠ .TablePrepare ∧ t.Status ≠ .TableRunning ∧
    t.Status ≠ .TableDelete ∧ t.Status ≠ .TableDeleting)

instance uninterpretable.dec : DecidablePred uninterpretable :=
  fun t => by unfold uninterpretable; exact inferInstance

/-- The call `Scan` of the prefix `p`, as the store records it. -/
def scanOf (p : String) : StoreCall :=
  .Scan (bytesPrefix (strBytes p)).1 (bytesPrefix (strBytes p)).2

/-- The entries `loadTables` goes through on the cluster `c`. -/
def Cluster.scannedTables (c : Cluster) : List (Bytes × StoreValue) :=
  (c.store.Scan (bytesPrefix (strBytes PREFIX_TABLE)).1 (bytesPrefix (strBytes PREFIX_TABLE)).2).1

/-- The value `v` unmarshals into a table record whose database is cached in
`c`: `loadTables` reaches its status switch on it. -/
def Cluster.loadable (c : Cluster) (v : StoreValue) : Bool :=
  match unmarshalTable v with
  | .ok t => (c.FindDatabase t.DbName).isSome
  | .error _ => false

/-- The value `v` is a table record a round of `loadTables` loads without an
error on the cluster `c`: it unmarshals into a table, the database of the
table is cached in `c` and the status switch accepts the table. -/
def Cluster.accepts (c : Cluster) (v : StoreValue) : Bool :=
  match unmarshalTable v with
  | .ok t => (c.FindDatabase t.DbName).isSome && !decide (uninterpretable t)
  | .error _ => false

/-- The table object `loadTables` builds from a record in status `Delete` or
`Deleting`. -/
def reloadedTable (rec : MetaTable) : Table :=
  { Table := rec, deleteTime := Time.ofUnix (toInt64 (uint64BE rec.Expand)) }

/-- The table `id` is in `deletingTables` and its object is `obj`. -/
def Cluster.holdsDeleted (c : Cluster) (id : Nat) (obj : Table) : Prop :=
  ∃ p, GoMap.get? c.deletingTables id = some p ∧ p < c.heapSize ∧ c.heap p = obj

/-! ### Reachable cluster states -/

/-- The database cached under the name `n` has the entry `r` in its table
set. -/
def Cluster.hasRef (c : Cluster) (n : String) (r : TableRef) : Prop :=
  ∃ e ∈ c.dbs, e.1 = n ∧ r ∈ e.2.tables

/-- The table id `id` is known to the cluster: it is in the table set of a
database or in one of the three table caches. -/
def Cluster.known (c : Cluster) (id : Nat) : Prop :=
  (∃ n r, c.hasRef n r ∧ r.id = id) ∨ GoMap.has c.creatingTables id = true ∨
    GoMap.has c.workingTables id = true ∨ GoMap.has c.deletingTables id = true

/-- The ids of the table records of a store. -/
def storedTableIds (kv : List (Bytes × StoreValue)) : List Nat :=
  kv.filterMap (fun e => match e.2 with
    | .table t => some t.Id
    | _ => none)

/-- The cluster states reachable through `loadTables`, `CreateTable`,
`CancelTable` and `DeleteTable`. A run starts with `loadTables` on a cluster
whose table caches and database table sets are empty (as `LoadCache` leaves
them before it calls `loadTables`) over a store whose table records have
pairwise distinct ids, all below the next id of the generator. Between two
calls the store and the generator may start or stop failing. -/
inductive Reachable (d : Deps) : Cluster → Prop
  | boot (c0 : Cluster) (hc : c0.creatingTables = []) (hw : c0.workingTables = [])
      (hd : c0.deletingTables = []) (hdb : ∀ e ∈ c0.dbs, e.2.tables = [])
      (hnd : (storedTableIds c0.store.kv).Nodup)
      (hlt : ∀ id ∈ storedTableIds c0.store.kv, id < c0.idGener.next) :
      Reachable d (c0.loadTables).2
  | createTable (c : Cluster) (now : Time) (dbName tableName : String)
      (columns regxs : List Column) (pkDupCheck : Bool) (sliceKeys : List Bytes) :
      Reachable d c →
      Reachable d (c.CreateTable d now dbName tableName columns regxs pkDupCheck sliceKeys).2
  | cancelTable (c : Cluster) (dbName tName : String) :
      Reachable d c → Reachable d (c.CancelTable dbName tName).2
  | deleteTable (c : Cluster) (now : Time) (dbName tableName : String) (fast : Bool) :
      Reachable d c → Reachable d (c.DeleteTable d now dbName tableName fast).2
  | faults (c : Cluster) (storeFailing genFailing : Bool) :
      Reachable d c →
      Reachable d { c with store := { c.store with failing := storeFailing },
                           idGener := { c.idGener with failing := genFailing } }

/-- The invariant of the table caches kept by the reachable states. -/
structure TablesInv (c : Cluster) : Prop where
  refWorking : ∀ n r, c.hasRef n r → GoMap.has c.workingTables r.id = true
  refObject : ∀ n r, c.hasRef n r → (c.heap r.ptr).Table.Id = r.id ∧ r.ptr < c.heapSize
  refUnique : ∀ n1 r1 n2 r2, c.hasRef n1 r1 → c.hasRef n2 r2 → r1.id = r2.id →
    n1 = n2 ∧ r1.name = r2.name
  fresh : ∀ id, c.known id → id < c.idGener.next
  creating : ∀ id, GoMap.has c.creatingTables id = true →
    GoMap.has c.workingTables id = true ∨ GoMap.has c.deletingTables id = true
  disjoint : ∀ id, GoMap.has c.workingTables id = true →
    GoMap.has c.deletingTables id = true → False

/-! ### Concrete inputs -/

/-- A selector that accepts every node. -/
def demoSelector : NodeSelector := { Name := "any", CanSelect := fun _ => true }

/-- Concrete dependencies: keys are encoded as their raw bytes (as for a
string column), a table prefix is the byte 1 followed by the table id as 8
big-endian bytes, no word is reserved, the retention time is three days, a
new node has no ranges, an id generator rebuilt from the store starts at 100. -/
def demoDeps : Deps where
  EncodePrimaryKey := fun _ k => .ok k
  EncodeStorePrefix := fun id => 1 :: putUint64BE id
  isSqlReservedWord := fun _ => false
  DefaultRetentionTime := 259200000000000
  autoTransferTableKey := fun id => strBytes "$auto_transfer_table_" ++ fmtD id
  autoFailoverTableKey := fun id => strBytes "$auto_failover_table_" ++ fmtD id
  NewNodeLoginSelector := demoSelector
  NewDifferIPSelector := fun _ => demoSelector
  NewWriterOpsThresholdSelector := demoSelector
  NewStorageThresholdSelector := demoSelector
  uint64ToBytes := putUint64BE
  NewNode := fun n => { Id := n.Id, ServerAddr := n.ServerAddr, RangeCount := 0, availableRatio := 0 }
  NewClusterIDGenerator := fun _ => { next := 100, failing := false }

/-- Dependencies whose table prefix is the single byte `0xFF`. -/
def demoDepsFF : Deps := { demoDeps with EncodeStorePrefix := fun _ => [255] }

def demoDb : Database :=
  { Name := "db", Id := 1, Properties := "", Version := 0, CreateTime := 0, tables := [] }

/-- A cluster with one empty database `db` and no tables; the next id is 7. -/
def demoCluster : Cluster where
  clusterId := 1
  nodeId := 1
  idGener := { next := 7, failing := false }
  dbs := [("db", demoDb)]
  heap := fun _ => default
  heapSize := 0
  creatingTables := []
  workingTables := []
  deletingTables := []
  nodes := []
  store := { kv := [], calls := [], failing := false }
  autoFailoverUnable := false
  autoTransferUnable := false

/-- A first-primary-key column. -/
def demoPk : Column := { Name := "id", Id := 1, DataType := 7, PrimaryKey := 1 }

/-- A column outside the primary key. -/
def demoCol : Column := { Name := "v", Id := 2, DataType := 7, PrimaryKey := 0 }

/-- The cluster `demoCluster` after the table `t` has been created in it
without split keys. -/
def demoCreated : Cluster :=
  (demoCluster.CreateTable demoDeps 5000000000 "db" "t" [demoPk] [] false []).2

/-- The cluster `demoCluster` after `loadTables` (its store is empty) and the
creation of the table `t` without split keys. -/
def demoReached : Cluster :=
  ((demoCluster.loadTables).2.CreateTable demoDeps 5000000000 "db" "t" [demoPk] [] false []).2

/-- A persisted table record in status `Running` whose expansion field holds
the two bytes `1, 2`. -/
def demoRunningTable : MetaTable :=
  { Name := "t", DbName := "db", Id := 7, DbId := 1, Columns := [demoPk], Regxs := [],
    Epoch := some { ConfVer := 1, Version := 1 }, CreateTime := 5, PkDupCheck := false,
    Status := .TableRunning, Expand := [1, 2] }

/-- The cluster `demoCluster` before its tables are loaded, over a store that
holds the record `demoRunningTable`. -/
def demoStored : Cluster :=
  { demoCluster with
    idGener := { next := 8, failing := false }
    store := { kv := [(tableKey 7, .table demoRunningTable)], calls := [], failing := false } }

/-- The cluster `demoStored` after `loadTables`. -/
def demoLoaded : Cluster := (Cluster.loadTables demoStored).2

/-- A cluster with node 1 (A, 5 ranges) and node 2 (B, 2 ranges), on
different addresses. -/
def demoNodes : Cluster :=
  { demoCluster with
    nodes := [{ Id := 1, ServerAddr := "1.1.1.1:6060", RangeCount := 5, availableRatio := 50 },
              { Id := 2, ServerAddr := "1.1.1.2:6060", RangeCount := 2, availableRatio := 50 }] }

/-- A range without peers. -/
def demoRange : Range := { Id := 10, Peers := [], DownPeers := [] }

/-- A cluster with three nodes: nodes 1 and 2 on the IP `9.9.9.9` with
ratios 50 and 40, node 3 on another IP with the lower ratio 10. -/
def demoColocated : Cluster :=
  { demoCluster with
    nodes := [{ Id := 1, ServerAddr := "9.9.9.9:6060", RangeCount := 1, availableRatio := 50 },
              { Id := 2, ServerAddr := "9.9.9.9:6061", RangeCount := 1, availableRatio := 40 },
              { Id := 3, ServerAddr := "8.8.8.8:6060", RangeCount := 1, availableRatio := 10 }] }

/-- A range with one peer on each of the nodes 3, 1 and 2, none of them down. -/
def demoRange3 : Range :=
  { Id := 10,
    Peers := [{ Id := 103, NodeId := 3 }, { Id := 101, NodeId := 1 }, { Id := 102, NodeId := 2 }],
    DownPeers := [] }

/-- The range `demoRange3` with the peer on node 3 recorded as down. -/
def demoRangeDown : Range :=
  { demoRange3 with DownPeers := [{ Peer := some { Id := 103, NodeId := 3 }, DownSeconds := 60 }] }

/-- The cluster `demoLoaded` after the deletion of the table `t` at second
400000000 and a half. -/
def demoDeleted : Cluster :=
  (demoLoaded.DeleteTable demoDeps 400000000500000000 "db" "t" false).2

/-- A cluster with the database `db` and empty table caches over the store of
`demoDeleted`. -/
def demoRestart : Cluster := { demoCluster with store := demoDeleted.store }

/-- Dependencies for which `select` is the only reserved word. -/
def demoDepsReserved : Deps :=
  { demoDeps with isSqlReservedWord := fun w => decide (w = "select") }

/-- A column named by a reserved word. -/
def demoColSelect : Column := { Name := "select", Id := 3, DataType := 7, PrimaryKey := 0 }

/-- A persisted range record of table 7 without peers. -/
def demoTrashRange : MetaRange :=
  { Id := 5, StartKey := [1], EndKey := [2], TableId := 7, Peers := [] }

/-- The cluster `demoCluster` over a store that holds the record
`demoTrashRange` under its range key. -/
def demoTrashStored : Cluster :=
  { demoCluster with
    store := { kv := [(rangeKey 5, .range demoTrashRange)], calls := [], failing := false } }

/-- A persisted table in status `Delete` whose expansion field has 2 bytes. -/
def demoBadTable : MetaTable := { demoRunningTable with Status := .TableDelete }

/-- The cluster `demoCluster` over a store that holds the record of the
database `db` and the record `demoBadTable`. -/
def demoBadStored : Cluster :=
  { demoCluster with
    store := { kv := [(dbKey 1, .database { Name := "db", Id := 1, Properties := "",
                                             Version := 0, CreateTime := 0 }),
                      (tableKey 7, .table demoBadTable)],
               calls := [], failing := false } }

/-- The cluster `demoCluster` over a store that holds the record
`demoBadTable` and no record of its database. -/
def demoOrphanStored : Cluster :=
  { demoCluster with
    store := { kv := [(tableKey 7, .table demoBadTable)], calls := [], failing := false } }

/-- The record of a running table 3 of a database `gone`. -/
def demoStrayTable : MetaTable :=
  { demoRunningTable with Name := "u", DbName := "gone", Id := 3, DbId := 2 }

/-- The cluster `demoLoaded` over a store that holds the record
`demoStrayTable` too; its database is not cached. -/
def demoLoadedStray : Cluster :=
  let kv := GoMap.put demoLoaded.store.kv (tableKey 3) (.table demoStrayTable)
  { demoLoaded with store := { demoLoaded.store with kv := kv } }

/-- The cluster `demoLoadedStray` after the deletion of the table `t` at
second 400000000 and a half. -/
def demoDeletedStray : Cluster :=
  (demoLoadedStray.DeleteTable demoDeps 400000000500000000 "db" "t" false).2

/-- A cluster with the database `db` and empty table caches over the store of
`demoDeletedStray`. -/
def demoRestartStray : Cluster := { demoCluster with store := demoDeletedStray.store }

/-! ## The byte order -/

theorem bytesCompare_eq_zero_iff (a b : Bytes) : bytesCompare a b = 0 ↔ a = b := by
  induction a generalizing b with
  | nil => cases b <;> simp [bytesCompare]
  | cons x xs ih =>
    cases b with
    | nil => simp [bytesCompare]
    | cons y ys =>
      simp only [bytesCompare]
      split
      · simp; omega
      · split
        · simp; omega
        · rw [ih]; simp; omega

theorem bytesCompare_swap (a b : Bytes) :
    bytesCompare a b = -1 ↔ bytesCompare b a = 1 := by
  induction a generalizing b with
  | nil => cases b <;> simp [bytesCompare]
  | cons x xs ih =>
    cases b with
    | nil => simp [bytesCompare]
    | cons y ys =>
      simp only [bytesCompare]
      by_cases h1 : x < y
      · have h2 : ¬ y < x := by omega
        simp [h1, h2]
      · by_cases h2 : y < x
        · simp [h1, h2]
        · simp [h1, h2, ih]

theorem bytesCompare_cases (a b : Bytes) :
    bytesCompare a b = -1 ∨ bytesCompare a b = 0 ∨ bytesCompare a b = 1 := by
  induction a generalizing b with
  | nil => cases b <;> simp [bytesCompare]
  | cons x xs ih =>
    cases b with
    | nil => simp [bytesCompare]
    | cons y ys =>
      simp only [bytesCompare]
      split
      · simp
      · split
        · simp
        · exact ih ys

theorem bytesCompare_trans {a b c : Bytes}
    (h1 : bytesCompare a b = -1) (h2 : bytesCompare b c = -1) : bytesCompare a c = -1 := by
  induction a generalizing b c with
  | nil =>
    cases b with
    | nil => simp [bytesCompare] at h1
    | cons y ys => cases c <;> simp_all [bytesCompare]
  | cons x xs ih =>
    cases b with
    | nil => simp [bytesCompare] at h1
    | cons y ys =>
      cases c with
      | nil => simp [bytesCompare] at h2
      | cons z zs =>
        simp only [bytesCompare] at h1 h2 ⊢
        by_cases hxy : x < y
        · by_cases hyz : y < z
          · have : x < z := by omega
            simp [this]
          · by_cases hzy : z < y
            · simp [hyz, hzy] at h2
            · have : x < z := by omega
              simp [this]
        · by_cases hyx : y < x
          · simp [hxy, hyx] at h1
          · simp only [hxy, hyx, if_false] at h1
            have hxy' : x = y := by omega
            subst hxy'
            by_cases hxz : x < z
            · simp [hxz]
            · by_cases hzx : z < x
              · simp [hxz, hzx] at h2
              · simp only [hxz, hzx, if_false] at h2 ⊢
                exact ih h1 h2

theorem bytesCompare_append_left (p a b : Bytes) :
    bytesCompare (p ++ a) (p ++ b) = bytesCompare a b := by
  induction p with
  | nil => rfl
  | cons x xs ih => simp [bytesCompare, ih]

theorem bytesCompare_self (a : Bytes) : bytesCompare a a = 0 :=
  (bytesCompare_eq_zero_iff a a).2 rfl

theorem bytesCompare_append_nonempty (p k : Bytes) (hk : k ≠ []) :
    bytesCompare p (p ++ k) = -1 := by
  have := bytesCompare_append_left p [] k
  simp only [List.append_nil] at this
  rw [this]
  cases k with
  | nil => exact absurd rfl hk
  | cons y ys => simp [bytesCompare]

theorem prefixLimit_gt (p l k : Bytes) (h : prefixLimit p = some l) :
    bytesCompare (p ++ k) l = -1 := by
  induction p generalizing l with
  | nil => simp [prefixLimit] at h
  | cons x xs ih =>
    simp only [prefixLimit] at h
    cases hx : prefixLimit xs with
    | some l2 =>
      simp only [hx] at h
      cases h
      simp [bytesCompare, ih l2 hx]
    | none =>
      simp only [hx] at h
      split at h
      · cases h
        simp [bytesCompare]
      · cases h

theorem prefixLimit_isSome_iff (p : Bytes) :
    (∃ l, prefixLimit p = some l) ↔ ∃ b ∈ p, b < 255 := by
  induction p with
  | nil => simp [prefixLimit]
  | cons x xs ih =>
    simp only [prefixLimit, List.mem_cons, exists_eq_or_imp]
    cases hx : prefixLimit xs with
    | some l2 =>
      have : ∃ b ∈ xs, b < 255 := ih.1 ⟨l2, hx⟩
      simp [this]
    | none =>
      have hn : ¬ ∃ b ∈ xs, b < 255 := fun h => by
        obtain ⟨l, hl⟩ := ih.2 h
        rw [hx] at hl
        cases hl
      by_cases h : x < 255 <;> simp [h, hn]

/-! ## Sorting the split keys -/

theorem ByLetter.le_iff (x y : Bytes) : ByLetter.le x y ↔ bytesCompare y x ≠ -1 := by
  simp [ByLetter.le, ByLetter.Less]

theorem ByLetter.le_total (x y : Bytes) : ByLetter.le x y ∨ ByLetter.le y x := by
  rw [ByLetter.le_iff, ByLetter.le_iff]
  by_cases h : bytesCompare y x = -1
  · right
    rw [(bytesCompare_swap y x).1 h]
    decide
  · exact Or.inl h

theorem ByLetter.le_trans {x y z : Bytes} (h1 : ByLetter.le x y) (h2 : ByLetter.le y z) :
    ByLetter.le x z := by
  rw [ByLetter.le_iff] at *
  intro h
  rcases bytesCompare_cases y x with h3 | h3 | h3
  · exact h1 h3
  · rw [bytesCompare_eq_zero_iff] at h3
    subst h3
    exact h2 h
  · exact h2 (bytesCompare_trans h ((bytesCompare_swap x y).2 h3))

theorem ByLetter.le_antisymm {x y : Bytes} (h1 : ByLetter.le x y) (h2 : ByLetter.le y x) :
    x = y := by
  rw [ByLetter.le_iff] at *
  rcases bytesCompare_cases x y with h3 | h3 | h3
  · exact absurd h3 h2
  · exact (bytesCompare_eq_zero_iff x y).1 h3
  · exact absurd ((bytesCompare_swap y x).2 h3) h1

instance ByLetter.isTotal : IsTotal Bytes ByLetter.le := ⟨ByLetter.le_total⟩
instance ByLetter.isTrans : IsTrans Bytes ByLetter.le := ⟨fun _ _ _ => ByLetter.le_trans⟩
instance ByLetter.isAntisymm : IsAntisymm Bytes ByLetter.le := ⟨fun _ _ => ByLetter.le_antisymm⟩

theorem sortByLetter_sorted (keys : List Bytes) : (sortByLetter keys).Sorted ByLetter.le :=
  List.sorted_insertionSort ByLetter.le keys

theorem sortByLetter_perm (keys : List Bytes) : (sortByLetter keys).Perm keys :=
  List.perm_insertionSort ByLetter.le keys

/-- Any sorted arrangement of the keys is the one `sortByLetter` computes. -/
theorem sortByLetter_unique (keys out : List Bytes) (hp : out.Perm keys)
    (hs : out.Sorted ByLetter.le) : out = sortByLetter keys :=
  List.eq_of_perm_of_sorted (hp.trans (sortByLetter_perm keys).symm) hs (sortByLetter_sorted keys)

theorem sortByLetter_congr {ks ks2 : List Bytes} (hp : ks.Perm ks2) :
    sortByLetter ks = sortByLetter ks2 :=
  sortByLetter_unique ks2 _ ((sortByLetter_perm ks).trans hp) (sortByLetter_sorted ks)

theorem sortByLetter_length (keys : List Bytes) : (sortByLetter keys).length = keys.length :=
  (sortByLetter_perm keys).length_eq

/-! ## `CreateTable` -/

theorem CreateTable_ok_inv {d : Deps} {c c1 : Cluster} {now : Time} {dbName tableName : String}
    {columns regxs : List Column} {pkDupCheck : Bool} {sliceKeys : List Bytes} {t : Nat}
    (h : c.CreateTable d now dbName tableName columns regxs pkDupCheck sliceKeys = (.ok t, c1)) :
    ∃ db ks, (columns.any fun col => d.isSqlReservedWord col.Name) = false ∧
      c.FindDatabase dbName = some db ∧ db.FindTable tableName = none ∧
      c.idGener.failing = false ∧
      (sliceKeys = [] ∧ ks = [] ∨ sliceKeys ≠ [] ∧ encodeSplitKeys d sliceKeys columns = .ok ks) ∧
      t = c.heapSize ∧
      c1 = createdCluster d c now dbName tableName columns regxs pkDupCheck db ks := by
  unfold Cluster.CreateTable at h
  split at h
  · cases h
  · rename_i hres
    split at h
    · cases h
    · rename_i db hdb
      split at h
      · cases h
      · rename_i hft
        cases hg : c.idGener.failing with
        | true =>
          simp [IDGenerator.GenID, hg] at h
        | false =>
          simp only [IDGenerator.GenID, hg, Bool.false_eq_true, if_false] at h
          by_cases hs : sliceKeys = []
          · subst hs
            simp at h
            refine ⟨db, [], by simpa using hres, hdb, hft, rfl, Or.inl ⟨rfl, rfl⟩, ?_, ?_⟩
            · exact h.1.symm
            · rw [← h.2]; simp [createdCluster, Cluster.alloc, Cluster.setDb, hg, NewCreateTable, sortByLetter]
          · have hl : sliceKeys.length ≠ 0 := by
              simpa using hs
            rw [if_pos hl] at h
            cases he : encodeSplitKeys d sliceKeys columns with
            | error e => simp [he] at h
            | ok ks =>
              simp [he] at h
              refine ⟨db, ks, by simpa using hres, hdb, hft, rfl, Or.inr ⟨hs, rfl⟩, h.1.symm, ?_⟩
              rw [← h.2]; simp [createdCluster, Cluster.alloc, Cluster.setDb, hg, NewCreateTable]

theorem GoMap.get?_put_self {κ α : Type} [DecidableEq κ] (m : GoMap κ α) (k : κ) (v : α) :
    GoMap.get? (GoMap.put m k v) k = some v := by
  simp [GoMap.get?, GoMap.put]

theorem rangesOf_cons_cons (a b : Bytes) (rest : List Bytes) :
    rangesOf (a :: b :: rest) = { startKey := a, endKey := b } :: rangesOf (b :: rest) := by
  simp only [rangesOf, List.length_cons, Nat.add_sub_cancel]
  rw [List.range_succ_eq_map]
  simp [List.map_map, Function.comp_def]

theorem rangesOf_single (a : Bytes) : rangesOf [a] = [] := rfl

theorem rangesOf_length (keys : List Bytes) : (rangesOf keys).length = keys.length - 1 := by
  simp [rangesOf]

theorem rangesOf_chain (keys : List Bytes) :
    List.Chain' (fun r s : rangeToCreate => r.endKey = s.startKey) (rangesOf keys) := by
  induction keys with
  | nil => simp [rangesOf]
  | cons a rest ih =>
    cases rest with
    | nil => simp [rangesOf_single]
    | cons b rest2 =>
      rw [rangesOf_cons_cons]
      cases rest2 with
      | nil => simp [rangesOf_single]
      | cons c rest3 =>
        rw [rangesOf_cons_cons] at ih ⊢
        exact List.Chain'.cons rfl ih

theorem rangesOf_head (a b : Bytes) (rest : List Bytes) :
    (rangesOf (a :: b :: rest)).head?.map (fun r => r.startKey) = some a := by
  rw [rangesOf_cons_cons]; rfl

theorem rangesOf_getLast (a : Bytes) (mid : List Bytes) (z : Bytes) :
    (rangesOf (a :: (mid ++ [z]))).getLast?.map (fun r => r.endKey) = some z := by
  induction mid generalizing a with
  | nil => simp [rangesOf_cons_cons, rangesOf_single]
  | cons b rest ih =>
    simp only [List.cons_append]
    rw [rangesOf_cons_cons]
    have := ih b
    cases hr : rangesOf (b :: (rest ++ [z])) with
    | nil => rw [hr] at this; simp at this
    | cons r rs =>
      rw [hr] at this
      rw [List.getLast?_cons_cons]
      exact this

theorem boundaries_rangesOf (a b : Bytes) (rest : List Bytes) :
    boundaries (rangesOf (a :: b :: rest)) = a :: b :: rest := by
  have key : ∀ (l : List Bytes) (x : Bytes),
      (rangesOf (x :: l)).map (fun r => r.endKey) = l := by
    intro l
    induction l with
    | nil => intro x; simp [rangesOf_single]
    | cons y ys ih => intro x; rw [rangesOf_cons_cons]; simp [ih y]
  simp only [boundaries, rangesOf_head, key]
  rfl

theorem encodeKeysBy_length {d : Deps} {c : Column} {keys ks : List Bytes}
    (h : encodeKeysBy d c keys = .ok ks) : ks.length = keys.length := by
  induction keys generalizing ks with
  | nil => simp [encodeKeysBy] at h; subst h; rfl
  | cons k rest ih =>
    simp only [encodeKeysBy] at h
    split at h
    · cases h
    · split at h
      · cases h
      · rename_i r hr
        cases h
        simp [ih hr]

theorem encodeSplitKeys_length {d : Deps} {columns : List Column} {keys ks : List Bytes}
    (h : encodeSplitKeys d keys columns = .ok ks) :
    ((∃ col ∈ columns, col.PrimaryKey = 1) → ks.length = keys.length) ∧
    ((∀ col ∈ columns, col.PrimaryKey ≠ 1) → ks = []) := by
  induction columns with
  | nil => simp [encodeSplitKeys] at h; subst h; simp
  | cons col rest ih =>
    simp only [encodeSplitKeys] at h
    split at h
    · rename_i hpk
      constructor
      · intro _; exact encodeKeysBy_length h
      · intro hno; exact absurd hpk (hno col (List.mem_cons_self _ _))
    · rename_i hpk
      obtain ⟨h1, h2⟩ := ih h
      constructor
      · rintro ⟨col2, hmem, hc⟩
        rcases List.mem_cons.1 hmem with rfl | hmem
        · exact absurd hc hpk
        · exact h1 ⟨col2, hmem, hc⟩
      · intro hno
        exact h2 (fun col2 hm => hno col2 (List.mem_cons_of_mem _ hm))

theorem createdCluster_entry (d : Deps) (c : Cluster) (now : Time) (dbName tableName : String)
    (columns regxs : List Column) (pkDupCheck : Bool) (db : Database) (ks : List Bytes) :
    GoMap.get? (createdCluster d c now dbName tableName columns regxs pkDupCheck db
      ks).creatingTables c.idGener.next =
    some { Table := c.heapSize,
           rangesToCreateList := rangesOf (d.EncodeStorePrefix c.idGener.next ::
             ((sortByLetter ks).map (fun key => d.EncodeStorePrefix c.idGener.next ++ key) ++
               [(bytesPrefix (d.EncodeStorePrefix c.idGener.next)).2])),
           rangeNumber := ks.length + 1 } := by
  simp [createdCluster, GoMap.get?_put_self, sortByLetter_length]

theorem createdCluster_deref (d : Deps) (c : Cluster) (now : Time) (dbName tableName : String)
    (columns regxs : List Column) (pkDupCheck : Bool) (db : Database) (ks : List Bytes) :
    ((createdCluster d c now dbName tableName columns regxs pkDupCheck db ks).deref
      c.heapSize).Table.Id = c.idGener.next := by
  simp [createdCluster, Cluster.deref, NewTable]

/-- C1 (amended): a successful `CreateTable` adds to the creating-table cache,
under the new table id, an entry for the new table whose queued requests are
adjacent (each `endKey` is the next `startKey`), start at the table start key
and end at the table end key. When some column has `PrimaryKey == 1` the entry
holds `N + 1` requests and a countdown of `N + 1` for `N` split keys; when no
column has, the split keys are ignored and it holds the single request
`[start, end)`. -/
theorem CreateTable_queued_ranges (d : Deps) (c c1 : Cluster) (now : Time)
    (dbName tableName : String) (columns regxs : List Column) (pkDupCheck : Bool)
    (sliceKeys : List Bytes) (t : Nat)
    (h : c.CreateTable d now dbName tableName columns regxs pkDupCheck sliceKeys = (.ok t, c1)) :
    (c1.deref t).Table.Id = c.idGener.next ∧
    ∃ ct, GoMap.get? c1.creatingTables c.idGener.next = some ct ∧ ct.Table = t ∧
      ((∃ col ∈ columns, col.PrimaryKey = 1) →
        ct.rangesToCreateList.length = sliceKeys.length + 1 ∧
        ct.rangeNumber = sliceKeys.length + 1) ∧
      ((∀ col ∈ columns, col.PrimaryKey ≠ 1) →
        ct.rangesToCreateList =
          [{ startKey := d.EncodeStorePrefix c.idGener.next,
             endKey := (bytesPrefix (d.EncodeStorePrefix c.idGener.next)).2 }] ∧
        ct.rangeNumber = 1) ∧
      List.Chain' (fun r s : rangeToCreate => r.endKey = s.startKey) ct.rangesToCreateList ∧
      ct.rangesToCreateList.head?.map (fun r => r.startKey) =
        some (d.EncodeStorePrefix c.idGener.next) ∧
      ct.rangesToCreateList.getLast?.map (fun r => r.endKey) =
        some (bytesPrefix (d.EncodeStorePrefix c.idGener.next)).2 := by
  obtain ⟨db, ks, -, -, -, -, hks, ht, hc1⟩ := CreateTable_ok_inv h
  subst ht hc1
  refine ⟨createdCluster_deref .., _, createdCluster_entry .., rfl, ?_, ?_, rangesOf_chain _, ?_,
    rangesOf_getLast ..⟩
  · intro hpk
    have hlen : ks.length = sliceKeys.length := by
      rcases hks with ⟨h1, h2⟩ | ⟨-, h2⟩
      · simp [h1, h2]
      · exact (encodeSplitKeys_length h2).1 hpk
    simp [rangesOf_length, sortByLetter_length, hlen]
  · intro hno
    have hnil : ks = [] := by
      rcases hks with ⟨-, h2⟩ | ⟨-, h2⟩
      · exact h2
      · exact (encodeSplitKeys_length h2).2 hno
    subst hnil
    simp [sortByLetter, rangesOf_cons_cons, rangesOf_single]
  · cases hm : (sortByLetter ks).map (fun key => d.EncodeStorePrefix c.idGener.next ++ key) with
    | nil => simp [rangesOf_cons_cons]
    | cons x xs => simp [rangesOf_cons_cons]

/-- C1, an instance: three split keys on a table with a primary-key column
give four queued requests. -/
theorem CreateTable_queued_ranges_witness :
    demoCluster.CreateTable demoDeps 5000000000 "db" "t" [demoPk] [] false [[98], [97], [99]] =
      (.ok 0, createdCluster demoDeps demoCluster 5000000000 "db" "t" [demoPk] [] false demoDb
        [[98], [97], [99]]) ∧
    ∃ ct, GoMap.get? (createdCluster demoDeps demoCluster 5000000000 "db" "t" [demoPk] [] false
        demoDb [[98], [97], [99]]).creatingTables 7 = some ct ∧
      ct.rangesToCreateList.length = 4 ∧ ct.rangeNumber = 4 :=
  ⟨rfl,
   let ⟨_, ct, h1, _, h2, _⟩ := CreateTable_queued_ranges demoDeps demoCluster _ 5000000000 "db"
     "t" [demoPk] [] false [[98], [97], [99]] 0 rfl
   ⟨ct, h1, h2 ⟨demoPk, by decide, rfl⟩⟩⟩

/-- C1 as stated fails: with one split key and no column of `PrimaryKey == 1`
the call succeeds and queues one request, not two. -/
theorem CreateTable_split_key_ignored :
    (demoCluster.CreateTable demoDeps 5000000000 "db" "t" [demoCol] [] false [[97]]).1 = .ok 0 ∧
    ∃ ct, GoMap.get? (demoCluster.CreateTable demoDeps 5000000000 "db" "t" [demoCol] [] false
        [[97]]).2.creatingTables 7 = some ct ∧
      ct.rangesToCreateList.length = 1 ∧ ct.rangeNumber = 1 ∧
      ct.rangesToCreateList.length ≠ [[97]].length + 1 :=
  ⟨rfl, _, rfl, rfl, rfl, by decide⟩

theorem CreateTable_ok_of {d : Deps} {c : Cluster} {now : Time} {dbName tableName : String}
    {columns regxs : List Column} {pkDupCheck : Bool} {sliceKeys : List Bytes}
    {db : Database} {ks : List Bytes}
    (hres : (columns.any fun col => d.isSqlReservedWord col.Name) = false)
    (hdb : c.FindDatabase dbName = some db) (hft : db.FindTable tableName = none)
    (hg : c.idGener.failing = false)
    (hks : sliceKeys = [] ∧ ks = [] ∨
      sliceKeys ≠ [] ∧ encodeSplitKeys d sliceKeys columns = .ok ks) :
    c.CreateTable d now dbName tableName columns regxs pkDupCheck sliceKeys =
      (.ok c.heapSize,
       createdCluster d c now dbName tableName columns regxs pkDupCheck db ks) := by
  unfold Cluster.CreateTable
  rw [if_neg (by simp [hres])]
  simp only [hdb, hft, IDGenerator.GenID, hg, Bool.false_eq_true, if_false]
  rcases hks with ⟨h1, h2⟩ | ⟨h1, h2⟩
  · subst h1 h2
    simp [createdCluster, Cluster.alloc, Cluster.setDb, hg, NewCreateTable, sortByLetter]
  · have hl : sliceKeys.length ≠ 0 := by simpa using h1
    rw [if_pos hl]
    simp [h2, createdCluster, Cluster.alloc, Cluster.setDb, hg, NewCreateTable]

theorem encodeKeysBy_perm {d : Deps} {c : Column} {keys keys2 : List Bytes}
    (hp : keys.Perm keys2) :
    ∀ ks, encodeKeysBy d c keys = .ok ks →
      ∃ ks2, encodeKeysBy d c keys2 = .ok ks2 ∧ ks.Perm ks2 := by
  induction hp with
  | nil => intro ks h; exact ⟨ks, h, List.Perm.refl _⟩
  | cons k _ ih =>
    intro ks h
    simp only [encodeKeysBy] at h ⊢
    cases hk : d.EncodePrimaryKey c k with
    | error e => simp [hk] at h
    | ok buf =>
      simp only [hk] at h ⊢
      split at h
      · cases h
      · rename_i r hr
        cases h
        obtain ⟨r2, hr2, hp2⟩ := ih r hr
        exact ⟨buf :: r2, by simp [hr2], hp2.cons buf⟩
  | swap k1 k2 l =>
    intro ks h
    simp only [encodeKeysBy] at h ⊢
    cases hk2 : d.EncodePrimaryKey c k2 with
    | error e => simp [hk2] at h
    | ok b2 =>
      cases hk1 : d.EncodePrimaryKey c k1 with
      | error e => simp [hk1, hk2] at h
      | ok b1 =>
        cases hl : encodeKeysBy d c l with
        | error e => simp [hk1, hk2, hl] at h
        | ok r =>
          simp [hk1, hk2, hl] at h
          subst h
          exact ⟨b1 :: b2 :: r, by simp, List.Perm.swap _ _ _⟩
  | trans _ _ ih1 ih2 =>
    intro ks h
    obtain ⟨ks2, h2, p2⟩ := ih1 ks h
    obtain ⟨ks3, h3, p3⟩ := ih2 ks2 h2
    exact ⟨ks3, h3, p2.trans p3⟩

theorem encodeSplitKeys_perm {d : Deps} {columns : List Column} {keys keys2 ks : List Bytes}
    (hp : keys.Perm keys2) (h : encodeSplitKeys d keys columns = .ok ks) :
    ∃ ks2, encodeSplitKeys d keys2 columns = .ok ks2 ∧ ks.Perm ks2 := by
  induction columns with
  | nil => exact ⟨[], rfl, by simp [encodeSplitKeys] at h; subst h; exact List.Perm.refl _⟩
  | cons col rest ih =>
    simp only [encodeSplitKeys] at h ⊢
    split
    · rename_i hpk
      rw [if_pos hpk] at h
      exact encodeKeysBy_perm hp ks h
    · rename_i hpk
      rw [if_neg hpk] at h
      exact ih h

theorem encodeSplitKeys_nil (d : Deps) (columns : List Column) :
    encodeSplitKeys d [] columns = .ok [] := by
  induction columns with
  | nil => rfl
  | cons col rest ih =>
    simp only [encodeSplitKeys]
    split
    · rfl
    · exact ih

theorem createdCluster_congr (d : Deps) (c : Cluster) (now : Time) (dbName tableName : String)
    (columns regxs : List Column) (pkDupCheck : Bool) (db : Database) {ks ks2 : List Bytes}
    (hp : ks.Perm ks2) :
    createdCluster d c now dbName tableName columns regxs pkDupCheck db ks =
      createdCluster d c now dbName tableName columns regxs pkDupCheck db ks2 := by
  simp [createdCluster, sortByLetter_congr hp]

/-- The outcome of a successful `CreateTable` does not depend on the order
of the split keys. -/
theorem CreateTable_perm {d : Deps} {c c1 : Cluster} {now : Time} {dbName tableName : String}
    {columns regxs : List Column} {pkDupCheck : Bool} {sliceKeys : List Bytes} {t : Nat}
    (h : c.CreateTable d now dbName tableName columns regxs pkDupCheck sliceKeys = (.ok t, c1))
    (sliceKeys2 : List Bytes) (hp : sliceKeys.Perm sliceKeys2) :
    c.CreateTable d now dbName tableName columns regxs pkDupCheck sliceKeys2 = (.ok t, c1) := by
  obtain ⟨db, ks, hres, hdb, hft, hg, hks, ht, hc1⟩ := CreateTable_ok_inv h
  subst ht hc1
  rcases hks with ⟨h1, h2⟩ | ⟨h1, h2⟩
  · subst h1 h2
    have : sliceKeys2 = [] := List.Perm.eq_nil hp.symm
    subst this
    exact h
  · obtain ⟨ks2, he2, hp2⟩ := encodeSplitKeys_perm hp h2
    have hne : sliceKeys2 ≠ [] := fun h0 => h1 (by subst h0; exact List.Perm.eq_nil hp)
    rw [CreateTable_ok_of hres hdb hft hg (Or.inr ⟨hne, he2⟩),
      createdCluster_congr d c now dbName tableName columns regxs pkDupCheck db hp2]

theorem sorted_lt_of_nodup {l : List Bytes} (hs : l.Sorted ByLetter.le) (hn : l.Nodup) :
    l.Pairwise ByLetter.lt := by
  have h2 : l.Pairwise (fun a b => ByLetter.le a b ∧ a ≠ b) := List.Pairwise.and hs hn
  refine h2.imp ?_
  rintro a b ⟨hle, hne⟩
  rw [ByLetter.le_iff] at hle
  rcases bytesCompare_cases a b with h3 | h3 | h3
  · exact h3
  · exact absurd ((bytesCompare_eq_zero_iff a b).1 h3) hne
  · exact absurd ((bytesCompare_swap b a).2 h3) hle

/-- The boundary list `start, start ++ k1, ..., start ++ kN, limit` is strictly
ascending when `k1 < ... < kN` are non-empty and `limit` is the limit of the
prefix `start`. -/
theorem boundaries_ascending (start l : Bytes) (ks : List Bytes)
    (hl : prefixLimit start = some l) (hs : ks.Pairwise ByLetter.lt) (hne : [] ∉ ks) :
    (start :: (ks.map (fun key => start ++ key) ++ [l])).Pairwise ByLetter.lt := by
  rw [List.pairwise_cons]
  constructor
  · intro x hx
    rcases List.mem_append.1 hx with hx | hx
    · obtain ⟨k, hk, rfl⟩ := List.mem_map.1 hx
      exact bytesCompare_append_nonempty start k (fun h0 => hne (h0 ▸ hk))
    · rw [List.mem_singleton.1 hx]
      simpa using prefixLimit_gt start l [] hl
  · rw [List.pairwise_append]
    refine ⟨?_, List.pairwise_singleton _ _, ?_⟩
    · rw [List.pairwise_map]
      exact hs.imp (fun {a b} hab => by
        show bytesCompare (start ++ a) (start ++ b) = -1
        rw [bytesCompare_append_left]; exact hab)
    · intro x hx y hy
      obtain ⟨k, -, rfl⟩ := List.mem_map.1 hx
      rw [List.mem_singleton.1 hy]
      exact prefixLimit_gt start l k hl

/-- C2 (amended): after a successful `CreateTable`, every permutation of the
split keys gives the same result and the same cluster, hence the same queued
requests; the boundary keys of the queued requests are the table start key,
the sorted encoded split keys prefixed by it, and the table end key; and they
are strictly ascending in byte order provided the encoded split keys are
pairwise distinct and non-empty and the table start key has a byte below
`0xFF`. -/
theorem CreateTable_boundaries_ascending (d : Deps) (c c1 : Cluster) (now : Time)
    (dbName tableName : String) (columns regxs : List Column) (pkDupCheck : Bool)
    (sliceKeys : List Bytes) (t : Nat)
    (h : c.CreateTable d now dbName tableName columns regxs pkDupCheck sliceKeys = (.ok t, c1)) :
    (∀ sliceKeys2, sliceKeys.Perm sliceKeys2 →
      c.CreateTable d now dbName tableName columns regxs pkDupCheck sliceKeys2 = (.ok t, c1)) ∧
    ∀ ks, encodeSplitKeys d sliceKeys columns = .ok ks →
      ∃ ct, GoMap.get? c1.creatingTables c.idGener.next = some ct ∧
        boundaries ct.rangesToCreateList =
          d.EncodeStorePrefix c.idGener.next ::
            ((sortByLetter ks).map (fun key => d.EncodeStorePrefix c.idGener.next ++ key) ++
              [(bytesPrefix (d.EncodeStorePrefix c.idGener.next)).2]) ∧
        (ks.Nodup → [] ∉ ks → (∃ b ∈ d.EncodeStorePrefix c.idGener.next, b < 255) →
          (boundaries ct.rangesToCreateList).Pairwise ByLetter.lt) := by
  refine ⟨fun s2 hp => CreateTable_perm h s2 hp, ?_⟩
  intro ks hks
  obtain ⟨db, ks0, -, -, -, -, hks0, ht, hc1⟩ := CreateTable_ok_inv h
  have hk : ks0 = ks := by
    rcases hks0 with ⟨h1, h2⟩ | ⟨-, h2⟩
    · subst h1 h2
      rw [encodeSplitKeys_nil] at hks
      cases hks; rfl
    · rw [h2] at hks
      cases hks; rfl
  subst hk ht hc1
  refine ⟨_, createdCluster_entry .., ?_, ?_⟩
  · cases hm : (sortByLetter ks0).map (fun key => d.EncodeStorePrefix c.idGener.next ++ key) with
    | nil => simp [boundaries_rangesOf]
    | cons x xs => simp [boundaries_rangesOf]
  · intro hnd hne hff
    obtain ⟨l, hl⟩ := (prefixLimit_isSome_iff _).2 hff
    have hb : boundaries (rangesOf (d.EncodeStorePrefix c.idGener.next ::
        ((sortByLetter ks0).map (fun key => d.EncodeStorePrefix c.idGener.next ++ key) ++
          [(bytesPrefix (d.EncodeStorePrefix c.idGener.next)).2]))) =
        d.EncodeStorePrefix c.idGener.next ::
        ((sortByLetter ks0).map (fun key => d.EncodeStorePrefix c.idGener.next ++ key) ++
          [(bytesPrefix (d.EncodeStorePrefix c.idGener.next)).2]) := by
      cases hm : (sortByLetter ks0).map
          (fun key => d.EncodeStorePrefix c.idGener.next ++ key) with
      | nil => simp [boundaries_rangesOf]
      | cons x xs => simp [boundaries_rangesOf]
    simp only [hb]
    have hlim : (bytesPrefix (d.EncodeStorePrefix c.idGener.next)).2 = l := by
      simp [bytesPrefix, hl]
    rw [hlim]
    refine boundaries_ascending _ l _ hl ?_ ?_
    · exact sorted_lt_of_nodup (sortByLetter_sorted ks0)
        ((sortByLetter_perm ks0).nodup_iff.2 hnd)
    · intro hmem
      exact hne ((sortByLetter_perm ks0).mem_iff.1 hmem)

/-- C2, an instance: the split keys `b, a, c` give the ascending boundaries
`start, start a, start b, start c, end`, as does the permutation `c, b, a`. -/
theorem CreateTable_boundaries_ascending_witness :
    demoCluster.CreateTable demoDeps 5000000000 "db" "t" [demoPk] [] false [[98], [97], [99]] =
      (.ok 0, createdCluster demoDeps demoCluster 5000000000 "db" "t" [demoPk] [] false demoDb
        [[98], [97], [99]]) ∧
    demoCluster.CreateTable demoDeps 5000000000 "db" "t" [demoPk] [] false [[99], [98], [97]] =
      (.ok 0, createdCluster demoDeps demoCluster 5000000000 "db" "t" [demoPk] [] false demoDb
        [[98], [97], [99]]) ∧
    ∃ ct, GoMap.get? (createdCluster demoDeps demoCluster 5000000000 "db" "t" [demoPk] [] false
        demoDb [[98], [97], [99]]).creatingTables 7 = some ct ∧
      (boundaries ct.rangesToCreateList).Pairwise ByLetter.lt :=
  have key := CreateTable_boundaries_ascending demoDeps demoCluster _ 5000000000 "db"
    "t" [demoPk] [] false [[98], [97], [99]] 0 rfl
  ⟨rfl, key.1 [[99], [98], [97]] (by decide),
   let ⟨ct, h1, _, h2⟩ := key.2 [[98], [97], [99]] rfl
   ⟨ct, h1, h2 (by decide) (by decide) ⟨1, by decide, by decide⟩⟩⟩

/-- C2 as stated fails: `CreateTable` succeeds on a repeated split key, on an
empty split key and on a table prefix made of `0xFF` bytes, and the boundary
keys it queues are then not strictly ascending. -/
theorem CreateTable_boundaries_not_ascending :
    ((demoCluster.CreateTable demoDeps 5000000000 "db" "t" [demoPk] [] false
        [[97], [97]]).1 = .ok 0 ∧
      ∃ ct, GoMap.get? (demoCluster.CreateTable demoDeps 5000000000 "db" "t" [demoPk] [] false
          [[97], [97]]).2.creatingTables 7 = some ct ∧
        ¬ (boundaries ct.rangesToCreateList).Pairwise ByLetter.lt) ∧
    ((demoCluster.CreateTable demoDeps 5000000000 "db" "t" [demoPk] [] false [[]]).1 = .ok 0 ∧
      ∃ ct, GoMap.get? (demoCluster.CreateTable demoDeps 5000000000 "db" "t" [demoPk] [] false
          [[]]).2.creatingTables 7 = some ct ∧
        ¬ (boundaries ct.rangesToCreateList).Pairwise ByLetter.lt) ∧
    ((demoCluster.CreateTable demoDepsFF 5000000000 "db" "t" [demoPk] [] false [[97]]).1 = .ok 0 ∧
      ∃ ct, GoMap.get? (demoCluster.CreateTable demoDepsFF 5000000000 "db" "t" [demoPk] [] false
          [[97]]).2.creatingTables 7 = some ct ∧
        ¬ (boundaries ct.rangesToCreateList).Pairwise ByLetter.lt) :=
  ⟨⟨rfl, _, rfl, by decide⟩, ⟨rfl, _, rfl, by decide⟩, ⟨rfl, _, rfl, by decide⟩⟩

/-! ## Repeated split keys -/

theorem rangeKeysSplitLoop_dup (ks : List String) :
    ∀ (seen : List String) (acc : List Bytes),
      (¬ ks.Nodup ∨ ∃ x ∈ ks, x ∈ seen) →
      ∃ k, rangeKeysSplitLoop ks seen acc = .error (.dupKey k) ∧ k ∈ ks ∧
        (k ∈ seen ∨ 2 ≤ ks.count k) := by
  induction ks with
  | nil => intro seen acc h; simp at h
  | cons k rest ih =>
    intro seen acc h
    simp only [rangeKeysSplitLoop]
    by_cases hk : k ∈ seen
    · exact ⟨k, by simp [hk], List.mem_cons_self _ _, Or.inl hk⟩
    · rw [if_neg hk]
      have h2 : ¬ rest.Nodup ∨ ∃ x ∈ rest, x ∈ k :: seen := by
        rcases h with h | ⟨x, hx, hxs⟩
        · rw [List.nodup_cons, not_and_or, not_not] at h
          rcases h with h | h
          · exact Or.inr ⟨k, h, List.mem_cons_self _ _⟩
          · exact Or.inl h
        · rcases List.mem_cons.1 hx with rfl | hx
          · exact absurd hxs hk
          · exact Or.inr ⟨x, hx, List.mem_cons_of_mem _ hxs⟩
      obtain ⟨k2, he, hm, hc⟩ := ih (k :: seen) _ h2
      refine ⟨k2, he, List.mem_cons_of_mem _ hm, ?_⟩
      by_cases hkk : k2 = k
      · subst hkk
        right
        have : 0 < rest.count k2 := List.count_pos_iff.2 hm
        rw [List.count_cons_self]
        omega
      · rcases hc with hc | hc
        · rcases List.mem_cons.1 hc with hc | hc
          · exact absurd hc hkk
          · exact Or.inl hc
        · right
          rw [List.count_cons_of_ne (fun h0 => hkk h0)]
          exact hc

/-- C3 (amended): the duplicate check is made by `rangeKeysSplit`, not by
`CreateTable`. For every key string whose pieces contain a repeated piece (for
example `"a,b,a"` split by `","`), `rangeKeysSplit` fails with the dup-key
error naming a piece that occurs at least twice, so a caller that takes its
split keys from `rangeKeysSplit` has no keys to pass to `CreateTable`. -/
theorem rangeKeysSplit_dup (keys sep : String) (h : ¬ (stringsSplit keys sep).Nodup) :
    ∃ k, rangeKeysSplit keys sep = .error (.dupKey k) ∧
      2 ≤ (stringsSplit keys sep).count k := by
  obtain ⟨k, he, -, hc⟩ := rangeKeysSplitLoop_dup (stringsSplit keys sep) [] [] (Or.inl h)
  refine ⟨k, he, ?_⟩
  rcases hc with hc | hc
  · simp at hc
  · exact hc

/-- C3, an instance: the key string `"a,b,a"`. -/
theorem rangeKeysSplit_dup_witness :
    ¬ (stringsSplit "a,b,a" ",").Nodup ∧
    ∃ k, rangeKeysSplit "a,b,a" "," = .error (.dupKey k) ∧
      2 ≤ (stringsSplit "a,b,a" ",").count k :=
  ⟨by decide, rangeKeysSplit_dup "a,b,a" "," (by decide)⟩

/-- C3 as stated fails: `CreateTable` called with the split keys `a, b, a`
succeeds, and the new table is then in the table set of its database, in the
working tables and in the creating tables. -/
theorem CreateTable_accepts_repeated_keys :
    (demoCluster.CreateTable demoDeps 5000000000 "db" "t" [demoPk] [] false
      [[97], [98], [97]]).1 = .ok 0 ∧
    ((demoCluster.CreateTable demoDeps 5000000000 "db" "t" [demoPk] [] false
      [[97], [98], [97]]).2.FindDatabase "db").map (fun db => db.FindTable "t") =
      some (some { name := "t", id := 7, ptr := 0 }) ∧
    (demoCluster.CreateTable demoDeps 5000000000 "db" "t" [demoPk] [] false
      [[97], [98], [97]]).2.FindTableById 7 = some 0 ∧
    GoMap.has (demoCluster.CreateTable demoDeps 5000000000 "db" "t" [demoPk] [] false
      [[97], [98], [97]]).2.creatingTables 7 = true :=
  ⟨rfl, by decide, by decide, by decide⟩

/-! ## Choosing the first minimum -/

theorem foldl_pickMin_some {α : Type} (key : α → Nat) (l : List α) :
    ∀ b : α, ∃ r, l.foldl (pickMin key) (some b) = some r ∧
      ((r = b ∧ ∀ m ∈ l, key b ≤ key m) ∨
       ∃ pre post, l = pre ++ r :: post ∧ key r < key b ∧
         (∀ m ∈ pre, key r < key m) ∧ ∀ m ∈ post, key r ≤ key m) := by
  induction l with
  | nil => intro b; exact ⟨b, rfl, Or.inl ⟨rfl, by simp⟩⟩
  | cons x rest ih =>
    intro b
    simp only [List.foldl_cons, pickMin]
    by_cases hx : key x < key b
    · rw [if_pos hx]
      obtain ⟨r, hr, hcase⟩ := ih x
      refine ⟨r, hr, Or.inr ?_⟩
      rcases hcase with ⟨rfl, hall⟩ | ⟨pre, post, hl, hlt, hpre, hpost⟩
      · exact ⟨[], rest, rfl, hx, by simp, hall⟩
      · refine ⟨x :: pre, post, by simp [hl], by omega, ?_, hpost⟩
        intro m hm
        rcases List.mem_cons.1 hm with rfl | hm
        · exact hlt
        · exact hpre m hm
    · rw [if_neg hx]
      obtain ⟨r, hr, hcase⟩ := ih b
      refine ⟨r, hr, ?_⟩
      rcases hcase with ⟨rfl, hall⟩ | ⟨pre, post, hl, hlt, hpre, hpost⟩
      · left
        refine ⟨rfl, ?_⟩
        intro m hm
        rcases List.mem_cons.1 hm with rfl | hm
        · omega
        · exact hall m hm
      · right
        refine ⟨x :: pre, post, by simp [hl], hlt, ?_, hpost⟩
        intro m hm
        rcases List.mem_cons.1 hm with rfl | hm
        · omega
        · exact hpre m hm

/-- The loop returns nothing exactly on the empty list, and otherwise the
first element among those of least key. -/
theorem foldl_pickMin_none {α : Type} (key : α → Nat) (l : List α) :
    (l.foldl (pickMin key) none = none ↔ l = []) ∧
    ∀ r, l.foldl (pickMin key) none = some r →
      ∃ pre post, l = pre ++ r :: post ∧
        (∀ m ∈ pre, key r < key m) ∧ ∀ m ∈ post, key r ≤ key m := by
  cases l with
  | nil => simp
  | cons x rest =>
    obtain ⟨r, hr, hcase⟩ := foldl_pickMin_some key rest x
    have hf : (x :: rest).foldl (pickMin key) none = some r := by
      simpa [List.foldl_cons, pickMin] using hr
    refine ⟨by simp [hf], ?_⟩
    intro r2 hr2
    rw [hf] at hr2
    cases hr2
    rcases hcase with ⟨rfl, hall⟩ | ⟨pre, post, hl, hlt, hpre, hpost⟩
    · exact ⟨[], rest, rfl, by simp, hall⟩
    · refine ⟨x :: pre, post, by simp [hl], ?_, hpost⟩
      intro m hm
      rcases List.mem_cons.1 hm with rfl | hm
      · exact hlt
      · exact hpre m hm

theorem betterNode_eq : Cluster.betterNode = pickMin (fun n : Node => n.RangeCount) := by
  funext b n
  cases b <;> rfl

theorem worseNode_eq : Cluster.worseNode = pickMin (fun n : Node => n.availableRatio) := by
  funext b n
  cases b <;> rfl

/-- C4: `selectNodeForAddPeer` returns a node of `GetAllNode` that every
selector of the pipeline accepts, whose range count is least among the
accepted nodes and which is the first such node in the order of `GetAllNode`
(every accepted node before it has a strictly greater range count); it
returns no node exactly when no node is accepted by every selector, and
`allocPeerAndSelectNode` then fails with `ERR_NO_SELECTED_NODE`, leaving the
cluster unchanged. -/
theorem selectNodeForAddPeer_spec (d : Deps) (c : Cluster) (rng : Range) :
    (∀ n, c.selectNodeForAddPeer d rng = some n →
      n ∈ c.GetAllNode ∧
      (∀ s ∈ Cluster.newSelectors d c rng, s.CanSelect n = true) ∧
      (∀ m ∈ c.GetAllNode, (∀ s ∈ Cluster.newSelectors d c rng, s.CanSelect m = true) →
        n.RangeCount ≤ m.RangeCount) ∧
      ∃ pre post,
        c.GetAllNode.filter
          (fun node => (Cluster.newSelectors d c rng).all (fun s => s.CanSelect node)) =
          pre ++ n :: post ∧
        ∀ m ∈ pre, n.RangeCount < m.RangeCount) ∧
    (c.selectNodeForAddPeer d rng = none ↔
      ∀ m ∈ c.GetAllNode, ¬ ∀ s ∈ Cluster.newSelectors d c rng, s.CanSelect m = true) ∧
    (c.selectNodeForAddPeer d rng = none →
      c.allocPeerAndSelectNode d rng = (.error .ERR_NO_SELECTED_NODE, c)) := by
  have hfold := foldl_pickMin_none (fun n : Node => n.RangeCount)
    (c.GetAllNode.filter
      (fun node => (Cluster.newSelectors d c rng).all (fun s => s.CanSelect node)))
  refine ⟨?_, ?_, ?_⟩
  · intro n hn
    simp only [Cluster.selectNodeForAddPeer, betterNode_eq] at hn
    obtain ⟨pre, post, hl, hpre, hpost⟩ := hfold.2 n hn
    have hmem : n ∈ c.GetAllNode.filter
        (fun node => (Cluster.newSelectors d c rng).all (fun s => s.CanSelect node)) := by
      rw [hl]; simp
    rw [List.mem_filter, List.all_eq_true] at hmem
    refine ⟨hmem.1, hmem.2, ?_, pre, post, hl, hpre⟩
    intro m hm hacc
    have hm2 : m ∈ c.GetAllNode.filter
        (fun node => (Cluster.newSelectors d c rng).all (fun s => s.CanSelect node)) := by
      rw [List.mem_filter, List.all_eq_true]; exact ⟨hm, hacc⟩
    rw [hl, List.mem_append, List.mem_cons] at hm2
    rcases hm2 with h | rfl | h
    · exact Nat.le_of_lt (hpre m h)
    · exact Nat.le_refl _
    · exact hpost m h
  · simp only [Cluster.selectNodeForAddPeer, betterNode_eq]
    rw [hfold.1, List.filter_eq_nil_iff]
    simp only [List.all_eq_true]
  · intro hn
    simp [Cluster.allocPeerAndSelectNode, hn]

/-- C4, an instance: of the accepted nodes A with 5 ranges and B with 2
ranges, B is picked. -/
theorem selectNodeForAddPeer_spec_witness :
    demoNodes.selectNodeForAddPeer demoDeps demoRange =
      some { Id := 2, ServerAddr := "1.1.1.2:6060", RangeCount := 2, availableRatio := 50 } ∧
    ∀ m ∈ demoNodes.GetAllNode,
      (∀ s ∈ Cluster.newSelectors demoDeps demoNodes demoRange, s.CanSelect m = true) →
      2 ≤ m.RangeCount :=
  ⟨by decide,
   ((selectNodeForAddPeer_spec demoDeps demoNodes demoRange).1
      { Id := 2, ServerAddr := "1.1.1.2:6060", RangeCount := 2, availableRatio := 50 }
      (by decide)).2.2.1⟩

/-! ## Worst-peer selection -/

theorem checkSameIpNodeLoop_spec (nodes : List Node) :
    ∀ m : List String,
      ((¬ (nodeIps nodes).Nodup ∨ ∃ x ∈ nodeIps nodes, x ∈ m) →
        ∃ ip, checkSameIpNodeLoop nodes m = (ip, true) ∧ ip ∈ nodeIps nodes ∧
          (ip ∈ m ∨ 2 ≤ (nodeIps nodes).count ip)) ∧
      (¬ (¬ (nodeIps nodes).Nodup ∨ ∃ x ∈ nodeIps nodes, x ∈ m) →
        checkSameIpNodeLoop nodes m = ("", false)) := by
  induction nodes with
  | nil => intro m; simp [nodeIps, checkSameIpNodeLoop]
  | cons n rest ih =>
    intro m
    by_cases hlen : (nodeIp n).length ≠ 0
    · have hips : nodeIps (n :: rest) = nodeIp n :: nodeIps rest := by
        simp [nodeIps, List.filter_cons, hlen]
      rw [hips]
      simp only [checkSameIpNodeLoop, if_pos hlen]
      by_cases hk : nodeIp n ∈ m
      · rw [if_pos hk]
        constructor
        · intro _
          exact ⟨nodeIp n, rfl, List.mem_cons_self _ _, Or.inl hk⟩
        · intro h
          exact absurd (Or.inr ⟨nodeIp n, List.mem_cons_self _ _, hk⟩) h
      · rw [if_neg hk]
        have hiff : (¬ (nodeIp n :: nodeIps rest).Nodup ∨
              ∃ x ∈ nodeIp n :: nodeIps rest, x ∈ m) ↔
            (¬ (nodeIps rest).Nodup ∨ ∃ x ∈ nodeIps rest, x ∈ nodeIp n :: m) := by
          constructor
          · rintro (h | ⟨x, hx, hxs⟩)
            · rw [List.nodup_cons, not_and_or, not_not] at h
              rcases h with h | h
              · exact Or.inr ⟨_, h, List.mem_cons_self _ _⟩
              · exact Or.inl h
            · rcases List.mem_cons.1 hx with rfl | hx
              · exact absurd hxs hk
              · exact Or.inr ⟨x, hx, List.mem_cons_of_mem _ hxs⟩
          · rintro (h | ⟨x, hx, hxs⟩)
            · exact Or.inl (fun hn => h (List.nodup_cons.1 hn).2)
            · rcases List.mem_cons.1 hxs with rfl | hxs
              · exact Or.inl (fun hn => (List.nodup_cons.1 hn).1 hx)
              · exact Or.inr ⟨x, List.mem_cons_of_mem _ hx, hxs⟩
        rw [hiff]
        obtain ⟨ih1, ih2⟩ := ih (nodeIp n :: m)
        refine ⟨?_, ih2⟩
        intro h
        obtain ⟨ip, he, hm, hc⟩ := ih1 h
        refine ⟨ip, he, List.mem_cons_of_mem _ hm, ?_⟩
        by_cases hkk : ip = nodeIp n
        · subst hkk
          right
          have : 0 < (nodeIps rest).count (nodeIp n) := List.count_pos_iff.2 hm
          rw [List.count_cons_self]
          omega
        · rcases hc with hc | hc
          · rcases List.mem_cons.1 hc with hc | hc
            · exact absurd hc hkk
            · exact Or.inl hc
          · right
            rw [List.count_cons_of_ne (fun h0 => hkk h0)]
            exact hc
    · have hips : nodeIps (n :: rest) = nodeIps rest := by
        simp only [nodeIps, List.map_cons, List.filter_cons]
        rw [if_neg (by simpa using hlen)]
      rw [hips]
      simp only [checkSameIpNodeLoop, if_neg hlen]
      exact ih m

theorem checkSameIpNode_shared {nodes : List Node} (h : ¬ (nodeIps nodes).Nodup) :
    ∃ ip, Cluster.checkSameIpNode nodes = (ip, true) ∧ ip ∈ nodeIps nodes ∧
      2 ≤ (nodeIps nodes).count ip := by
  obtain ⟨ip, he, hm, hc⟩ := (checkSameIpNodeLoop_spec nodes []).1 (Or.inl h)
  refine ⟨ip, he, hm, ?_⟩
  rcases hc with hc | hc
  · simp at hc
  · exact hc

theorem checkSameIpNode_distinct {nodes : List Node} (h : (nodeIps nodes).Nodup) :
    Cluster.checkSameIpNode nodes = ("", false) :=
  (checkSameIpNodeLoop_spec nodes []).2 (by simp [h])

theorem FindNodeById_id {c : Cluster} {id : Nat} {w : Node} (h : c.FindNodeById id = some w) :
    w.Id = id := by
  have := List.find?_some h
  simpa using this

/-- The peer found for a node of the range sits on that node. -/
theorem find_peer_of_node {c : Cluster} {rng : Range} {w : Node} (hw : w ∈ rng.GetNodes c) :
    ∃ p, rng.Peers.find? (fun peer => peer.NodeId = w.Id) = some p ∧ p ∈ rng.Peers ∧
      c.FindNodeById p.NodeId = some w := by
  simp only [Range.GetNodes, List.mem_filterMap] at hw
  obtain ⟨q, hq, hfq⟩ := hw
  have hid : w.Id = q.NodeId := FindNodeById_id hfq
  cases hf : rng.Peers.find? (fun peer => peer.NodeId = w.Id) with
  | none =>
    rw [List.find?_eq_none] at hf
    exact absurd (by simpa using hid.symm) (hf q hq)
  | some p =>
    have hp : p.NodeId = w.Id := by simpa using List.find?_some hf
    exact ⟨p, rfl, List.mem_of_find?_eq_some hf, by rw [hp, hid]; exact hfq⟩

theorem selectWorstPeer_pool (c : Cluster) (rng : Range) (pool : List Node) {w : Node}
    (hsub : ∀ m ∈ pool, m ∈ rng.GetNodes c)
    (hw : pool.foldl Cluster.worseNode none = some w) :
    w ∈ pool ∧ (∀ m ∈ pool, w.availableRatio ≤ m.availableRatio) ∧
    ∃ p, rng.Peers.find? (fun peer => peer.NodeId = w.Id) = some p ∧ p ∈ rng.Peers ∧
      c.FindNodeById p.NodeId = some w := by
  rw [worseNode_eq] at hw
  obtain ⟨pre, post, hl, hpre, hpost⟩ :=
    (foldl_pickMin_none (fun n : Node => n.availableRatio) pool).2 w hw
  have hmem : w ∈ pool := by rw [hl]; simp
  refine ⟨hmem, ?_, find_peer_of_node (hsub w hmem)⟩
  intro m hm
  rw [hl, List.mem_append, List.mem_cons] at hm
  rcases hm with h | rfl | h
  · exact Nat.le_of_lt (hpre m h)
  · exact Nat.le_refl _
  · exact hpost m h

/-- C5: for a range with no down peers, let `nodes` be the nodes its peers sit
on. If two or more of them share a non-empty port-stripped IP,
`selectWorstPeer` returns a peer of the range sitting on a node `w` whose IP
is non-empty and shared by at least two of the nodes, and whose available
ratio is least among the nodes on that IP, whatever the ratios of the nodes
on other IPs are. If no IP is shared and there is a node, it returns a peer
on a node of least available ratio among all the nodes. If there is no node
it returns no peer. -/
theorem selectWorstPeer_spec (c : Cluster) (rng : Range) (hdown : rng.DownPeers = []) :
    (¬ (nodeIps (rng.GetNodes c)).Nodup →
      ∃ p w, c.selectWorstPeer rng = some p ∧ p ∈ rng.Peers ∧
        c.FindNodeById p.NodeId = some w ∧ (nodeIp w).length ≠ 0 ∧
        2 ≤ (nodeIps (rng.GetNodes c)).count (nodeIp w) ∧
        ∀ m ∈ rng.GetNodes c, nodeIp m = nodeIp w → w.availableRatio ≤ m.availableRatio) ∧
    ((nodeIps (rng.GetNodes c)).Nodup → rng.GetNodes c ≠ [] →
      ∃ p w, c.selectWorstPeer rng = some p ∧ p ∈ rng.Peers ∧
        c.FindNodeById p.NodeId = some w ∧
        ∀ m ∈ rng.GetNodes c, w.availableRatio ≤ m.availableRatio) ∧
    (rng.GetNodes c = [] → c.selectWorstPeer rng = none) := by
  refine ⟨?_, ?_, ?_⟩
  · intro hshared
    obtain ⟨ip, hcheck, hip, hcount⟩ := checkSameIpNode_shared hshared
    have hiplen : ip.length ≠ 0 := by
      have := (List.mem_filter.1 hip).2
      simpa using this
    obtain ⟨n0, hn0, hn0ip⟩ := List.mem_map.1 (List.mem_filter.1 hip).1
    have hpool : (rng.GetNodes c).filter (fun n => nodeIp n = ip) ≠ [] := by
      intro h0
      have : n0 ∈ (rng.GetNodes c).filter (fun n => nodeIp n = ip) := by
        rw [List.mem_filter]; exact ⟨hn0, by simpa using hn0ip⟩
      rw [h0] at this
      simp at this
    cases hf : ((rng.GetNodes c).filter (fun n => nodeIp n = ip)).foldl
        Cluster.worseNode none with
    | none =>
      rw [worseNode_eq] at hf
      exact absurd ((foldl_pickMin_none _ _).1.1 hf) hpool
    | some w =>
      obtain ⟨hwmem, hmin, p, hp, hpm, hpn⟩ :=
        selectWorstPeer_pool c rng _ (fun m hm => (List.mem_filter.1 hm).1) hf
      have hwip : nodeIp w = ip := by simpa using (List.mem_filter.1 hwmem).2
      refine ⟨p, w, ?_, hpm, hpn, by rw [hwip]; exact hiplen, by rw [hwip]; exact hcount, ?_⟩
      · simp only [Cluster.selectWorstPeer, hdown, hcheck, if_true, hf, hp]
      · intro m hm hmip
        exact hmin m (by rw [List.mem_filter]; exact ⟨hm, by simpa [hwip] using hmip⟩)
  · intro hnd hne
    have hcheck := checkSameIpNode_distinct hnd
    cases hf : (c.getRangeNodes rng).foldl Cluster.worseNode none with
    | none =>
      rw [worseNode_eq] at hf
      exact absurd ((foldl_pickMin_none _ _).1.1 hf) hne
    | some w =>
      obtain ⟨-, hmin, p, hp, hpm, hpn⟩ :=
        selectWorstPeer_pool c rng (c.getRangeNodes rng) (fun m hm => hm) hf
      refine ⟨p, w, ?_, hpm, hpn, hmin⟩
      simp only [Cluster.selectWorstPeer, hdown, hcheck, Bool.false_eq_true, if_false, hf, hp]
  · intro hnil
    have hcheck : Cluster.checkSameIpNode (rng.GetNodes c) = ("", false) := by
      rw [hnil]; rfl
    have hnil2 : c.getRangeNodes rng = [] := hnil
    simp [Cluster.selectWorstPeer, hdown, hcheck, hnil2]

/-- C5, an instance: nodes 1 and 2 share the IP `9.9.9.9` with ratios 50 and
40, node 3 on another IP has the lower ratio 10; the peer on node 2 is
returned. -/
theorem selectWorstPeer_spec_witness :
    demoRange3.DownPeers = [] ∧ ¬ (nodeIps (demoRange3.GetNodes demoColocated)).Nodup ∧
    demoColocated.selectWorstPeer demoRange3 = some { Id := 102, NodeId := 2 } ∧
    ∃ p w, demoColocated.selectWorstPeer demoRange3 = some p ∧ p ∈ demoRange3.Peers ∧
      demoColocated.FindNodeById p.NodeId = some w ∧ (nodeIp w).length ≠ 0 ∧
      2 ≤ (nodeIps (demoRange3.GetNodes demoColocated)).count (nodeIp w) ∧
      ∀ m ∈ demoRange3.GetNodes demoColocated, nodeIp m = nodeIp w →
        w.availableRatio ≤ m.availableRatio :=
  ⟨rfl, by decide, by decide,
   (selectWorstPeer_spec demoColocated demoRange3 rfl).1 (by decide)⟩

/-- C6: when the down-peer list of a range is not empty, `selectWorstPeer`
returns the peer of its first entry, whatever the nodes of the range are. -/
theorem selectWorstPeer_down (c : Cluster) (rng : Range) (h : rng.DownPeers ≠ []) :
    c.selectWorstPeer rng = rng.DownPeers.head?.bind (fun down => down.Peer) := by
  cases hd : rng.DownPeers with
  | nil => exact absurd hd h
  | cons down rest => simp [Cluster.selectWorstPeer, hd]

/-- C6, an instance: the peer on node 3 is recorded as down and is returned,
although nodes 1 and 2 share an IP. -/
theorem selectWorstPeer_down_witness :
    demoRangeDown.DownPeers ≠ [] ∧
    demoColocated.selectWorstPeer demoRangeDown = some { Id := 103, NodeId := 3 } :=
  ⟨by decide, selectWorstPeer_down demoColocated demoRangeDown (by decide)⟩

/-! ## `CancelTable` -/

/-- C8, the code at the failing input: the table `t` has just been created
and is in status `Init`; `CancelTable` succeeds, makes no call on the store
and removes the table from the table set of its database and from the
creating tables, but the table is still found in the working tables, now
in status `TableDelete`. -/
theorem CancelTable_leaves_working_entry :
    (demoCreated.deref 0).Table.Status = .TableInit ∧
    (demoCreated.CancelTable "db" "t").1 = none ∧
    (demoCreated.CancelTable "db" "t").2.store.calls = [] ∧
    ((demoCreated.CancelTable "db" "t").2.FindDatabase "db").map
      (fun db => db.FindTable "t") = some none ∧
    GoMap.has (demoCreated.CancelTable "db" "t").2.creatingTables 7 = false ∧
    (demoCreated.CancelTable "db" "t").2.FindTableById 7 = some 0 ∧
    ((demoCreated.CancelTable "db" "t").2.deref 0).Table.Status = .TableDelete :=
  ⟨by decide, by decide, by decide, by decide, by decide, by decide, by decide⟩

/-- C9: when the table found in its database has a status other than `Init`
and `Prepare`, `CancelTable` fails with `ErrNotCancel` and the cluster (table
objects, caches and store) is unchanged. -/
theorem CancelTable_not_cancellable (c : Cluster) (dbName tName : String) (db : Database)
    (ref : TableRef) (hdb : c.FindDatabase dbName = some db)
    (hft : db.FindTable tName = some ref)
    (hinit : (c.deref ref.ptr).Table.Status ≠ .TableInit)
    (hprep : (c.deref ref.ptr).Table.Status ≠ .TablePrepare) :
    c.CancelTable dbName tName = (some .ErrNotCancel, c) := by
  simp [Cluster.CancelTable, hdb, hft, hinit, hprep]

/-- C9, an instance: a table in status `Running`. -/
theorem CancelTable_not_cancellable_witness :
    (demoLoaded.deref 0).Table.Status = .TableRunning ∧
    demoLoaded.CancelTable "db" "t" = (some .ErrNotCancel, demoLoaded) :=
  ⟨by decide,
   CancelTable_not_cancellable demoLoaded "db" "t"
     { Name := "db", Id := 1, Properties := "", Version := 0, CreateTime := 0,
       tables := [{ name := "t", id := 7, ptr := 0 }] }
     { name := "t", id := 7, ptr := 0 } (by decide) (by decide) (by decide) (by decide)⟩

/-! ## `DeleteTable` -/

theorem DeleteTable_ok_inv {d : Deps} {c c1 : Cluster} {now : Time} {dbName tableName : String}
    {fast : Bool} {t : Nat}
    (h : c.DeleteTable d now dbName tableName fast = (.ok t, c1)) :
    ∃ db ref, c.FindDatabase dbName = some db ∧ db.FindTable tableName = some ref ∧
      c.store.failing = false ∧ t = ref.ptr ∧
      c1 = deletedCluster d c now dbName tableName fast db ref := by
  unfold Cluster.DeleteTable at h
  split at h
  · cases h
  · rename_i db hdb
    split at h
    · cases h
    · rename_i ref hft
      cases hs : c.store.failing with
      | true => simp [Store.NewBatch, Store.Commit, hs] at h
      | false =>
        simp [Store.NewBatch, Store.Commit, hs, Batch.Put, Batch.Delete] at h
        refine ⟨db, ref, hdb, hft, rfl, h.1.symm, ?_⟩
        rw [← h.2]
        simp [deletedCluster, deleteBatch, deletedRecord, deletionTime, Cluster.store!,
          Cluster.setDb, hs]

theorem putUint64BE_length (n : Nat) : (putUint64BE n).length = 8 := rfl

/-- C10 (amended): after a successful `DeleteTable` made at time `now`, with
`fast = true` the status of the table is `Deleting` and the recorded deletion
time is `now` minus `DefaultRetentionTime`, which for a positive
`DefaultRetentionTime` is strictly before `now` and a full retention window
before it; with `fast = false` the status is `Delete` and the recorded
deletion time is `now`. In both cases the expansion field is exactly the Unix
seconds of the deletion time as 8 big-endian bytes: the previous content of
the field is replaced, not kept. -/
theorem DeleteTable_status_and_time (d : Deps) (c c1 : Cluster) (now : Time)
    (dbName tableName : String) (fast : Bool) (t : Nat)
    (h : c.DeleteTable d now dbName tableName fast = (.ok t, c1)) :
    (fast = true →
      (c1.deref t).Table.Status = .TableDeleting ∧
      (c1.deref t).deleteTime = now - d.DefaultRetentionTime ∧
      (0 < d.DefaultRetentionTime →
        (c1.deref t).deleteTime < now ∧
        d.DefaultRetentionTime ≤ now - (c1.deref t).deleteTime)) ∧
    (fast = false →
      (c1.deref t).Table.Status = .TableDelete ∧ (c1.deref t).deleteTime = now) ∧
    (c1.deref t).Table.Expand =
      putUint64BE (toUint64 (Time.Unix (c1.deref t).deleteTime)) ∧
    (c1.deref t).Table.Expand.length = 8 := by
  obtain ⟨db, ref, -, -, -, ht, hc1⟩ := DeleteTable_ok_inv h
  subst ht hc1
  have hd : (deletedCluster d c now dbName tableName fast db ref).deref ref.ptr =
      { Table := deletedRecord d now fast (c.deref ref.ptr),
        deleteTime := deletionTime d now fast } := by
    simp [deletedCluster, Cluster.deref]
  rw [hd]
  refine ⟨?_, ?_, rfl, rfl⟩
  · intro hf
    subst hf
    refine ⟨rfl, ?_, ?_⟩
    · show now + d.DefaultRetentionTime * (-1) = now - d.DefaultRetentionTime
      ring
    · intro hpos
      show now + d.DefaultRetentionTime * (-1) < now ∧
        d.DefaultRetentionTime ≤ now - (now + d.DefaultRetentionTime * (-1))
      constructor <;> linarith
  · intro hf
    subst hf
    exact ⟨rfl, rfl⟩

/-- C10, an instance: a fast deletion at second 400000 with a retention of
three days records the second 140800. -/
theorem DeleteTable_status_and_time_witness :
    (demoLoaded.DeleteTable demoDeps 400000000000000 "db" "t" true).1 = .ok 0 ∧
    ((demoLoaded.DeleteTable demoDeps 400000000000000 "db" "t" true).2.deref 0).deleteTime =
      140800000000000 ∧
    ((demoLoaded.DeleteTable demoDeps 400000000000000 "db" "t" true).2.deref 0).Table.Expand =
      [0, 0, 0, 0, 0, 2, 38, 0] :=
  have key := DeleteTable_status_and_time demoDeps demoLoaded
    (demoLoaded.DeleteTable demoDeps 400000000000000 "db" "t" true).2 400000000000000
    "db" "t" true 0 rfl
  ⟨rfl, (key.1 rfl).2.1.trans (by decide), key.2.2.1.trans (by rw [(key.1 rfl).2.1]; decide)⟩

/-- C10 as stated fails: the table loaded from the store has the expansion
field `1, 2`; after `DeleteTable` the field holds the 8 time bytes only, not
the previous bytes followed by them. -/
theorem DeleteTable_replaces_expand :
    (demoLoaded.deref 0).Table.Expand = [1, 2] ∧
    (demoLoaded.DeleteTable demoDeps 400000000000000 "db" "t" false).1 = .ok 0 ∧
    ((demoLoaded.DeleteTable demoDeps 400000000000000 "db" "t" false).2.deref 0).Table.Expand =
      [0, 0, 0, 0, 0, 6, 26, 128] ∧
    ((demoLoaded.DeleteTable demoDeps 400000000000000 "db" "t" false).2.deref 0).Table.Expand ≠
      (demoLoaded.deref 0).Table.Expand ++
        putUint64BE (toUint64 (Time.Unix
          ((demoLoaded.DeleteTable demoDeps 400000000000000 "db" "t" false).2.deref
            0).deleteTime)) :=
  ⟨by decide, rfl, by decide, by decide⟩

/-! ## The table caches of reachable states -/

theorem GoMap.has_put {κ α : Type} [DecidableEq κ] (m : GoMap κ α) (k : κ) (v : α) (x : κ) :
    GoMap.has (GoMap.put m k v) x = true ↔ x = k ∨ GoMap.has m x = true := by
  by_cases h : x = k
  · subst h; simp [GoMap.has, GoMap.get?, GoMap.put]
  · have hk : ¬ k = x := fun h0 => h h0.symm
    simp only [GoMap.has, GoMap.get?, GoMap.put, GoMap.del, Option.isSome_map']
    rw [List.find?_cons_of_neg _ (by simpa using hk)]
    simp only [h, false_or, List.find?_isSome, List.mem_filter]
    constructor
    · rintro ⟨e, ⟨he, -⟩, hx⟩; exact ⟨e, he, hx⟩
    · rintro ⟨e, he, hx⟩
      refine ⟨e, ⟨he, ?_⟩, hx⟩
      have : e.1 = x := by simpa using hx
      simpa [this] using h

theorem GoMap.has_del {κ α : Type} [DecidableEq κ] (m : GoMap κ α) (k : κ) (x : κ) :
    GoMap.has (GoMap.del m k) x = true ↔ x ≠ k ∧ GoMap.has m x = true := by
  simp only [GoMap.has, GoMap.get?, GoMap.del, Option.isSome_map', List.find?_isSome,
    List.mem_filter]
  constructor
  · rintro ⟨e, ⟨he, hne⟩, hx⟩
    have h1 : e.1 = x := by simpa using hx
    exact ⟨by rw [← h1]; simpa using hne, e, he, hx⟩
  · rintro ⟨hne, e, he, hx⟩
    have h1 : e.1 = x := by simpa using hx
    exact ⟨e, ⟨he, by rw [h1]; simpa using hne⟩, hx⟩

theorem GoMap.has_nil {κ α : Type} [DecidableEq κ] (x : κ) :
    GoMap.has ([] : GoMap κ α) x = false := rfl

theorem GoMap.get?_mem {κ α : Type} [DecidableEq κ] {m : GoMap κ α} {k : κ} {v : α}
    (h : GoMap.get? m k = some v) : (k, v) ∈ m := by
  simp only [GoMap.get?, Option.map_eq_some'] at h
  obtain ⟨e, he, rfl⟩ := h
  have h1 : e.1 = k := by simpa using List.find?_some he
  have h2 := List.mem_of_find?_eq_some he
  rw [← h1]
  exact h2

theorem hasRef_of_find {c : Cluster} {n : String} {db : Database} {tname : String}
    {r : TableRef} (hdb : c.FindDatabase n = some db) (hft : db.FindTable tname = some r) :
    c.hasRef n r ∧ r.name = tname := by
  have h1 := GoMap.get?_mem hdb
  have h2 := List.mem_of_find?_eq_some hft
  have h3 : r.name = tname := by simpa using List.find?_some hft
  exact ⟨⟨(n, db), h1, rfl, h2⟩, h3⟩

theorem hasRef_setDb {c : Cluster} {name : String} {db2 : Database} {n : String}
    {r : TableRef} (h : (c.setDb name db2).hasRef n r) :
    (n ≠ name ∧ c.hasRef n r) ∨ (n = name ∧ r ∈ db2.tables) := by
  obtain ⟨e, he, hn, hr⟩ := h
  simp only [Cluster.setDb, List.mem_map] at he
  obtain ⟨e0, he0, rfl⟩ := he
  by_cases hk : e0.1 = name
  · rw [if_pos hk] at hn hr
    exact Or.inr ⟨by rw [← hn, ← hk], hr⟩
  · rw [if_neg hk] at hn hr
    exact Or.inl ⟨fun h0 => hk (by rw [hn, h0]), e0, he0, hn, hr⟩

theorem known_of_inv {c : Cluster} (hinv : TablesInv c) {id : Nat} (h : c.known id) :
    GoMap.has c.workingTables id = true ∨ GoMap.has c.deletingTables id = true := by
  rcases h with ⟨n, r, hr, rfl⟩ | h | h | h
  · exact Or.inl (hinv.refWorking n r hr)
  · exact hinv.creating id h
  · exact Or.inl h
  · exact Or.inr h

/-- A step that adds nothing to the table sets and caches keeps the
invariant. -/
theorem TablesInv.shrink {c c2 : Cluster} (hinv : TablesInv c)
    (href : ∀ n r, c2.hasRef n r → c.hasRef n r)
    (hw : ∀ k, GoMap.has c2.workingTables k = true ↔ GoMap.has c.workingTables k = true)
    (hd : ∀ k, GoMap.has c2.deletingTables k = true ↔ GoMap.has c.deletingTables k = true)
    (hc : ∀ k, GoMap.has c2.creatingTables k = true → GoMap.has c.creatingTables k = true)
    (hheap : ∀ q, q < c.heapSize → (c2.heap q).Table.Id = (c.heap q).Table.Id)
    (hsize : c.heapSize ≤ c2.heapSize) (hnext : c.idGener.next ≤ c2.idGener.next) :
    TablesInv c2 where
  refWorking n r h := (hw _).2 (hinv.refWorking n r (href n r h))
  refObject n r h := by
    obtain ⟨h1, h2⟩ := hinv.refObject n r (href n r h)
    exact ⟨by rw [hheap _ h2, h1], by omega⟩
  refUnique n1 r1 n2 r2 h1 h2 := hinv.refUnique n1 r1 n2 r2 (href _ _ h1) (href _ _ h2)
  fresh id h := by
    have : c.known id := by
      rcases h with ⟨n, r, hr, rfl⟩ | h | h | h
      · exact Or.inl ⟨n, r, href n r hr, rfl⟩
      · exact Or.inr (Or.inl (hc _ h))
      · exact Or.inr (Or.inr (Or.inl ((hw _).1 h)))
      · exact Or.inr (Or.inr (Or.inr ((hd _).1 h)))
    have := hinv.fresh id this
    omega
  creating id h := by
    rcases hinv.creating id (hc id h) with h1 | h1
    · exact Or.inl ((hw _).2 h1)
    · exact Or.inr ((hd _).2 h1)
  disjoint id h1 h2 := hinv.disjoint id ((hw _).1 h1) ((hd _).1 h2)

/-- A step that adds an unknown table to a database and to the working
tables (and possibly to the creating tables) keeps the invariant. -/
theorem TablesInv.addWorking {c c2 : Cluster} (hinv : TablesInv c) (name : String)
    (ref : TableRef) (hnew : ¬ c.known ref.id)
    (href : ∀ n r, c2.hasRef n r → c.hasRef n r ∨ (n = name ∧ r = ref))
    (hw : ∀ k, GoMap.has c2.workingTables k = true ↔
      k = ref.id ∨ GoMap.has c.workingTables k = true)
    (hd : ∀ k, GoMap.has c2.deletingTables k = true ↔ GoMap.has c.deletingTables k = true)
    (hc : ∀ k, GoMap.has c2.creatingTables k = true →
      k = ref.id ∨ GoMap.has c.creatingTables k = true)
    (hheap : ∀ q, q < c.heapSize → (c2.heap q).Table.Id = (c.heap q).Table.Id)
    (hobj : (c2.heap ref.ptr).Table.Id = ref.id) (hptr : ref.ptr < c2.heapSize)
    (hsize : c.heapSize ≤ c2.heapSize) (hnext : c.idGener.next ≤ c2.idGener.next)
    (hid : ref.id < c2.idGener.next) :
    TablesInv c2 where
  refWorking n r h := by
    rcases href n r h with h1 | ⟨-, rfl⟩
    · exact (hw _).2 (Or.inr (hinv.refWorking n r h1))
    · exact (hw _).2 (Or.inl rfl)
  refObject n r h := by
    rcases href n r h with h1 | ⟨-, rfl⟩
    · obtain ⟨h2, h3⟩ := hinv.refObject n r h1
      exact ⟨by rw [hheap _ h3, h2], by omega⟩
    · exact ⟨hobj, hptr⟩
  refUnique n1 r1 n2 r2 h1 h2 he := by
    rcases href n1 r1 h1 with h1 | ⟨hn1, hr1⟩
    · rcases href n2 r2 h2 with h2 | ⟨hn2, hr2⟩
      · exact hinv.refUnique n1 r1 n2 r2 h1 h2 he
      · exact absurd (Or.inl ⟨n1, r1, h1, by rw [he, hr2]⟩) hnew
    · rcases href n2 r2 h2 with h2 | ⟨hn2, hr2⟩
      · exact absurd (Or.inl ⟨n2, r2, h2, by rw [← he, hr1]⟩) hnew
      · exact ⟨by rw [hn1, hn2], by rw [hr1, hr2]⟩
  fresh id h := by
    by_cases hk : id = ref.id
    · rw [hk]; exact hid
    · have : c.known id := by
        rcases h with ⟨n, r, hr, rfl⟩ | h | h | h
        · rcases href n r hr with h1 | ⟨-, rfl⟩
          · exact Or.inl ⟨n, r, h1, rfl⟩
          · exact absurd rfl hk
        · rcases hc _ h with h1 | h1
          · exact absurd h1 hk
          · exact Or.inr (Or.inl h1)
        · rcases (hw _).1 h with h1 | h1
          · exact absurd h1 hk
          · exact Or.inr (Or.inr (Or.inl h1))
        · exact Or.inr (Or.inr (Or.inr ((hd _).1 h)))
      have := hinv.fresh id this
      omega
  creating id h := by
    rcases hc id h with h1 | h1
    · exact Or.inl ((hw _).2 (Or.inl h1))
    · rcases hinv.creating id h1 with h2 | h2
      · exact Or.inl ((hw _).2 (Or.inr h2))
      · exact Or.inr ((hd _).2 h2)
  disjoint id h1 h2 := by
    have h3 := (hd _).1 h2
    rcases (hw _).1 h1 with rfl | h1
    · exact hnew (Or.inr (Or.inr (Or.inr h3)))
    · exact hinv.disjoint id h1 h3

/-- A step that adds an unknown table to the deleting tables keeps the
invariant. -/
theorem TablesInv.addDeleting {c c2 : Cluster} (hinv : TablesInv c) (id : Nat)
    (hnew : ¬ c.known id)
    (href : ∀ n r, c2.hasRef n r → c.hasRef n r)
    (hw : ∀ k, GoMap.has c2.workingTables k = true ↔ GoMap.has c.workingTables k = true)
    (hd : ∀ k, GoMap.has c2.deletingTables k = true ↔
      k = id ∨ GoMap.has c.deletingTables k = true)
    (hc : ∀ k, GoMap.has c2.creatingTables k = true → GoMap.has c.creatingTables k = true)
    (hheap : ∀ q, q < c.heapSize → (c2.heap q).Table.Id = (c.heap q).Table.Id)
    (hsize : c.heapSize ≤ c2.heapSize) (hnext : c.idGener.next ≤ c2.idGener.next)
    (hid : id < c2.idGener.next) :
    TablesInv c2 where
  refWorking n r h := (hw _).2 (hinv.refWorking n r (href n r h))
  refObject n r h := by
    obtain ⟨h1, h2⟩ := hinv.refObject n r (href n r h)
    exact ⟨by rw [hheap _ h2, h1], by omega⟩
  refUnique n1 r1 n2 r2 h1 h2 := hinv.refUnique n1 r1 n2 r2 (href _ _ h1) (href _ _ h2)
  fresh k h := by
    by_cases hk : k = id
    · rw [hk]; exact hid
    · have : c.known k := by
        rcases h with ⟨n, r, hr, rfl⟩ | h | h | h
        · exact Or.inl ⟨n, r, href n r hr, rfl⟩
        · exact Or.inr (Or.inl (hc _ h))
        · exact Or.inr (Or.inr (Or.inl ((hw _).1 h)))
        · rcases (hd _).1 h with h1 | h1
          · exact absurd h1 hk
          · exact Or.inr (Or.inr (Or.inr h1))
      have := hinv.fresh k this
      omega
  creating k h := by
    rcases hinv.creating k (hc k h) with h1 | h1
    · exact Or.inl ((hw _).2 h1)
    · exact Or.inr ((hd _).2 (Or.inr h1))
  disjoint k h1 h2 := by
    have h3 := (hw _).1 h1
    rcases (hd _).1 h2 with rfl | h2
    · exact hnew (Or.inr (Or.inr (Or.inl h3)))
    · exact hinv.disjoint k h3 h2

/-- A step that moves the table of the entry `ref` of the database `name`
from the working tables to the deleting tables keeps the invariant. -/
theorem TablesInv.moveDeleting {c c2 : Cluster} (hinv : TablesInv c) (name : String)
    (ref : TableRef) (hold : c.hasRef name ref)
    (href : ∀ n r, c2.hasRef n r → c.hasRef n r ∧ ¬ (n = name ∧ r.name = ref.name))
    (hw : ∀ k, GoMap.has c2.workingTables k = true ↔
      k ≠ ref.id ∧ GoMap.has c.workingTables k = true)
    (hd : ∀ k, GoMap.has c2.deletingTables k = true ↔
      k = ref.id ∨ GoMap.has c.deletingTables k = true)
    (hc : ∀ k, GoMap.has c2.creatingTables k = true → GoMap.has c.creatingTables k = true)
    (hheap : ∀ q, q < c.heapSize → (c2.heap q).Table.Id = (c.heap q).Table.Id)
    (hsize : c.heapSize ≤ c2.heapSize) (hnext : c.idGener.next ≤ c2.idGener.next) :
    TablesInv c2 where
  refWorking n r h := by
    obtain ⟨h1, h2⟩ := href n r h
    refine (hw _).2 ⟨?_, hinv.refWorking n r h1⟩
    intro hid
    exact h2 (hinv.refUnique n r name ref h1 hold hid)
  refObject n r h := by
    obtain ⟨h1, h2⟩ := hinv.refObject n r (href n r h).1
    exact ⟨by rw [hheap _ h2, h1], by omega⟩
  refUnique n1 r1 n2 r2 h1 h2 :=
    hinv.refUnique n1 r1 n2 r2 (href _ _ h1).1 (href _ _ h2).1
  fresh k h := by
    have : c.known k := by
      rcases h with ⟨n, r, hr, rfl⟩ | h | h | h
      · exact Or.inl ⟨n, r, (href n r hr).1, rfl⟩
      · exact Or.inr (Or.inl (hc _ h))
      · exact Or.inr (Or.inr (Or.inl ((hw _).1 h).2))
      · rcases (hd _).1 h with h1 | h1
        · exact Or.inl ⟨name, ref, hold, h1.symm⟩
        · exact Or.inr (Or.inr (Or.inr h1))
    have := hinv.fresh k this
    omega
  creating k h := by
    by_cases hk : k = ref.id
    · exact Or.inr ((hd _).2 (Or.inl hk))
    · rcases hinv.creating k (hc k h) with h1 | h1
      · exact Or.inl ((hw _).2 ⟨hk, h1⟩)
      · exact Or.inr ((hd _).2 (Or.inr h1))
  disjoint k h1 h2 := by
    obtain ⟨hk, h3⟩ := (hw _).1 h1
    rcases (hd _).1 h2 with h4 | h4
    · exact hk h4
    · exact hinv.disjoint k h3 h4

theorem TablesInv.frame {c c2 : Cluster} (hinv : TablesInv c) (hdbs : c2.dbs = c.dbs)
    (hw : c2.workingTables = c.workingTables) (hd : c2.deletingTables = c.deletingTables)
    (hc : c2.creatingTables = c.creatingTables) (hheap : c2.heap = c.heap)
    (hsize : c2.heapSize = c.heapSize) (hnext : c2.idGener.next = c.idGener.next) :
    TablesInv c2 :=
  hinv.shrink (fun n r h => by simpa [Cluster.hasRef, hdbs] using h) (by simp [hw])
    (by simp [hd]) (by simp [hc]) (by simp [hheap]) (by omega) (by omega)

theorem mem_AddTable {db : Database} {ref r : TableRef} (h : r ∈ (db.AddTable ref).tables) :
    r = ref ∨ r ∈ db.tables := by
  simp only [Database.AddTable, List.mem_cons, List.mem_filter] at h
  rcases h with h | h
  · exact Or.inl h
  · exact Or.inr h.1

theorem not_known_next {c : Cluster} (hinv : TablesInv c) : ¬ c.known c.idGener.next :=
  fun h => Nat.lt_irrefl _ (hinv.fresh _ h)

theorem TablesInv.created {c : Cluster} (hinv : TablesInv c) (d : Deps) (now : Time)
    (dbName tableName : String) (columns regxs : List Column) (pkDupCheck : Bool)
    (db : Database) (ks : List Bytes) (hdb : c.FindDatabase dbName = some db) :
    TablesInv (createdCluster d c now dbName tableName columns regxs pkDupCheck db ks) := by
  refine hinv.addWorking dbName { name := tableName, id := c.idGener.next, ptr := c.heapSize }
    (not_known_next hinv) ?_ ?_ ?_ ?_ ?_ ?_ ?_ ?_ ?_ ?_
  · intro n r h
    have h2 : (c.setDb dbName (db.AddTable
        { name := tableName, id := c.idGener.next, ptr := c.heapSize })).hasRef n r := h
    rcases hasRef_setDb h2 with ⟨-, h3⟩ | ⟨hn, hr⟩
    · exact Or.inl h3
    · rcases mem_AddTable hr with h4 | h4
      · exact Or.inr ⟨hn, h4⟩
      · exact Or.inl ⟨(dbName, db), GoMap.get?_mem hdb, hn.symm, h4⟩
  · intro k; exact GoMap.has_put _ _ _ _
  · intro k; exact Iff.rfl
  · intro k h; exact (GoMap.has_put _ _ _ _).1 h
  · intro q hq
    have : q ≠ c.heapSize := by omega
    simp [createdCluster, this]
  · simp [createdCluster, NewTable]
  · simp [createdCluster]
  · simp [createdCluster]
  · simp [createdCluster]
  · simp [createdCluster]

theorem TablesInv.deleted {c : Cluster} (hinv : TablesInv c) (d : Deps) (now : Time)
    (dbName tableName : String) (fast : Bool) (db : Database) (ref : TableRef)
    (hdb : c.FindDatabase dbName = some db) (hft : db.FindTable tableName = some ref) :
    TablesInv (deletedCluster d c now dbName tableName fast db ref) := by
  obtain ⟨hold, hname⟩ := hasRef_of_find hdb hft
  obtain ⟨hobj, hptr⟩ := hinv.refObject dbName ref hold
  have hid : (c.deref ref.ptr).Table.Id = ref.id := hobj
  refine hinv.moveDeleting dbName ref hold ?_ ?_ ?_ ?_ ?_ ?_ ?_
  · intro n r h
    have h2 : (c.setDb dbName (db.DeleteTableByName tableName)).hasRef n r := h
    rcases hasRef_setDb h2 with ⟨hne, h3⟩ | ⟨hn, hr⟩
    · exact ⟨h3, fun h5 => hne h5.1⟩
    · simp only [Database.DeleteTableByName, List.mem_filter] at hr
      refine ⟨⟨(dbName, db), GoMap.get?_mem hdb, hn.symm, hr.1⟩, ?_⟩
      rintro ⟨-, h5⟩
      rw [hname] at h5
      simpa [h5] using hr.2
  · intro k
    show GoMap.has (GoMap.del c.workingTables (c.deref ref.ptr).Table.Id) k = true ↔ _
    rw [hid]; exact GoMap.has_del _ _ _
  · intro k
    show GoMap.has (GoMap.put c.deletingTables (c.deref ref.ptr).Table.Id ref.ptr) k = true ↔ _
    rw [hid]; exact GoMap.has_put _ _ _ _
  · intro k h; exact h
  · intro q hq
    by_cases hqp : q = ref.ptr
    · subst hqp
      simp [deletedCluster, deletedRecord, Cluster.deref]
    · simp [deletedCluster, hqp]
  · exact Nat.le_refl _
  · exact Nat.le_refl _

theorem TablesInv.CreateTable {c : Cluster} (hinv : TablesInv c) (d : Deps) (now : Time)
    (dbName tableName : String) (columns regxs : List Column) (pkDupCheck : Bool)
    (sliceKeys : List Bytes) :
    TablesInv (c.CreateTable d now dbName tableName columns regxs pkDupCheck sliceKeys).2 := by
  cases hres : c.CreateTable d now dbName tableName columns regxs pkDupCheck sliceKeys with
  | mk res c1 =>
    cases res with
    | ok t =>
      obtain ⟨db, ks, -, hdb, -, -, -, -, hc1⟩ := CreateTable_ok_inv hres
      rw [hc1]
      exact hinv.created d now dbName tableName columns regxs pkDupCheck db ks hdb
    | error err =>
      show TablesInv c1
      unfold Cluster.CreateTable at hres
      split at hres
      · cases hres; exact hinv
      · split at hres
        · cases hres; exact hinv
        · rename_i db hdb
          split at hres
          · cases hres; exact hinv
          · rename_i hft
            cases hg : c.idGener.failing with
            | true =>
              simp [IDGenerator.GenID, hg] at hres
              rw [← hres.2]
              exact hinv
            | false =>
              simp only [IDGenerator.GenID, hg, Bool.false_eq_true, if_false] at hres
              by_cases hs : sliceKeys.length ≠ 0
              · rw [if_pos hs] at hres
                cases he : encodeSplitKeys d sliceKeys columns with
                | ok ks => simp [he] at hres
                | error e =>
                  simp only [he] at hres
                  have hc1 := (Prod.mk.inj hres).2
                  rw [← hc1]
                  have hnew := not_known_next hinv
                  refine hinv.shrink ?_ ?_ ?_ ?_ ?_ ?_ ?_
                  · intro n r h
                    rcases hasRef_setDb h with ⟨hne, h3⟩ | ⟨hn, hr⟩
                    · rcases hasRef_setDb h3 with ⟨-, h4⟩ | ⟨hn, -⟩
                      · exact h4
                      · exact absurd hn hne
                    · simp only [Database.DeleteTableById, List.mem_filter] at hr
                      rcases mem_AddTable hr.1 with h4 | h4
                      · exfalso
                        rw [h4] at hr
                        simpa using hr.2
                      · exact ⟨(dbName, db), GoMap.get?_mem hdb, hn.symm, h4⟩
                  · intro k
                    simp only [Cluster.setDb, Cluster.alloc]
                    rw [GoMap.has_del, GoMap.has_put]
                    constructor
                    · rintro ⟨h1, h2 | h2⟩
                      · exact absurd h2 h1
                      · exact h2
                    · intro h
                      refine ⟨?_, Or.inr h⟩
                      rintro rfl
                      exact hnew (Or.inr (Or.inr (Or.inl h)))
                  · intro k; exact Iff.rfl
                  · intro k h; exact h
                  · intro q hq
                    have : q ≠ c.heapSize := by omega
                    simp [Cluster.setDb, Cluster.alloc, this]
                  · simp [Cluster.setDb, Cluster.alloc]
                  · simp [Cluster.setDb, Cluster.alloc]
              · rw [if_neg hs] at hres
                simp at hres

theorem TablesInv.CancelTable {c : Cluster} (hinv : TablesInv c) (dbName tName : String) :
    TablesInv (c.CancelTable dbName tName).2 := by
  unfold Cluster.CancelTable
  split
  · exact hinv
  · rename_i db hdb
    split
    · exact hinv
    · rename_i ref hft
      obtain ⟨hold, -⟩ := hasRef_of_find hdb hft
      have key : ∀ c0 : Cluster, c0.dbs = c.dbs → c0.workingTables = c.workingTables →
          c0.deletingTables = c.deletingTables → c0.creatingTables = c.creatingTables →
          c0.heap = c.heap → c0.heapSize = c.heapSize → c0.idGener.next = c.idGener.next →
          TablesInv
            { (Cluster.setDb
                (c0.store! ref.ptr
                  { c.deref ref.ptr with
                    Table := { (c.deref ref.ptr).Table with Status := .TableDelete } })
                dbName (db.DeleteTableById (c.deref ref.ptr).Table.Id)) with
              creatingTables := GoMap.del c0.creatingTables (c.deref ref.ptr).Table.Id } := by
        intro c0 h1 h2 h3 h4 h5 h6 h7
        refine hinv.shrink ?_ ?_ ?_ ?_ ?_ ?_ ?_
        · intro n r h
          have h8 : (Cluster.setDb c0 dbName
              (db.DeleteTableById (c.deref ref.ptr).Table.Id)).hasRef n r := h
          rcases hasRef_setDb h8 with ⟨-, h9⟩ | ⟨hn, hr⟩
          · simpa [Cluster.hasRef, h1] using h9
          · simp only [Database.DeleteTableById, List.mem_filter] at hr
            exact ⟨(dbName, db), GoMap.get?_mem hdb, hn.symm, hr.1⟩
        · intro k; simp [Cluster.setDb, Cluster.store!, h2]
        · intro k; simp [Cluster.setDb, Cluster.store!, h3]
        · intro k h
          have := (GoMap.has_del _ _ _).1 h
          rw [← h4]; exact this.2
        · intro q _
          by_cases hqp : q = ref.ptr
          · subst hqp
            simp [Cluster.setDb, Cluster.store!, Cluster.deref]
          · simp [Cluster.setDb, Cluster.store!, hqp, h5]
        · simp [Cluster.setDb, Cluster.store!, h6]
        · simp [Cluster.setDb, Cluster.store!, h7]
      dsimp only
      split
      · exact hinv
      · split
        · cases hs : c.store.failing with
          | true =>
            simp only [Store.Delete, hs, if_true]
            exact hinv.frame rfl rfl rfl rfl rfl rfl rfl
          | false =>
            simp only [Store.Delete, hs, Bool.false_eq_true, if_false]
            exact key _ rfl rfl rfl rfl rfl rfl rfl
        · exact key c rfl rfl rfl rfl rfl rfl rfl

theorem TablesInv.DeleteTable {c : Cluster} (hinv : TablesInv c) (d : Deps) (now : Time)
    (dbName tableName : String) (fast : Bool) :
    TablesInv (c.DeleteTable d now dbName tableName fast).2 := by
  cases hres : c.DeleteTable d now dbName tableName fast with
  | mk res c1 =>
    cases res with
    | ok t =>
      obtain ⟨db, ref, hdb, hft, -, -, hc1⟩ := DeleteTable_ok_inv hres
      rw [hc1]
      exact hinv.deleted d now dbName tableName fast db ref hdb hft
    | error err =>
      show TablesInv c1
      unfold Cluster.DeleteTable at hres
      split at hres
      · cases hres; exact hinv
      · split at hres
        · cases hres; exact hinv
        · cases hs : c.store.failing with
          | true =>
            simp [Store.NewBatch, Store.Commit, hs] at hres
            rw [← hres.2]
            exact hinv.frame rfl rfl rfl rfl rfl rfl rfl
          | false => simp [Store.NewBatch, Store.Commit, hs] at hres

theorem known_of_add (c c2 : Cluster) (id : Nat)
    (href : ∀ n r, c2.hasRef n r → c.hasRef n r ∨ r.id = id)
    (hw : ∀ k, GoMap.has c2.workingTables k = true →
      k = id ∨ GoMap.has c.workingTables k = true)
    (hd : ∀ k, GoMap.has c2.deletingTables k = true →
      k = id ∨ GoMap.has c.deletingTables k = true)
    (hc : ∀ k, GoMap.has c2.creatingTables k = true →
      k = id ∨ GoMap.has c.creatingTables k = true)
    {k : Nat} (h : c2.known k) : c.known k ∨ k = id := by
  rcases h with ⟨n, r, hr, rfl⟩ | h | h | h
  · rcases href n r hr with h1 | h1
    · exact Or.inl (Or.inl ⟨n, r, h1, rfl⟩)
    · exact Or.inr h1
  · rcases hc _ h with h1 | h1
    · exact Or.inr h1
    · exact Or.inl (Or.inr (Or.inl h1))
  · rcases hw _ h with h1 | h1
    · exact Or.inr h1
    · exact Or.inl (Or.inr (Or.inr (Or.inl h1)))
  · rcases hd _ h with h1 | h1
    · exact Or.inr h1
    · exact Or.inl (Or.inr (Or.inr (Or.inr h1)))

theorem hasRef_added {c : Cluster} {name : String} {db : Database} {ref : TableRef}
    (hdb : c.FindDatabase name = some db) {c2 : Cluster}
    (hdbs : c2.dbs = (c.setDb name (db.AddTable ref)).dbs) {n : String} {r : TableRef}
    (h : c2.hasRef n r) : c.hasRef n r ∨ (n = name ∧ r = ref) := by
  have h2 : (c.setDb name (db.AddTable ref)).hasRef n r := by
    simpa [Cluster.hasRef, hdbs] using h
  rcases hasRef_setDb h2 with ⟨-, h3⟩ | ⟨hn, hr⟩
  · exact Or.inl h3
  · rcases mem_AddTable hr with h4 | h4
    · exact Or.inr ⟨hn, h4⟩
    · exact Or.inl ⟨(name, db), GoMap.get?_mem hdb, hn.symm, h4⟩

/-- One round of the loop of `loadTables` keeps the invariant, when the id of
the loaded record is below the next id and not yet known; it makes nothing
but that id known. -/
theorem loadTablesBody_inv {c : Cluster} (hinv : TablesInv c) (k : Bytes) (v : StoreValue)
    (hfresh : ∀ t, v = .table t → t.Id < c.idGener.next ∧ ¬ c.known t.Id) :
    TablesInv (c.loadTablesBody k v).2 ∧
    (c.loadTablesBody k v).2.idGener.next = c.idGener.next ∧
    ∀ id, (c.loadTablesBody k v).2.known id → c.known id ∨ ∃ t, v = .table t ∧ id = t.Id := by
  unfold Cluster.loadTablesBody
  split
  · exact ⟨hinv, rfl, fun id h => Or.inl h⟩
  · cases v with
    | raw b => exact ⟨hinv, rfl, fun id h => Or.inl h⟩
    | database db => exact ⟨hinv, rfl, fun id h => Or.inl h⟩
    | node n => exact ⟨hinv, rfl, fun id h => Or.inl h⟩
    | range r => exact ⟨hinv, rfl, fun id h => Or.inl h⟩
    | replica rep => exact ⟨hinv, rfl, fun id h => Or.inl h⟩
    | table t =>
      obtain ⟨hlt, hnew⟩ := hfresh t rfl
      simp only [Cluster.unmarshalTable]
      split
      · exact ⟨hinv, rfl, fun id h => Or.inl h⟩
      · rename_i db hdb
        have halloc : TablesInv (c.alloc (NewTable t)).2 ∧
            (c.alloc (NewTable t)).2.idGener.next = c.idGener.next ∧
            ∀ id, (c.alloc (NewTable t)).2.known id →
              c.known id ∨ ∃ t2, StoreValue.table t = .table t2 ∧ id = t2.Id := by
          refine ⟨hinv.shrink (fun n r h => h) (fun _ => Iff.rfl) (fun _ => Iff.rfl)
            (fun _ h => h) ?_ (by simp [Cluster.alloc]) (Nat.le_refl _), rfl,
            fun id h => Or.inl h⟩
          intro q hq
          have : q ≠ c.heapSize := by omega
          simp [Cluster.alloc, this]
        have hworking : ∀ c2 : Cluster,
            c2.dbs = (c.setDb t.DbName (db.AddTable
              { name := t.Name, id := t.Id, ptr := c.heapSize })).dbs →
            c2.workingTables = GoMap.put c.workingTables t.Id c.heapSize →
            c2.deletingTables = c.deletingTables →
            (∀ k, GoMap.has c2.creatingTables k = true →
              k = t.Id ∨ GoMap.has c.creatingTables k = true) →
            c2.heap = (c.alloc (NewTable t)).2.heap → c2.heapSize = c.heapSize + 1 →
            c2.idGener.next = c.idGener.next →
            TablesInv c2 ∧ c2.idGener.next = c.idGener.next ∧
            ∀ id, c2.known id →
              c.known id ∨ ∃ t2, StoreValue.table t = .table t2 ∧ id = t2.Id := by
          intro c2 h1 h2 h3 h4 h5 h6 h7
          refine ⟨hinv.addWorking t.DbName { name := t.Name, id := t.Id, ptr := c.heapSize }
            hnew (fun n r h => hasRef_added hdb h1 h) ?_ ?_ h4 ?_ ?_ ?_ ?_ ?_ ?_, h7, ?_⟩
          · intro k; rw [h2]; exact GoMap.has_put _ _ _ _
          · intro k; rw [h3]
          · intro q hq
            have : q ≠ c.heapSize := by omega
            simp [h5, Cluster.alloc, this]
          · simp [h5, Cluster.alloc, NewTable]
          · simp [h6]
          · omega
          · omega
          · show t.Id < c2.idGener.next
            omega
          · intro id h
            have := known_of_add c c2 t.Id
              (fun n r h => by
                rcases hasRef_added hdb h1 h with h8 | ⟨-, h8⟩
                · exact Or.inl h8
                · exact Or.inr (by rw [h8]))
              (fun k h => by rw [h2] at h; exact (GoMap.has_put _ _ _ _).1 h)
              (fun k h => by rw [h3] at h; exact Or.inr h) h4 h
            rcases this with h8 | h8
            · exact Or.inl h8
            · exact Or.inr ⟨t, rfl, h8⟩
        have hdeleting : ∀ dt : Time,
            let c2 : Cluster :=
              { ((c.alloc (NewTable t)).2.store! c.heapSize
                  { (NewTable t) with deleteTime := dt }) with
                deletingTables := GoMap.put c.deletingTables t.Id c.heapSize }
            TablesInv c2 ∧ c2.idGener.next = c.idGener.next ∧
            ∀ id, c2.known id →
              c.known id ∨ ∃ t2, StoreValue.table t = .table t2 ∧ id = t2.Id := by
          intro dt c2
          refine ⟨hinv.addDeleting t.Id hnew (fun n r h => h) (fun _ => Iff.rfl)
            (fun k => GoMap.has_put _ _ _ _) (fun _ h => h) ?_ (by simp [Cluster.alloc,
              Cluster.store!]) (Nat.le_refl _) hlt, rfl, ?_⟩
          · intro q hq
            have : q ≠ c.heapSize := by omega
            simp [Cluster.alloc, Cluster.store!, this]
          · intro id h
            have := known_of_add c c2 t.Id (fun n r h => Or.inl h)
              (fun k h => Or.inr h) (fun k h => (GoMap.has_put _ _ _ _).1 h)
              (fun k h => Or.inr h) h
            rcases this with h8 | h8
            · exact Or.inl h8
            · exact Or.inr ⟨t, rfl, h8⟩
        split
        · exact hworking _ rfl rfl rfl (fun k h => (GoMap.has_put _ _ _ _).1 h) rfl rfl rfl
        · exact hworking _ rfl rfl rfl (fun k h => Or.inr h) rfl rfl rfl
        · split
          · exact halloc
          · exact hdeleting _
        · split
          · exact halloc
          · exact hdeleting _
        · exact halloc

theorem storedTableIds_cons (k : Bytes) (v : StoreValue) (rest : List (Bytes × StoreValue)) :
    storedTableIds ((k, v) :: rest) =
      (match v with
        | .table t => [t.Id]
        | _ => []) ++ storedTableIds rest := by
  cases v <;> simp [storedTableIds, List.filterMap_cons]

theorem loadTablesLoop_inv (it : List (Bytes × StoreValue)) :
    ∀ c : Cluster, TablesInv c → (storedTableIds it).Nodup →
      (∀ id ∈ storedTableIds it, id < c.idGener.next ∧ ¬ c.known id) →
      TablesInv (c.loadTablesLoop it).2 := by
  induction it with
  | nil => intro c hinv _ _; exact hinv
  | cons e rest ih =>
    obtain ⟨k, v⟩ := e
    intro c hinv hnd hfresh
    rw [storedTableIds_cons] at hnd hfresh
    have hbody := loadTablesBody_inv hinv k v (by
      intro t ht
      subst ht
      exact hfresh t.Id (by simp))
    simp only [Cluster.loadTablesLoop]
    cases hres : c.loadTablesBody k v with
    | mk r c1 =>
      rw [hres] at hbody
      obtain ⟨h1, h2, h3⟩ := hbody
      cases r with
      | some err => exact h1
      | none =>
        refine ih c1 h1 (List.Nodup.of_append_right hnd) ?_
        intro id hid
        have hf := hfresh id (List.mem_append_right _ hid)
        refine ⟨by rw [h2]; exact hf.1, ?_⟩
        intro hk
        rcases h3 id hk with h4 | ⟨t, rfl, rfl⟩
        · exact hf.2 h4
        · simp only [List.singleton_append, List.nodup_cons] at hnd
          exact hnd.1 hid

theorem storedTableIds_scan (s : Store) (start limit : Bytes) :
    (storedTableIds (s.Scan start limit).1).Nodup ∨ ¬ (storedTableIds s.kv).Nodup := by
  by_cases h : (storedTableIds s.kv).Nodup
  · left
    have hp : (storedTableIds (s.Scan start limit).1).Perm
        (storedTableIds (s.kv.filter
          (fun e => !ByLetter.Less e.1 start && ByLetter.Less e.1 limit))) :=
      (List.perm_insertionSort _ _).filterMap _
    rw [hp.nodup_iff]
    exact h.sublist ((List.filter_sublist _).filterMap _)
  · exact Or.inr h

theorem storedTableIds_scan_mem (s : Store) (start limit : Bytes) {id : Nat}
    (h : id ∈ storedTableIds (s.Scan start limit).1) : id ∈ storedTableIds s.kv := by
  have hp : (storedTableIds (s.Scan start limit).1).Perm
      (storedTableIds (s.kv.filter
        (fun e => !ByLetter.Less e.1 start && ByLetter.Less e.1 limit))) :=
    (List.perm_insertionSort _ _).filterMap _
  exact ((List.filter_sublist _).filterMap _).subset (hp.mem_iff.1 h)

theorem TablesInv.empty {c : Cluster} (hc : c.creatingTables = []) (hw : c.workingTables = [])
    (hd : c.deletingTables = []) (hdb : ∀ e ∈ c.dbs, e.2.tables = []) : TablesInv c := by
  have href : ∀ n r, ¬ c.hasRef n r := by
    rintro n r ⟨e, he, -, hr⟩
    rw [hdb e he] at hr
    simp at hr
  have hknown : ∀ id, ¬ c.known id := by
    rintro id (⟨n, r, hr, -⟩ | h | h | h)
    · exact href n r hr
    · simp [hc, GoMap.has_nil] at h
    · simp [hw, GoMap.has_nil] at h
    · simp [hd, GoMap.has_nil] at h
  exact
    { refWorking := fun n r h => absurd h (href n r)
      refObject := fun n r h => absurd h (href n r)
      refUnique := fun n1 r1 n2 r2 h => absurd h (href n1 r1)
      fresh := fun id h => absurd h (hknown id)
      creating := fun id h => by simp [hc, GoMap.has_nil] at h
      disjoint := fun id h => by simp [hw, GoMap.has_nil] at h }

theorem not_known_of_empty {c : Cluster} (hc : c.creatingTables = [])
    (hw : c.workingTables = []) (hd : c.deletingTables = [])
    (hdb : ∀ e ∈ c.dbs, e.2.tables = []) (id : Nat) : ¬ c.known id := by
  rintro (⟨n, r, ⟨e, he, -, hr⟩, -⟩ | h | h | h)
  · rw [hdb e he] at hr
    simp at hr
  · simp [hc, GoMap.has_nil] at h
  · simp [hw, GoMap.has_nil] at h
  · simp [hd, GoMap.has_nil] at h

theorem Reachable.tablesInv {d : Deps} {c : Cluster} (h : Reachable d c) : TablesInv c := by
  induction h with
  | boot c0 hc hw hd hdb hnd hlt =>
    simp only [Cluster.loadTables]
    refine loadTablesLoop_inv _ _ (TablesInv.empty hc hw hd hdb) ?_ ?_
    · rcases storedTableIds_scan c0.store (bytesPrefix (strBytes PREFIX_TABLE)).1
        (bytesPrefix (strBytes PREFIX_TABLE)).2 with h1 | h1
      · exact h1
      · exact absurd hnd h1
    · intro id hid
      exact ⟨hlt id (storedTableIds_scan_mem _ _ _ hid),
        not_known_of_empty hc hw hd hdb id⟩
  | createTable c now dbName tableName columns regxs pkDupCheck sliceKeys _ ih =>
    exact ih.CreateTable d now dbName tableName columns regxs pkDupCheck sliceKeys
  | cancelTable c dbName tName _ ih => exact ih.CancelTable dbName tName
  | deleteTable c now dbName tableName fast _ ih =>
    exact ih.DeleteTable d now dbName tableName fast
  | faults c sf gf _ ih => exact ih.frame rfl rfl rfl rfl rfl rfl rfl

theorem demoReached_reachable : Reachable demoDeps demoReached :=
  Reachable.createTable _ 5000000000 "db" "t" [demoPk] [] false []
    (Reachable.boot demoCluster rfl rfl rfl (by decide) (by decide) (by decide))

/-- C7 (amended): in every cluster state reachable through `loadTables`,
`CreateTable`, `CancelTable` and `DeleteTable`, every table known to the
cluster (a table in the table set of a database or in one of the three table
caches) is a member of exactly one of `workingTables` and `deletingTables`.
`creatingTables` is not a third alternative: each of its members is also in
`workingTables` or in `deletingTables`, and every table in the table set of a
database is in `workingTables`. -/
theorem reachable_table_membership (d : Deps) (c : Cluster) (h : Reachable d c) :
    (∀ id, c.known id →
      (GoMap.has c.workingTables id = true ∧ GoMap.has c.deletingTables id = false) ∨
      (GoMap.has c.workingTables id = false ∧ GoMap.has c.deletingTables id = true)) ∧
    (∀ id, GoMap.has c.creatingTables id = true →
      GoMap.has c.workingTables id = true ∨ GoMap.has c.deletingTables id = true) ∧
    (∀ n r, c.hasRef n r → GoMap.has c.workingTables r.id = true) := by
  have hinv := h.tablesInv
  refine ⟨?_, hinv.creating, hinv.refWorking⟩
  intro id hk
  rcases known_of_inv hinv hk with hw | hd
  · left
    refine ⟨hw, ?_⟩
    cases hd : GoMap.has c.deletingTables id with
    | false => rfl
    | true => exact absurd hd (fun h0 => hinv.disjoint id hw h0)
  · right
    refine ⟨?_, hd⟩
    cases hw : GoMap.has c.workingTables id with
    | false => rfl
    | true => exact absurd hd (fun h0 => hinv.disjoint id hw h0)

/-- C7, an instance: after `loadTables` and the creation of the table with id
7, that table is in the working tables and not in the deleting tables. -/
theorem reachable_table_membership_witness :
    Reachable demoDeps demoReached ∧ demoReached.known 7 ∧
    ((GoMap.has demoReached.workingTables 7 = true ∧
        GoMap.has demoReached.deletingTables 7 = false) ∨
      (GoMap.has demoReached.workingTables 7 = false ∧
        GoMap.has demoReached.deletingTables 7 = true)) :=
  ⟨demoReached_reachable, Or.inr (Or.inl (by decide)),
   (reachable_table_membership demoDeps demoReached demoReached_reachable).1 7
     (Or.inr (Or.inl (by decide)))⟩

/-- C7 as stated fails: the state after `loadTables` and one `CreateTable` is
reachable, and there the new table is a member of two of the three caches,
`creatingTables` and `workingTables`. -/
theorem reachable_table_in_two_caches :
    Reachable demoDeps demoReached ∧
    GoMap.has demoReached.creatingTables 7 = true ∧
    GoMap.has demoReached.workingTables 7 = true ∧
    GoMap.has demoReached.deletingTables 7 = false :=
  ⟨demoReached_reachable, by decide, by decide, by decide⟩

/-! ## The store writes of `DeleteTable` -/

theorem DeleteTable_found {d : Deps} {c : Cluster} {now : Time} {dbName tableName : String}
    {fast : Bool} {db : Database} {ref : TableRef}
    (hdb : c.FindDatabase dbName = some db) (hft : db.FindTable tableName = some ref) :
    c.DeleteTable d now dbName tableName fast =
      if c.store.failing then
        (.error .store,
         { c with store := { c.store with
             calls := c.store.calls ++ [.NewBatch] ++
               [.Commit (deleteBatch d now fast (c.deref ref.ptr))] } })
      else (.ok ref.ptr, deletedCluster d c now dbName tableName fast db ref) := by
  unfold Cluster.DeleteTable
  simp only [hdb, hft]
  cases hs : c.store.failing with
  | true =>
    simp [Store.NewBatch, Store.Commit, hs, Batch.Put, Batch.Delete, deleteBatch,
      deletedRecord, deletionTime]
  | false =>
    simp [Store.NewBatch, Store.Commit, hs, Batch.Put, Batch.Delete, deletedCluster,
      deleteBatch, deletedRecord, deletionTime, Cluster.store!, Cluster.setDb]

/-- C11: a `DeleteTable` call that finds the database and the table, with
`fast` true or false and whether or not the commit succeeds, makes exactly two
calls on the store: `NewBatch` and one `Commit` of the batch holding the put
of the table record (with the new status and the time bytes) under the table
key, followed by the deletes of the auto-transfer and auto-failover keys of
that table. The data of the store is the old data with that batch applied
when the commit succeeds, and the old data when it fails. -/
theorem DeleteTable_single_batch (d : Deps) (c : Cluster) (now : Time)
    (dbName tableName : String) (fast : Bool) (db : Database) (ref : TableRef)
    (hdb : c.FindDatabase dbName = some db) (hft : db.FindTable tableName = some ref) :
    (c.DeleteTable d now dbName tableName fast).2.store.calls =
      c.store.calls ++
        [.NewBatch,
         .Commit
           [.Put (tableKey (c.deref ref.ptr).Table.Id)
              (.table { (c.deref ref.ptr).Table with
                Status := if fast then .TableDeleting else .TableDelete,
                Expand := putUint64BE (toUint64 (Time.Unix (deletionTime d now fast))) }),
            .Delete (d.autoTransferTableKey (c.deref ref.ptr).Table.Id),
            .Delete (d.autoFailoverTableKey (c.deref ref.ptr).Table.Id)]] ∧
    (c.DeleteTable d now dbName tableName fast).2.store.kv =
      if c.store.failing then c.store.kv
      else (deleteBatch d now fast (c.deref ref.ptr)).foldl BatchOp.apply c.store.kv := by
  rw [DeleteTable_found hdb hft]
  cases hs : c.store.failing with
  | true => simp [deleteBatch, deletedRecord]
  | false => simp [deletedCluster, deleteBatch, deletedRecord]

/-- C11, an instance: the deletion of the loaded table 7. -/
theorem DeleteTable_single_batch_witness :
    demoLoaded.FindDatabase "db" = some
      { Name := "db", Id := 1, Properties := "", Version := 0, CreateTime := 0,
        tables := [{ name := "t", id := 7, ptr := 0 }] } ∧
    (demoLoaded.DeleteTable demoDeps 400000000000000 "db" "t" false).2.store.calls =
      demoLoaded.store.calls ++
        [.NewBatch,
         .Commit
           [.Put (tableKey 7)
              (.table { demoRunningTable with
                Status := .TableDelete, Expand := [0, 0, 0, 0, 0, 6, 26, 128] }),
            .Delete (demoDeps.autoTransferTableKey 7),
            .Delete (demoDeps.autoFailoverTableKey 7)]] :=
  ⟨by decide,
   (DeleteTable_single_batch demoDeps demoLoaded 400000000000000 "db" "t" false
      { Name := "db", Id := 1, Properties := "", Version := 0, CreateTime := 0,
        tables := [{ name := "t", id := 7, ptr := 0 }] }
      { name := "t", id := 7, ptr := 0 } (by decide) (by decide)).1⟩

theorem GoMap.get?_map_set {α : Type} (m : GoMap String α) (name : String) (v : α) :
    GoMap.get? (m.map (fun e => if e.1 = name then (e.1, v) else e)) name =
      (GoMap.get? m name).map (fun _ => v) := by
  induction m with
  | nil => rfl
  | cons e rest ih =>
    simp only [GoMap.get?] at ih ⊢
    by_cases hk : e.1 = name
    · simp [List.find?_cons, hk]
    · simp only [List.map_cons, if_neg hk]
      rw [List.find?_cons_of_neg _ (by simpa using hk),
        List.find?_cons_of_neg _ (by simpa using hk)]
      exact ih

/-- C12: `DeleteTable` changes the table object and the caches only after a
successful commit. When the call returns an error (in particular when the
commit fails) the table objects, the database table sets and the three table
caches are unchanged. When it succeeds the table is in `deletingTables`, no
longer in `workingTables` and no longer found by name in its database. -/
theorem DeleteTable_atomic (d : Deps) (c : Cluster) (now : Time)
    (dbName tableName : String) (fast : Bool) :
    (∀ db ref, c.FindDatabase dbName = some db → db.FindTable tableName = some ref →
      c.store.failing = true →
      (c.DeleteTable d now dbName tableName fast).1 = .error .store) ∧
    (∀ err c1, c.DeleteTable d now dbName tableName fast = (.error err, c1) →
      c1.heap = c.heap ∧ c1.dbs = c.dbs ∧ c1.workingTables = c.workingTables ∧
      c1.deletingTables = c.deletingTables ∧ c1.creatingTables = c.creatingTables) ∧
    (∀ t c1, c.DeleteTable d now dbName tableName fast = (.ok t, c1) →
      (c1.deref t).Table.Id = (c.deref t).Table.Id ∧
      c1.FindDeleteTableById (c.deref t).Table.Id = some t ∧
      c1.FindTableById (c.deref t).Table.Id = none ∧
      (c1.FindDatabase dbName).map (fun db => db.FindTable tableName) = some none) := by
  refine ⟨?_, ?_, ?_⟩
  · intro db ref hdb hft hs
    rw [DeleteTable_found hdb hft, hs]
    rfl
  · intro err c1 h
    unfold Cluster.DeleteTable at h
    split at h
    · cases h; exact ⟨rfl, rfl, rfl, rfl, rfl⟩
    · split at h
      · cases h; exact ⟨rfl, rfl, rfl, rfl, rfl⟩
      · cases hs : c.store.failing with
        | true =>
          simp [Store.NewBatch, Store.Commit, hs] at h
          rw [← h.2]
          exact ⟨rfl, rfl, rfl, rfl, rfl⟩
        | false => simp [Store.NewBatch, Store.Commit, hs] at h
  · intro t c1 h
    obtain ⟨db, ref, hdb, hft, -, ht, hc1⟩ := DeleteTable_ok_inv h
    subst ht hc1
    refine ⟨?_, ?_, ?_, ?_⟩
    · simp [deletedCluster, deletedRecord, Cluster.deref]
    · simp [deletedCluster, Cluster.FindDeleteTableById, GoMap.get?_put_self]
    · have hn : GoMap.has (GoMap.del c.workingTables (c.deref ref.ptr).Table.Id)
          (c.deref ref.ptr).Table.Id = false := by
        cases hh : GoMap.has (GoMap.del c.workingTables (c.deref ref.ptr).Table.Id)
            (c.deref ref.ptr).Table.Id with
        | false => rfl
        | true => exact absurd rfl ((GoMap.has_del _ _ _).1 hh).1
      simpa [GoMap.has, deletedCluster, Cluster.FindTableById] using hn
    · have h1 : (deletedCluster d c now dbName tableName fast db ref).FindDatabase dbName =
          some (db.DeleteTableByName tableName) := by
        simp only [deletedCluster, Cluster.FindDatabase]
        rw [GoMap.get?_map_set]
        have : GoMap.get? c.dbs dbName = some db := hdb
        rw [this]; rfl
      rw [h1]
      simp [Database.FindTable, Database.DeleteTableByName, List.find?_eq_none]

/-- C12, an instance: over a failing store the deletion of the loaded table 7
returns the store error and the table stays in `workingTables`. -/
theorem DeleteTable_atomic_witness :
    (({ demoLoaded with store := { demoLoaded.store with failing := true } } :
      Cluster).DeleteTable demoDeps 400000000000000 "db" "t" false).1 = .error .store ∧
    (({ demoLoaded with store := { demoLoaded.store with failing := true } } :
      Cluster).DeleteTable demoDeps 400000000000000 "db" "t" false).2.workingTables =
      demoLoaded.workingTables ∧
    (demoLoaded.DeleteTable demoDeps 400000000000000 "db" "t" false).2.FindTableById 7 =
      none :=
  ⟨rfl,
   ((DeleteTable_atomic demoDeps
      { demoLoaded with store := { demoLoaded.store with failing := true } }
      400000000000000 "db" "t" false).2.1 .store _ rfl).2.2.1,
   ((DeleteTable_atomic demoDeps demoLoaded 400000000000000 "db" "t" false).2.2 0 _ rfl).2.2.1⟩

/-! ## Reloading a deleted table -/

theorem uint64BE_putUint64BE_aux (n : Nat) :
    uint64BE (putUint64BE n) = (((((((0 * 256 + n / 2 ^ 56 % 256 % 256) * 256 + n / 2 ^ 48 % 256 % 256) * 256 +
        n / 2 ^ 40 % 256 % 256) * 256 + n / 2 ^ 32 % 256 % 256) * 256 +
        n / 2 ^ 24 % 256 % 256) * 256 + n / 2 ^ 16 % 256 % 256) * 256 +
        n / 2 ^ 8 % 256 % 256) * 256 + n % 256 % 256 := by
  simp only [putUint64BE, uint64BE, List.take, List.foldl]

theorem uint64BE_putUint64BE (n : Nat) (h : n < 2 ^ 64) : uint64BE (putUint64BE n) = n := by
  rw [uint64BE_putUint64BE_aux]
  obtain ⟨a1, h1⟩ : ∃ a, a = n / 256 := ⟨_, rfl⟩
  obtain ⟨a2, h2⟩ : ∃ a, a = a1 / 256 := ⟨_, rfl⟩
  obtain ⟨a3, h3⟩ : ∃ a, a = a2 / 256 := ⟨_, rfl⟩
  obtain ⟨a4, h4⟩ : ∃ a, a = a3 / 256 := ⟨_, rfl⟩
  obtain ⟨a5, h5⟩ : ∃ a, a = a4 / 256 := ⟨_, rfl⟩
  obtain ⟨a6, h6⟩ : ∃ a, a = a5 / 256 := ⟨_, rfl⟩
  obtain ⟨a7, h7⟩ : ∃ a, a = a6 / 256 := ⟨_, rfl⟩
  have e1 : n / 2 ^ 8 = a1 := by rw [h1]; norm_num
  have e2 : n / 2 ^ 16 = a2 := by
    rw [h2, h1, Nat.div_div_eq_div_mul]
    norm_num
  have e3 : n / 2 ^ 24 = a3 := by
    rw [h3, h2, h1, Nat.div_div_eq_div_mul, Nat.div_div_eq_div_mul]
    norm_num
  have e4 : n / 2 ^ 32 = a4 := by
    rw [h4, h3, h2, h1, Nat.div_div_eq_div_mul, Nat.div_div_eq_div_mul, Nat.div_div_eq_div_mul]
    norm_num
  have e5 : n / 2 ^ 40 = a5 := by
    rw [h5, h4, h3, h2, h1, Nat.div_div_eq_div_mul, Nat.div_div_eq_div_mul,
      Nat.div_div_eq_div_mul, Nat.div_div_eq_div_mul]
    norm_num
  have e6 : n / 2 ^ 48 = a6 := by
    rw [h6, h5, h4, h3, h2, h1, Nat.div_div_eq_div_mul, Nat.div_div_eq_div_mul,
      Nat.div_div_eq_div_mul, Nat.div_div_eq_div_mul, Nat.div_div_eq_div_mul]
    norm_num
  have e7 : n / 2 ^ 56 = a7 := by
    rw [h7, h6, h5, h4, h3, h2, h1, Nat.div_div_eq_div_mul, Nat.div_div_eq_div_mul,
      Nat.div_div_eq_div_mul, Nat.div_div_eq_div_mul, Nat.div_div_eq_div_mul,
      Nat.div_div_eq_div_mul]
    norm_num
  have e8 : a7 < 256 := by
    rw [← e7]
    exact Nat.div_lt_of_lt_mul (by norm_num at h ⊢; exact h)
  rw [e1, e2, e3, e4, e5, e6, e7]
  omega

theorem toInt64_toUint64 (x : Int) (hlo : -(2 : Int) ^ 63 ≤ x) (hhi : x < (2 : Int) ^ 63) :
    toInt64 (toUint64 x) = x := by
  unfold toInt64 toUint64
  have h1 : (0 : Int) ≤ x % 2 ^ 64 := Int.emod_nonneg _ (by norm_num)
  have h2 : x % 2 ^ 64 < 2 ^ 64 := Int.emod_lt_of_pos _ (by norm_num)
  have h3 : ((x % 2 ^ 64).toNat : Int) = x % 2 ^ 64 := Int.toNat_of_nonneg h1
  have h4 : (x % 2 ^ 64).toNat < 2 ^ 64 := by
    have : ((x % 2 ^ 64).toNat : Int) < ((2 ^ 64 : Nat) : Int) := by
      rw [h3]; push_cast; exact h2
    exact_mod_cast this
  rw [Nat.mod_eq_of_lt h4]
  by_cases hx : 0 ≤ x
  · have h5 : x % 2 ^ 64 = x := Int.emod_eq_of_lt hx (by omega)
    have h6 : (x % 2 ^ 64).toNat < 2 ^ 63 := by
      have : ((x % 2 ^ 64).toNat : Int) < ((2 ^ 63 : Nat) : Int) := by
        rw [h3, h5]; push_cast; exact hhi
      exact_mod_cast this
    rw [if_pos h6, h3, h5]
  · have h5 : x % 2 ^ 64 = x + 2 ^ 64 := by
      have := Int.emod_add_ediv x (2 ^ 64)
      have hd : x / 2 ^ 64 = -1 := by omega
      rw [hd] at this
      omega
    have h6 : ¬ (x % 2 ^ 64).toNat < 2 ^ 63 := by
      intro h7
      have : ((x % 2 ^ 64).toNat : Int) < ((2 ^ 63 : Nat) : Int) := by exact_mod_cast h7
      rw [h3, h5] at this
      push_cast at this
      omega
    rw [if_neg h6, h3, h5]
    ring

theorem toUint64_lt (x : Int) : toUint64 x < 2 ^ 64 := by
  unfold toUint64
  have h1 : (0 : Int) ≤ x % 2 ^ 64 := Int.emod_nonneg _ (by norm_num)
  have h2 : x % 2 ^ 64 < 2 ^ 64 := Int.emod_lt_of_pos _ (by norm_num)
  have h3 : ((x % 2 ^ 64).toNat : Int) = x % 2 ^ 64 := Int.toNat_of_nonneg h1
  have : ((x % 2 ^ 64).toNat : Int) < ((2 ^ 64 : Nat) : Int) := by
    rw [h3]; push_cast; exact h2
  exact_mod_cast this

theorem bytesCompare_append_ge (p k : Bytes) : bytesCompare (p ++ k) p ≠ -1 := by
  induction p with
  | nil => cases k <;> simp [bytesCompare]
  | cons x xs ih => simpa [bytesCompare] using ih

theorem GoMap.get?_del_ne {κ α : Type} [DecidableEq κ] (m : GoMap κ α) {k x : κ}
    (h : x ≠ k) : GoMap.get? (GoMap.del m k) x = GoMap.get? m x := by
  induction m with
  | nil => rfl
  | cons e rest ih =>
    simp only [GoMap.get?, GoMap.del] at ih ⊢
    by_cases he : e.1 = k
    · have hx : ¬ e.1 = x := fun h0 => h (by rw [← h0, he])
      rw [List.filter_cons_of_neg (by simpa using he),
        List.find?_cons_of_neg _ (by simpa using hx)]
      exact ih
    · rw [List.filter_cons_of_pos (by simpa using he)]
      by_cases hx : e.1 = x
      · simp [List.find?_cons, hx]
      · rw [List.find?_cons_of_neg _ (by simpa using hx),
          List.find?_cons_of_neg _ (by simpa using hx)]
        exact ih

/-- An entry stored under a table key is returned by the scan of
`loadTables`. -/
theorem scan_table_key (s : Store) (id : Nat) (v : StoreValue)
    (h : GoMap.get? s.kv (tableKey id) = some v) :
    (tableKey id, v) ∈
      (s.Scan (bytesPrefix (strBytes PREFIX_TABLE)).1 (bytesPrefix (strBytes PREFIX_TABLE)).2).1 := by
  simp only [Store.Scan]
  rw [(List.perm_insertionSort _ _).mem_iff, List.mem_filter]
  refine ⟨GoMap.get?_mem h, ?_⟩
  have h1 : ByLetter.Less (tableKey id) (bytesPrefix (strBytes PREFIX_TABLE)).1 = false := by
    have := bytesCompare_append_ge (strBytes PREFIX_TABLE) (fmtD id)
    simpa [ByLetter.Less, tableKey, bytesPrefix] using this
  have h2 : ByLetter.Less (tableKey id) (bytesPrefix (strBytes PREFIX_TABLE)).2 = true := by
    have hl : prefixLimit (strBytes PREFIX_TABLE) =
        some [115, 99, 104, 101, 109, 97, 32, 116, 97, 98, 108, 101, 33] := by decide
    have := prefixLimit_gt (strBytes PREFIX_TABLE) _ (fmtD id) hl
    simpa [ByLetter.Less, tableKey, bytesPrefix, hl] using this
  simp [h1, h2]

theorem tableKey_ne_nil (id : Nat) : tableKey id ≠ [] := by
  have : strBytes PREFIX_TABLE ≠ [] := by decide
  simpa [tableKey] using fun h => absurd h this

theorem ofUnix_Unix (x : Time) : Time.ofUnix (Time.Unix x) = x - x % 1000000000 := by
  unfold Time.ofUnix Time.Unix
  have := Int.emod_add_ediv x 1000000000
  linarith

/-- One round of the loop of `loadTables` on a record in status `Delete` or
`Deleting` with an 8-byte expansion field, its database being cached. -/
theorem loadTablesBody_deleted (c2 : Cluster) (db2 : Database) (k : Bytes) (rec : MetaTable)
    (hk : k ≠ []) (hdb2 : c2.FindDatabase rec.DbName = some db2)
    (hst : rec.Status = .TableDelete ∨ rec.Status = .TableDeleting)
    (hlen : rec.Expand.length = 8) :
    (c2.loadTablesBody k (.table rec)).1 = none ∧
    (c2.loadTablesBody k (.table rec)).2.FindDeleteTableById rec.Id = some c2.heapSize ∧
    (c2.loadTablesBody k (.table rec)).2.workingTables = c2.workingTables ∧
    (c2.loadTablesBody k (.table rec)).2.creatingTables = c2.creatingTables ∧
    (c2.loadTablesBody k (.table rec)).2.dbs = c2.dbs ∧
    ((c2.loadTablesBody k (.table rec)).2.deref c2.heapSize).Table = rec ∧
    ((c2.loadTablesBody k (.table rec)).2.deref c2.heapSize).deleteTime =
      Time.ofUnix (toInt64 (uint64BE rec.Expand)) := by
  rcases hst with hst | hst
  · simp [Cluster.loadTablesBody, hk, Cluster.unmarshalTable, hdb2, hst, hlen,
      Cluster.alloc, Cluster.store!, Cluster.FindDeleteTableById, GoMap.get?_put_self,
      Cluster.deref, NewTable]
  · simp [Cluster.loadTablesBody, hk, Cluster.unmarshalTable, hdb2, hst, hlen,
      Cluster.alloc, Cluster.store!, Cluster.FindDeleteTableById, GoMap.get?_put_self,
      Cluster.deref, NewTable]

/-! ## The checks of `CreateTable` -/

/-- C16: `CreateTable` fails with `ErrSqlReservedWord` when a column name is a
reserved word, whatever the database and the table name are; otherwise with
`ErrNotExistDatabase` when the database is not cached; otherwise with
`ErrDupTable` when the database has a table of that name. In the three cases
the cluster is returned as it was: no id is taken from the generator and no
cache is changed. -/
theorem CreateTable_validation (d : Deps) (c : Cluster) (now : Time)
    (dbName tableName : String) (columns regxs : List Column) (pkDupCheck : Bool)
    (sliceKeys : List Bytes) :
    ((columns.any fun col => d.isSqlReservedWord col.Name) = true →
      c.CreateTable d now dbName tableName columns regxs pkDupCheck sliceKeys =
        (.error .ErrSqlReservedWord, c)) ∧
    ((columns.any fun col => d.isSqlReservedWord col.Name) = false →
      c.FindDatabase dbName = none →
      c.CreateTable d now dbName tableName columns regxs pkDupCheck sliceKeys =
        (.error .ErrNotExistDatabase, c)) ∧
    (∀ db ref, (columns.any fun col => d.isSqlReservedWord col.Name) = false →
      c.FindDatabase dbName = some db → db.FindTable tableName = some ref →
      c.CreateTable d now dbName tableName columns regxs pkDupCheck sliceKeys =
        (.error .ErrDupTable, c)) := by
  refine ⟨?_, ?_, ?_⟩
  · intro h
    unfold Cluster.CreateTable
    rw [if_pos h]
  · intro h hdb
    unfold Cluster.CreateTable
    rw [if_neg (by simp [h])]
    simp only [hdb]
  · intro db ref h hdb hft
    unfold Cluster.CreateTable
    rw [if_neg (by simp [h])]
    simp only [hdb, hft]

/-- C16, instances: a reserved column name in a missing database gives
`ErrSqlReservedWord`; a missing database gives `ErrNotExistDatabase`; an
existing table name gives `ErrDupTable`. -/
theorem CreateTable_validation_witness :
    demoCreated.CreateTable demoDepsReserved 5000000000 "nodb" "t" [demoPk, demoColSelect] []
      false [] = (.error .ErrSqlReservedWord, demoCreated) ∧
    demoCreated.CreateTable demoDepsReserved 5000000000 "nodb" "t" [demoPk] []
      false [] = (.error .ErrNotExistDatabase, demoCreated) ∧
    demoCreated.CreateTable demoDepsReserved 5000000000 "db" "t" [demoPk] []
      false [] = (.error .ErrDupTable, demoCreated) :=
  ⟨(CreateTable_validation demoDepsReserved demoCreated 5000000000 "nodb" "t"
      [demoPk, demoColSelect] [] false []).1 (by decide),
   (CreateTable_validation demoDepsReserved demoCreated 5000000000 "nodb" "t"
      [demoPk] [] false []).2.1 (by decide) (by decide),
   (CreateTable_validation demoDepsReserved demoCreated 5000000000 "db" "t"
      [demoPk] [] false []).2.2 _ { name := "t", id := 7, ptr := 0 } (by decide) rfl
      (by decide)⟩

/-! ## `rangeKeysSplit` -/

theorem rangeKeysSplitLoop_nodup (ks : List String) :
    ∀ (seen : List String) (acc : List Bytes),
      ks.Nodup → (∀ x ∈ ks, x ∉ seen) →
      rangeKeysSplitLoop ks seen acc = .ok (acc ++ ks.map utf8Bytes) := by
  induction ks with
  | nil => intro seen acc _ _; simp [rangeKeysSplitLoop]
  | cons k rest ih =>
    intro seen acc hnd hseen
    simp only [rangeKeysSplitLoop]
    rw [if_neg (hseen k (List.mem_cons_self _ _))]
    rw [ih (k :: seen) _ (List.nodup_cons.1 hnd).2]
    · simp
    · intro x hx hmem
      rcases List.mem_cons.1 hmem with h | h
      · subst h
        exact (List.nodup_cons.1 hnd).1 hx
      · exact hseen x (List.mem_cons_of_mem _ hx) h

theorem splitGo_skip (sep : List Char) (s : List Char) :
    ∀ (k : Nat) (cur : List Char), k ≤ s.length →
      splitGo sep s k cur = splitGo sep (s.drop k) 0 cur := by
  induction s with
  | nil =>
    intro k cur hk
    have : k = 0 := by simpa using hk
    subst this
    rfl
  | cons c rest ih =>
    intro k cur hk
    cases k with
    | zero => rfl
    | succ k =>
      simp only [splitGo, List.drop_succ_cons]
      exact ih k cur (by simpa using hk)

theorem splitGo_ne_nil (sep : List Char) (s : List Char) :
    ∀ (k : Nat) (cur : List Char), splitGo sep s k cur ≠ [] := by
  induction s with
  | nil => intro k cur; simp [splitGo]
  | cons c rest ih =>
    intro k cur
    cases k with
    | succ k => simp only [splitGo]; exact ih k cur
    | zero =>
      simp only [splitGo]
      split
      · simp
      · exact ih 0 _

theorem joinWith_cons {α : Type} (sep x : List α) {l : List (List α)} (h : l ≠ []) :
    joinWith sep (x :: l) = x ++ sep ++ joinWith sep l := by
  cases l with
  | nil => exact absurd rfl h
  | cons y rest => rfl

theorem joinWith_splitGo (sep : List Char) (hsep : sep ≠ []) (n : Nat) :
    ∀ (s cur : List Char), s.length ≤ n →
      joinWith sep (splitGo sep s 0 cur) = cur.reverse ++ s := by
  induction n with
  | zero =>
    intro s cur hs
    have : s = [] := List.eq_nil_of_length_eq_zero (by omega)
    subst this
    simp [splitGo, joinWith]
  | succ n ih =>
    intro s cur hs
    cases s with
    | nil => simp [splitGo, joinWith]
    | cons c rest =>
      simp only [splitGo]
      split
      · rename_i hpre
        rw [List.isPrefixOf_iff_prefix] at hpre
        obtain ⟨rest2, hrest2⟩ := hpre
        cases sep with
        | nil => exact absurd rfl hsep
        | cons a sep2 =>
          simp only [List.cons_append, List.cons.injEq] at hrest2
          obtain ⟨hac, hr⟩ := hrest2
          subst hac
          have hlen : rest.length = sep2.length + rest2.length := by
            rw [← hr]; simp
          have hdrop : rest.drop sep2.length = rest2 := by
            rw [← hr]; simp
          rw [joinWith_cons _ _ (splitGo_ne_nil _ _ _ _)]
          have hskip := splitGo_skip (a :: sep2) rest ((a :: sep2).length - 1) []
            (by simp; omega)
          rw [hskip]
          simp only [List.length_cons, Nat.add_sub_cancel, hdrop]
          rw [ih rest2 [] (by simp at hs; omega)]
          simp [← hr]
      · rw [ih rest (c :: cur) (by simp at hs; omega)]
        simp

theorem joinWith_singletons (l : List Char) :
    joinWith [] (l.map (fun c => [c])) = l := by
  induction l with
  | nil => rfl
  | cons c rest ih =>
    cases rest with
    | nil => rfl
    | cons c2 rest2 =>
      simp only [List.map_cons, joinWith] at ih ⊢
      simp [ih]

theorem stringsJoin_stringsSplit (keys sep : String) :
    stringsJoin (stringsSplit keys sep) sep = keys := by
  unfold stringsJoin stringsSplit
  by_cases hsep : sep.toList = []
  · rw [if_pos hsep, hsep]
    simp only [List.map_map]
    have : (String.toList ∘ fun c => String.mk [c]) = fun c : Char => [c] := by
      funext c; rfl
    rw [this, joinWith_singletons]
    rfl
  · rw [if_neg hsep]
    simp only [List.map_map]
    have : (String.toList ∘ String.mk) = id := by
      funext l; rfl
    rw [this, List.map_id, joinWith_splitGo _ hsep _ _ _ (Nat.le_refl _)]
    simp

theorem utf8Bytes_eq (s : String) :
    utf8Bytes s = s.toList.flatMap (fun c => (String.utf8EncodeChar c).map UInt8.toNat) := by
  simp [utf8Bytes, String.toUTF8, List.map_flatMap]

theorem joinWith_flatMap {α β : Type} (f : α → List β) (sep : List α) (l : List (List α)) :
    joinWith (sep.flatMap f) (l.map (fun x => x.flatMap f)) = (joinWith sep l).flatMap f := by
  induction l with
  | nil => rfl
  | cons x rest ih =>
    cases rest with
    | nil => rfl
    | cons y rest2 =>
      simp only [List.map_cons, joinWith] at ih ⊢
      rw [ih]
      simp [List.flatMap_append]

theorem bytesJoin_utf8Bytes (pieces : List String) (sep : String) :
    bytesJoin (pieces.map utf8Bytes) (utf8Bytes sep) = utf8Bytes (stringsJoin pieces sep) := by
  have h1 : pieces.map utf8Bytes = (pieces.map String.toList).map
      (fun x => x.flatMap (fun c => (String.utf8EncodeChar c).map UInt8.toNat)) := by
    simp [List.map_map, Function.comp_def, utf8Bytes_eq]
  rw [bytesJoin, h1, utf8Bytes_eq sep, joinWith_flatMap, utf8Bytes_eq]
  rfl

/-- C19: for every `keys` and `sep`, with `pieces` the result of
`strings.Split(keys, sep)`: `rangeKeysSplit` fails (with the dup-key error of
a piece occurring at least twice) when some piece occurs more than once, and
otherwise returns the bytes of all the pieces, in their order, no piece
twice. It fails exactly in the first case. Joining the pieces with `sep`
gives back `keys`, as strings and as bytes. -/
theorem rangeKeysSplit_spec (keys sep : String) :
    (¬ (stringsSplit keys sep).Nodup →
      ∃ k, rangeKeysSplit keys sep = .error (.dupKey k) ∧
        2 ≤ (stringsSplit keys sep).count k) ∧
    ((stringsSplit keys sep).Nodup →
      rangeKeysSplit keys sep = .ok ((stringsSplit keys sep).map utf8Bytes)) ∧
    ((∃ e, rangeKeysSplit keys sep = .error e) ↔ ¬ (stringsSplit keys sep).Nodup) ∧
    stringsJoin (stringsSplit keys sep) sep = keys ∧
    bytesJoin ((stringsSplit keys sep).map utf8Bytes) (utf8Bytes sep) = utf8Bytes keys := by
  have hdup : ¬ (stringsSplit keys sep).Nodup →
      ∃ k, rangeKeysSplit keys sep = .error (.dupKey k) ∧
        2 ≤ (stringsSplit keys sep).count k := by
    intro h
    obtain ⟨k, he, -, hc⟩ := rangeKeysSplitLoop_dup (stringsSplit keys sep) [] [] (Or.inl h)
    refine ⟨k, he, ?_⟩
    rcases hc with hc | hc
    · simp at hc
    · exact hc
  have hok : (stringsSplit keys sep).Nodup →
      rangeKeysSplit keys sep = .ok ((stringsSplit keys sep).map utf8Bytes) := by
    intro h
    have := rangeKeysSplitLoop_nodup (stringsSplit keys sep) [] [] h (by simp)
    simpa [rangeKeysSplit] using this
  refine ⟨hdup, hok, ?_, stringsJoin_stringsSplit keys sep, ?_⟩
  · constructor
    · rintro ⟨e, he⟩ hnd
      rw [hok hnd] at he
      cases he
    · intro h
      obtain ⟨k, hk, -⟩ := hdup h
      exact ⟨_, hk⟩
  · rw [bytesJoin_utf8Bytes, stringsJoin_stringsSplit]

/-- C19, an instance: the key string `"a,b,c"` has three different pieces and
`rangeKeysSplit` returns them in order; the key string `"b,a,b"` repeats the
piece `b` and `rangeKeysSplit` fails. -/
theorem rangeKeysSplit_spec_witness :
    (stringsSplit "a,b,c" ",").Nodup ∧
    rangeKeysSplit "a,b,c" "," = .ok ((stringsSplit "a,b,c" ",").map utf8Bytes) ∧
    stringsSplit "a,b,c" "," = ["a", "b", "c"] ∧
    ¬ (stringsSplit "b,a,b" ",").Nodup ∧
    ∃ k, rangeKeysSplit "b,a,b" "," = .error (.dupKey k) ∧
      2 ≤ (stringsSplit "b,a,b" ",").count k :=
  ⟨by decide, (rangeKeysSplit_spec "a,b,c" ",").2.1 (by decide), by decide, by decide,
   (rangeKeysSplit_spec "b,a,b" ",").1 (by decide)⟩

/-! ## `UpdateAutoScheduleInfo` -/

/-- C14 (amended): over a store whose commits succeed, a call of
`UpdateAutoScheduleInfo` succeeds and leaves the two flags equal to its
arguments, and a second call with the same arguments returns the cluster as
it is: it creates no batch, writes nothing and changes no flag. The two calls
together make one batch (one `NewBatch` and one `Commit` of the two puts) when
the flags differed from the arguments before the first call, and no store
call at all when they were already equal to them. -/
theorem UpdateAutoScheduleInfo_twice (d : Deps) (c : Cluster)
    (autoFailoverUnable autoTransferUnable : Bool) (hs : c.store.failing = false) :
    (c.UpdateAutoScheduleInfo d autoFailoverUnable autoTransferUnable).1 = none ∧
    (c.UpdateAutoScheduleInfo d autoFailoverUnable autoTransferUnable).2.autoFailoverUnable =
      autoFailoverUnable ∧
    (c.UpdateAutoScheduleInfo d autoFailoverUnable autoTransferUnable).2.autoTransferUnable =
      autoTransferUnable ∧
    (c.UpdateAutoScheduleInfo d autoFailoverUnable
      autoTransferUnable).2.UpdateAutoScheduleInfo d autoFailoverUnable autoTransferUnable =
      (none, (c.UpdateAutoScheduleInfo d autoFailoverUnable autoTransferUnable).2) ∧
    ((c.UpdateAutoScheduleInfo d autoFailoverUnable
      autoTransferUnable).2.UpdateAutoScheduleInfo d autoFailoverUnable
        autoTransferUnable).2.store.calls =
      c.store.calls ++
        (if c.autoFailoverUnable = autoFailoverUnable ∧
            c.autoTransferUnable = autoTransferUnable then []
         else
          [.NewBatch,
           .Commit
            [.Put (autoTransferKey c.clusterId)
               (.raw (if autoTransferUnable then d.uint64ToBytes 1 else d.uint64ToBytes 0)),
             .Put (autoFailoverKey c.clusterId)
               (.raw (if autoFailoverUnable then d.uint64ToBytes 1
                 else d.uint64ToBytes 0))]]) := by
  have hsecond : ∀ c2 : Cluster, c2.autoFailoverUnable = autoFailoverUnable →
      c2.autoTransferUnable = autoTransferUnable →
      c2.UpdateAutoScheduleInfo d autoFailoverUnable autoTransferUnable = (none, c2) := by
    intro c2 h1 h2
    unfold Cluster.UpdateAutoScheduleInfo
    rw [if_pos ⟨h1, h2⟩]
  by_cases heq : c.autoFailoverUnable = autoFailoverUnable ∧
      c.autoTransferUnable = autoTransferUnable
  · have h1 := hsecond c heq.1 heq.2
    simp only [h1, if_pos heq, List.append_nil]
    exact ⟨trivial, heq.1, heq.2, trivial, trivial⟩
  · have h1 : c.UpdateAutoScheduleInfo d autoFailoverUnable autoTransferUnable =
        (none,
         { c with
           store := { c.store with
             kv := BatchOp.apply (BatchOp.apply c.store.kv
               (.Put (autoTransferKey c.clusterId)
                 (.raw (if autoTransferUnable then d.uint64ToBytes 1
                   else d.uint64ToBytes 0))))
               (.Put (autoFailoverKey c.clusterId)
                 (.raw (if autoFailoverUnable then d.uint64ToBytes 1
                   else d.uint64ToBytes 0)))
             calls := c.store.calls ++ [.NewBatch] ++
               [.Commit
                 [.Put (autoTransferKey c.clusterId)
                    (.raw (if autoTransferUnable then d.uint64ToBytes 1
                      else d.uint64ToBytes 0)),
                  .Put (autoFailoverKey c.clusterId)
                    (.raw (if autoFailoverUnable then d.uint64ToBytes 1
                      else d.uint64ToBytes 0))]] }
           autoTransferUnable := autoTransferUnable
           autoFailoverUnable := autoFailoverUnable }) := by
      unfold Cluster.UpdateAutoScheduleInfo
      rw [if_neg heq]
      simp [Store.NewBatch, Store.Commit, hs, Batch.Put]
    rw [h1]
    dsimp only
    rw [hsecond _ rfl rfl, if_neg heq]
    refine ⟨rfl, rfl, rfl, rfl, ?_⟩
    simp

/-- C14, an instance: the flags of `demoCluster` are both off; two calls that
turn the failover flag on make the store calls `NewBatch` and `Commit` once. -/
theorem UpdateAutoScheduleInfo_twice_witness :
    demoCluster.store.failing = false ∧
    (((demoCluster.UpdateAutoScheduleInfo demoDeps true false).2.UpdateAutoScheduleInfo
      demoDeps true false).2.store.calls.filter (fun call => decide (call = .NewBatch))).length =
      1 ∧
    ((demoCluster.UpdateAutoScheduleInfo demoDeps true false).2.UpdateAutoScheduleInfo
      demoDeps true false).2.store.calls.length = 2 :=
  ⟨rfl,
   by rw [(UpdateAutoScheduleInfo_twice demoDeps demoCluster true false rfl).2.2.2.2]; decide,
   by rw [(UpdateAutoScheduleInfo_twice demoDeps demoCluster true false rfl).2.2.2.2]; decide⟩

/-- C14 as stated fails: the flags of `demoCluster` are both off, and two
calls with both arguments off make no store call, so no batch at all. -/
theorem UpdateAutoScheduleInfo_no_batch :
    demoCluster.autoFailoverUnable = false ∧ demoCluster.autoTransferUnable = false ∧
    demoCluster.store.failing = false ∧
    ((demoCluster.UpdateAutoScheduleInfo demoDeps false false).2.UpdateAutoScheduleInfo
      demoDeps false false).2.store.calls = [] ∧
    (((demoCluster.UpdateAutoScheduleInfo demoDeps false false).2.UpdateAutoScheduleInfo
      demoDeps false false).2.store.calls.filter
        (fun call => decide (call = .NewBatch))).length ≠ 1 :=
  ⟨rfl, rfl, rfl, by decide, by decide⟩

/-! ## `CreateDatabase` -/

/-- C15: when no database is cached under `name` and the id generator and the
store do not fail, `CreateDatabase(name, properties)` succeeds with a database
of that name, of the next id of the generator and of those properties, and
`FindDatabase(name)` then finds that same database. Whenever a database is
cached under `name`, in particular at a second call, `CreateDatabase` fails
with `ErrDupDatabase` and returns the cluster as it is: no id is taken, the
store is not called and the cache is unchanged. -/
theorem CreateDatabase_then_find (c : Cluster) (now now2 : Time)
    (name properties properties2 : String) :
    (c.FindDatabase name = none → c.idGener.failing = false → c.store.failing = false →
      ∃ db c1, c.CreateDatabase now name properties = (.ok db, c1) ∧
        db.Name = name ∧ db.Id = c.idGener.next ∧ db.Properties = properties ∧
        c1.FindDatabase name = some db ∧
        c1.CreateDatabase now2 name properties2 = (.error .ErrDupDatabase, c1)) ∧
    (∀ db, c.FindDatabase name = some db →
      c.CreateDatabase now name properties = (.error .ErrDupDatabase, c)) := by
  have hdup : ∀ (c0 : Cluster) (t : Time) (p : String) (db : Database),
      c0.FindDatabase name = some db →
      c0.CreateDatabase t name p = (.error .ErrDupDatabase, c0) := by
    intro c0 t p db h
    unfold Cluster.CreateDatabase
    simp only [h]
  refine ⟨?_, fun db h => hdup c now properties db h⟩
  intro hnone hg hs
  have hres : c.CreateDatabase now name properties =
      (.ok (NewDatabase (newDatabaseRecord c now name properties)),
       databaseCluster c now name properties) := by
    unfold Cluster.CreateDatabase
    simp [hnone, IDGenerator.GenID, hg, Cluster.storeDatabase, Store.Put, hs, NewDatabase,
      databaseCluster, newDatabaseRecord]
  have hfind : (databaseCluster c now name properties).FindDatabase name =
      some (NewDatabase (newDatabaseRecord c now name properties)) := by
    simp [Cluster.FindDatabase, databaseCluster, GoMap.get?_put_self]
  exact ⟨_, _, hres, rfl, rfl, rfl, hfind, hdup _ now2 properties2 _ hfind⟩

/-- C15, an instance: the database `shop` is created in `demoCluster` with the
id 7 and found again; a second creation fails. -/
theorem CreateDatabase_then_find_witness :
    demoCluster.FindDatabase "shop" = none ∧
    ∃ db c1, demoCluster.CreateDatabase 5000000000 "shop" "p" = (.ok db, c1) ∧
      db.Name = "shop" ∧ db.Id = demoCluster.idGener.next ∧ db.Properties = "p" ∧
      c1.FindDatabase "shop" = some db ∧
      c1.CreateDatabase 6000000000 "shop" "q" = (.error .ErrDupDatabase, c1) :=
  ⟨by decide,
   (CreateDatabase_then_find demoCluster 5000000000 6000000000 "shop" "p" "q").1
     (by decide) rfl rfl⟩

/-! ## `loadRanges` -/

/-- The keys a scan returns are not below its start key, so none is empty
when the start key is not. -/
theorem scan_key_ne_nil (s : Store) (start limit : Bytes) (hs : start ≠ [])
    (e : Bytes × StoreValue) (he : e ∈ (s.Scan start limit).1) : e.1 ≠ [] := by
  simp only [Store.Scan] at he
  rw [(List.perm_insertionSort _ _).mem_iff, List.mem_filter] at he
  intro h
  have h2 := he.2
  rw [h] at h2
  cases start with
  | nil => exact hs rfl
  | cons x xs => simp [ByLetter.Less, bytesCompare] at h2

/-- An entry stored under a key that starts with `p` is returned by the scan
of the prefix `p`. -/
theorem scan_prefix_mem (s : Store) (p k l : Bytes) (v : StoreValue)
    (hl : prefixLimit p = some l) (h : (p ++ k, v) ∈ s.kv) :
    (p ++ k, v) ∈ (s.Scan (bytesPrefix p).1 (bytesPrefix p).2).1 := by
  simp only [Store.Scan]
  rw [(List.perm_insertionSort _ _).mem_iff, List.mem_filter]
  refine ⟨h, ?_⟩
  have h1 : ByLetter.Less (p ++ k) (bytesPrefix p).1 = false := by
    have := bytesCompare_append_ge p k
    simpa [ByLetter.Less, bytesPrefix] using this
  have h2 : ByLetter.Less (p ++ k) (bytesPrefix p).2 = true := by
    have := prefixLimit_gt p _ k hl
    simpa [ByLetter.Less, bytesPrefix, hl] using this
  simp [h1, h2]

theorem loadRangesBody_store (c : Cluster) (k : Bytes) (v : StoreValue) :
    (c.loadRangesBody k v).2.store = c.store := by
  unfold Cluster.loadRangesBody
  split
  · rfl
  · split
    · rfl
    · split <;> rfl

theorem loadRangesLoop_store (it : List (Bytes × StoreValue)) (c : Cluster) :
    (c.loadRangesLoop it).2.store = c.store := by
  induction it generalizing c with
  | nil => rfl
  | cons e rest ih =>
    obtain ⟨k, v⟩ := e
    have hb := loadRangesBody_store c k v
    unfold Cluster.loadRangesLoop
    cases hres : c.loadRangesBody k v with
    | mk res c1 =>
      rw [hres] at hb
      cases res with
      | next => simpa [ih c1] using hb
      | ret err => simpa using hb
      | panic => simpa using hb

/-- The loop of `loadRanges` ends without a result only when every record it
went through has a peer. -/
theorem loadRangesLoop_next (it : List (Bytes × StoreValue)) (c : Cluster)
    (hk : ∀ e ∈ it, e.1 ≠ [])
    (h : (c.loadRangesLoop it).1 = .next) :
    ∀ k r, (k, StoreValue.range r) ∈ it → r.Peers ≠ [] := by
  induction it generalizing c with
  | nil => intro k r hm; cases hm
  | cons e rest ih =>
    obtain ⟨k0, v0⟩ := e
    have hk0 : k0 ≠ [] := hk (k0, v0) (List.mem_cons_self _ _)
    unfold Cluster.loadRangesLoop at h
    cases hres : c.loadRangesBody k0 v0 with
    | mk res c1 =>
      rw [hres] at h
      cases res with
      | ret err => cases h
      | panic => cases h
      | next =>
        simp only at h
        intro k r hm
        rcases List.mem_cons.1 hm with heq | hm
        · cases heq
          intro hp
          simp [Cluster.loadRangesBody, hk0, unmarshalRange, hp] at hres
        · exact ih c1 (fun e he => hk e (List.mem_cons_of_mem _ he)) h k r hm

/-- The loop of `loadRanges` returns an error only on a value that is not a
range record. -/
theorem loadRangesLoop_ret (it : List (Bytes × StoreValue)) (c : Cluster) (err : Err)
    (h : (c.loadRangesLoop it).1 = .ret err) :
    ∃ e ∈ it, ∀ r, e.2 ≠ StoreValue.range r := by
  induction it generalizing c with
  | nil => cases h
  | cons e rest ih =>
    obtain ⟨k0, v0⟩ := e
    unfold Cluster.loadRangesLoop at h
    cases hres : c.loadRangesBody k0 v0 with
    | mk res c1 =>
      rw [hres] at h
      cases res with
      | panic => cases h
      | next =>
        simp only at h
        obtain ⟨e, he, hne⟩ := ih c1 h
        exact ⟨e, List.mem_cons_of_mem _ he, hne⟩
      | ret err2 =>
        refine ⟨(k0, v0), List.mem_cons_self _ _, ?_⟩
        intro r hr
        simp only at hr
        subst hr
        unfold Cluster.loadRangesBody at hres
        split at hres
        · cases hres
        · simp only [unmarshalRange] at hres
          split at hres <;> cases hres

/-- C17: `loadRanges` makes one store call, the scan of the range records, on
every cluster: it never creates a batch and never deletes a record. When the
store holds a range record without peers under its range key, `loadRanges`
does not return `nil`, and it panics when moreover every scanned value
unmarshals into a range record; the record without peers stays in the
store. -/
theorem loadRanges_zero_peers (c : Cluster) :
    (c.loadRanges).2.store =
      { c.store with
        calls := c.store.calls ++
          [.Scan (bytesPrefix (strBytes PREFIX_RANGE)).1 (bytesPrefix (strBytes PREFIX_RANGE)).2] } ∧
    ∀ r : MetaRange, (rangeKey r.Id, StoreValue.range r) ∈ c.store.kv → r.Peers = [] →
      (c.loadRanges).1 ≠ .returned none ∧
      (rangeKey r.Id, StoreValue.range r) ∈ (c.loadRanges).2.store.kv ∧
      ((∀ e ∈ (c.store.Scan (bytesPrefix (strBytes PREFIX_RANGE)).1
            (bytesPrefix (strBytes PREFIX_RANGE)).2).1, (unmarshalRange e.2).isOk = true) →
        (c.loadRanges).1 = .panicked) := by
  have hstore : (c.loadRanges).2.store =
      { c.store with
        calls := c.store.calls ++
          [.Scan (bytesPrefix (strBytes PREFIX_RANGE)).1
            (bytesPrefix (strBytes PREFIX_RANGE)).2] } := by
    unfold Cluster.loadRanges
    simp only []
    have hl := loadRangesLoop_store
      (c.store.Scan (bytesPrefix (strBytes PREFIX_RANGE)).1
        (bytesPrefix (strBytes PREFIX_RANGE)).2).1
      { c with store := (c.store.Scan (bytesPrefix (strBytes PREFIX_RANGE)).1
        (bytesPrefix (strBytes PREFIX_RANGE)).2).2 }
    revert hl
    cases Cluster.loadRangesLoop _ _ with
    | mk res c1 =>
      intro hl
      simp only at hl
      cases res <;> simp [hl, purgeTrashRanges, Store.Scan]
  refine ⟨hstore, ?_⟩
  intro r hmem hpeers
  have hlim : prefixLimit (strBytes PREFIX_RANGE) =
      some [115, 99, 104, 101, 109, 97, 32, 114, 97, 110, 103, 101, 33] := by decide
  have hscan := scan_prefix_mem c.store (strBytes PREFIX_RANGE) (fmtD r.Id) _ (.range r) hlim hmem
  have hkeys : ∀ e ∈ (c.store.Scan (bytesPrefix (strBytes PREFIX_RANGE)).1
      (bytesPrefix (strBytes PREFIX_RANGE)).2).1, e.1 ≠ [] :=
    fun e he => scan_key_ne_nil c.store _ _ (by decide) e he
  have hnext : (Cluster.loadRangesLoop
      { c with store := (c.store.Scan (bytesPrefix (strBytes PREFIX_RANGE)).1
        (bytesPrefix (strBytes PREFIX_RANGE)).2).2 }
      (c.store.Scan (bytesPrefix (strBytes PREFIX_RANGE)).1
        (bytesPrefix (strBytes PREFIX_RANGE)).2).1).1 ≠ .next := by
    intro h
    exact loadRangesLoop_next _ _ hkeys h _ r hscan hpeers
  refine ⟨?_, ?_, ?_⟩
  · unfold Cluster.loadRanges
    simp only []
    revert hnext
    cases Cluster.loadRangesLoop _ _ with
    | mk res c1 =>
      intro hnext
      cases res with
      | next => exact absurd rfl hnext
      | ret err => simp
      | panic => simp
  · rw [hstore]
    exact hmem
  · intro hall
    have hret : ∀ err, (Cluster.loadRangesLoop
        { c with store := (c.store.Scan (bytesPrefix (strBytes PREFIX_RANGE)).1
          (bytesPrefix (strBytes PREFIX_RANGE)).2).2 }
        (c.store.Scan (bytesPrefix (strBytes PREFIX_RANGE)).1
          (bytesPrefix (strBytes PREFIX_RANGE)).2).1).1 ≠ .ret err := by
      intro err h
      obtain ⟨e, he, hne⟩ := loadRangesLoop_ret _ _ err h
      have hok := hall e he
      cases hv : e.2 with
      | range r1 => exact hne r1 hv
      | table t => rw [hv] at hok; cases hok
      | raw b => rw [hv] at hok; cases hok
      | database db => rw [hv] at hok; cases hok
      | node n => rw [hv] at hok; cases hok
      | replica rep => rw [hv] at hok; cases hok
    unfold Cluster.loadRanges
    simp only []
    revert hnext hret
    cases Cluster.loadRangesLoop _ _ with
    | mk res c1 =>
      intro hnext hret
      cases res with
      | next => exact absurd rfl hnext
      | ret err => exact absurd rfl (hret err)
      | panic => rfl

/-- C17, an instance: the store holds the range record 5 of table 7, which has
no peer. `loadRanges` panics; it has scanned the store and made no other
call, and the record is still stored. -/
theorem loadRanges_zero_peers_witness :
    (rangeKey 5, StoreValue.range demoTrashRange) ∈ demoTrashStored.store.kv ∧
    demoTrashRange.Peers = [] ∧
    (demoTrashStored.loadRanges).1 = .panicked ∧
    (demoTrashStored.loadRanges).2.store.kv = [(rangeKey 5, .range demoTrashRange)] ∧
    (demoTrashStored.loadRanges).2.store.calls =
      [.Scan (bytesPrefix (strBytes PREFIX_RANGE)).1 (bytesPrefix (strBytes PREFIX_RANGE)).2] ∧
    (demoTrashStored.loadRanges).2.ranges = [] :=
  ⟨by decide, rfl,
   ((loadRanges_zero_peers demoTrashStored).2 demoTrashRange (by decide) rfl).2.2 (by decide),
   by decide, by decide, by decide⟩

/-! ## `LoadCache` on a table record it cannot interpret -/

theorem loadNodesLoop_store (d : Deps) (it : List (Bytes × StoreValue)) (c : Cluster) :
    (c.loadNodesLoop d it).2.store = c.store := by
  induction it generalizing c with
  | nil => rfl
  | cons e rest ih =>
    obtain ⟨k, v⟩ := e
    have hb : (c.loadNodesBody d k v).2.store = c.store := by
      unfold Cluster.loadNodesBody
      split
      · rfl
      · split <;> rfl
    unfold Cluster.loadNodesLoop
    cases hres : c.loadNodesBody d k v with
    | mk res c1 =>
      rw [hres] at hb
      cases res with
      | none => simpa [ih c1] using hb
      | some err => simpa using hb

theorem loadDatabasesLoop_store (it : List (Bytes × StoreValue)) (c : Cluster) :
    (c.loadDatabasesLoop it).2.store = c.store := by
  induction it generalizing c with
  | nil => rfl
  | cons e rest ih =>
    obtain ⟨k, v⟩ := e
    have hb : (c.loadDatabasesBody k v).2.store = c.store := by
      unfold Cluster.loadDatabasesBody
      split
      · rfl
      · split <;> rfl
    unfold Cluster.loadDatabasesLoop
    cases hres : c.loadDatabasesBody k v with
    | mk res c1 =>
      rw [hres] at hb
      cases res with
      | none => simpa [ih c1] using hb
      | some err => simpa using hb

theorem loadTablesBody_store (c : Cluster) (k : Bytes) (v : StoreValue) :
    (c.loadTablesBody k v).2.store = c.store := by
  unfold Cluster.loadTablesBody
  split
  · rfl
  · split
    · rfl
    · split
      · rfl
      · simp only [Cluster.alloc]
        split
        · rfl
        · rfl
        · split <;> rfl
        · split <;> rfl
        · rfl

theorem loadTablesLoop_store (it : List (Bytes × StoreValue)) (c : Cluster) :
    (c.loadTablesLoop it).2.store = c.store := by
  induction it generalizing c with
  | nil => rfl
  | cons e rest ih =>
    obtain ⟨k, v⟩ := e
    have hb := loadTablesBody_store c k v
    unfold Cluster.loadTablesLoop
    cases hres : c.loadTablesBody k v with
    | mk res c1 =>
      rw [hres] at hb
      cases res with
      | none => simpa [ih c1] using hb
      | some err => simpa using hb

theorem loadNodes_store (d : Deps) (c : Cluster) :
    (c.loadNodes d).2.store = { c.store with calls := c.store.calls ++ [scanOf PREFIX_NODE] } := by
  unfold Cluster.loadNodes
  simp only []
  rw [loadNodesLoop_store]
  rfl

theorem loadDatabases_store (c : Cluster) :
    (c.loadDatabases).2.store = { c.store with calls := c.store.calls ++ [scanOf PREFIX_DB] } := by
  unfold Cluster.loadDatabases
  simp only []
  rw [loadDatabasesLoop_store]
  rfl

theorem loadTables_store (c : Cluster) :
    (c.loadTables).2.store = { c.store with calls := c.store.calls ++ [scanOf PREFIX_TABLE] } := by
  unfold Cluster.loadTables
  simp only []
  rw [loadTablesLoop_store]
  rfl

theorem GoMap.get?_map_set_isSome {α : Type} (m : GoMap String α) (name n : String) (v : α) :
    (GoMap.get? (m.map (fun e => if e.1 = name then (e.1, v) else e)) n).isSome =
      (GoMap.get? m n).isSome := by
  induction m with
  | nil => rfl
  | cons e rest ih =>
    obtain ⟨a, b⟩ := e
    simp only [GoMap.get?] at ih ⊢
    by_cases hk : a = n
    · subst hk
      by_cases hn : a = name
      · simp [List.find?_cons, hn]
      · simp [List.find?_cons, hn]
    · have h2 : ¬ (if a = name then (a, v) else (a, b)).1 = n := by
        by_cases hn : a = name
        · simpa [hn] using fun h => hk (hn.trans h)
        · simpa [hn] using hk
      rw [List.map_cons, List.find?_cons_of_neg _ (by simpa using h2),
        List.find?_cons_of_neg _ (by simpa using hk)]
      exact ih

/-- One round of `loadTables` adds no database to the cache and removes
none. -/
theorem loadTablesBody_FindDatabase (c : Cluster) (k : Bytes) (v : StoreValue) (n : String) :
    ((c.loadTablesBody k v).2.FindDatabase n).isSome = (c.FindDatabase n).isSome := by
  unfold Cluster.loadTablesBody
  split
  · rfl
  · split
    · rfl
    · split
      · rfl
      · simp only [Cluster.alloc]
        split
        · simp only [Cluster.FindDatabase, Cluster.setDb]
          exact GoMap.get?_map_set_isSome _ _ _ _
        · simp only [Cluster.FindDatabase, Cluster.setDb]
          exact GoMap.get?_map_set_isSome _ _ _ _
        · split <;> rfl
        · split <;> rfl
        · rfl

theorem loadTablesBody_loadable (c : Cluster) (k : Bytes) (v w : StoreValue) :
    (c.loadTablesBody k v).2.loadable w = c.loadable w := by
  unfold Cluster.loadable
  cases Cluster.unmarshalTable w with
  | error err => rfl
  | ok t => exact loadTablesBody_FindDatabase c k v t.DbName

/-- One round of `loadTables` on a record the status switch rejects returns
an error. -/
theorem loadTablesBody_uninterpretable (c : Cluster) (k : Bytes) (t : MetaTable)
    (hk : k ≠ []) (hbad : uninterpretable t) :
    (c.loadTablesBody k (.table t)).1 ≠ none := by
  unfold Cluster.loadTablesBody
  rw [if_neg hk]
  simp only [Cluster.unmarshalTable]
  cases c.FindDatabase t.DbName with
  | none => simp
  | some db =>
    simp only [Cluster.alloc]
    rcases hbad with ⟨hst, hlen⟩ | ⟨h1, h2, h3, h4⟩
    · rcases hst with hst | hst <;> simp [hst, hlen]
    · cases hst : t.Status with
      | TablePrepare => exact absurd hst h1
      | TableRunning => exact absurd hst h2
      | TableDelete => exact absurd hst h3
      | TableDeleting => exact absurd hst h4
      | TableInit => simp
      | Other code => simp

/-- The only error of a round of `loadTables` that has reached the status
switch is `ErrInternalError`. -/
theorem loadTablesBody_internal (c : Cluster) (k : Bytes) (v : StoreValue) (err : Err)
    (hv : c.loadable v = true) (h : (c.loadTablesBody k v).1 = some err) :
    err = .ErrInternalError := by
  unfold Cluster.loadable at hv
  unfold Cluster.loadTablesBody at h
  split at h
  · cases h
  · cases hu : Cluster.unmarshalTable v with
    | error e => rw [hu] at hv; cases hv
    | ok t =>
      rw [hu] at hv h
      simp only at hv h
      cases hdb : c.FindDatabase t.DbName with
      | none => rw [hdb] at hv; cases hv
      | some db =>
        rw [hdb] at h
        simp only [Cluster.alloc] at h
        split at h
        · cases h
        · cases h
        · split at h
          · cases h; rfl
          · cases h
        · split at h
          · cases h; rfl
          · cases h
        · cases h; rfl

theorem loadTablesLoop_uninterpretable (it : List (Bytes × StoreValue)) (c : Cluster)
    (k : Bytes) (t : MetaTable) (hk : k ≠ []) (hbad : uninterpretable t)
    (hmem : (k, StoreValue.table t) ∈ it) :
    (c.loadTablesLoop it).1 ≠ none := by
  induction it generalizing c with
  | nil => cases hmem
  | cons e rest ih =>
    obtain ⟨k0, v0⟩ := e
    unfold Cluster.loadTablesLoop
    cases hres : c.loadTablesBody k0 v0 with
    | mk res c1 =>
      cases res with
      | some err => simp
      | none =>
        simp only
        rcases List.mem_cons.1 hmem with heq | hm
        · cases heq
          have := loadTablesBody_uninterpretable c k t hk hbad
          rw [hres] at this
          exact absurd rfl this
        · exact ih c1 hm

theorem loadTablesLoop_internal (it : List (Bytes × StoreValue)) (c : Cluster) (err : Err)
    (hall : ∀ e ∈ it, c.loadable e.2 = true) (h : (c.loadTablesLoop it).1 = some err) :
    err = .ErrInternalError := by
  induction it generalizing c with
  | nil => cases h
  | cons e rest ih =>
    obtain ⟨k0, v0⟩ := e
    unfold Cluster.loadTablesLoop at h
    have hb := loadTablesBody_internal c k0 v0
    have hl := loadTablesBody_loadable c k0 v0
    cases hres : c.loadTablesBody k0 v0 with
    | mk res c1 =>
      rw [hres] at h hb hl
      cases res with
      | some err2 =>
        simp only at h
        cases h
        exact hb err (hall _ (List.mem_cons_self _ _)) rfl
      | none =>
        simp only at h
        refine ih c1 (fun e he => ?_) h
        rw [hl]
        exact hall e (List.mem_cons_of_mem _ he)

/-- The method `loadTables` fails on every cluster whose store holds, under
its table key, a record the status switch rejects; the error is
`ErrInternalError` when every scanned value reaches the switch. -/
theorem loadTables_uninterpretable (c : Cluster) (t : MetaTable)
    (hmem : (tableKey t.Id, StoreValue.table t) ∈ c.store.kv) (hbad : uninterpretable t) :
    (c.loadTables).1 ≠ none ∧
    ((∀ e ∈ c.scannedTables, c.loadable e.2 = true) →
      (c.loadTables).1 = some .ErrInternalError) := by
  have hlim : prefixLimit (strBytes PREFIX_TABLE) =
      some [115, 99, 104, 101, 109, 97, 32, 116, 97, 98, 108, 101, 33] := by decide
  have hscan := scan_prefix_mem c.store (strBytes PREFIX_TABLE) (fmtD t.Id) _ (.table t) hlim hmem
  have hfail : (c.loadTables).1 ≠ none := by
    unfold Cluster.loadTables
    simp only []
    exact loadTablesLoop_uninterpretable _ _ _ t (tableKey_ne_nil _) hbad hscan
  refine ⟨hfail, fun hall => ?_⟩
  cases hres : (c.loadTables).1 with
  | none => exact absurd hres hfail
  | some err =>
    have : err = .ErrInternalError := by
      unfold Cluster.loadTables at hres
      simp only [] at hres
      refine loadTablesLoop_internal _ _ err ?_ hres
      exact fun e he => hall e he
    rw [this]

theorem LoadCache_loadNodes_error (d : Deps) (c c1 : Cluster) (err : Err)
    (h1 : (c.resetCaches d).loadNodes d = (some err, c1)) :
    c.LoadCache d = (.returned (some err), c1) := by
  unfold Cluster.LoadCache
  simp only [h1]

theorem LoadCache_loadDatabases_error (d : Deps) (c c1 c2 : Cluster) (err : Err)
    (h1 : (c.resetCaches d).loadNodes d = (none, c1))
    (h2 : c1.loadDatabases = (some err, c2)) :
    c.LoadCache d = (.returned (some err), c2) := by
  unfold Cluster.LoadCache
  simp only [h1, h2]

theorem LoadCache_loadTables_error (d : Deps) (c c1 c2 c3 : Cluster) (err : Err)
    (h1 : (c.resetCaches d).loadNodes d = (none, c1))
    (h2 : c1.loadDatabases = (none, c2))
    (h3 : c2.loadTables = (some err, c3)) :
    c.LoadCache d = (.returned (some err), c3) := by
  unfold Cluster.LoadCache
  simp only [h1, h2, h3]

/-- C18: let the store hold, under its table key, a table record whose status
is `Delete` or `Deleting` with an expansion field that is not 8 bytes long,
or whose status is none of `Prepare`, `Running`, `Delete`, `Deleting`. Then
`loadTables` fails on every cluster over this store, with `ErrInternalError`
when every scanned value unmarshals into a table whose database is cached;
`LoadCache` returns an error, changes no stored data and makes no store call
after the scans of the nodes, the databases and the tables; when `loadNodes`
and `loadDatabases` succeed, `LoadCache` returns the error of `loadTables` in
the state `loadTables` left. -/
theorem LoadCache_uninterpretable_table (d : Deps) (c : Cluster) (t : MetaTable)
    (hmem : (tableKey t.Id, StoreValue.table t) ∈ c.store.kv) (hbad : uninterpretable t) :
    (∀ c2 : Cluster, c2.store.kv = c.store.kv →
      (c2.loadTables).1 ≠ none ∧
      ((∀ e ∈ c2.scannedTables, c2.loadable e.2 = true) →
        (c2.loadTables).1 = some .ErrInternalError)) ∧
    (∃ err, (c.LoadCache d).1 = .returned (some err)) ∧
    (c.LoadCache d).2.store.kv = c.store.kv ∧
    (c.LoadCache d).2.store.calls <+:
      c.store.calls ++ [scanOf PREFIX_NODE, scanOf PREFIX_DB, scanOf PREFIX_TABLE] ∧
    (∀ c1 c2, (c.resetCaches d).loadNodes d = (none, c1) → c1.loadDatabases = (none, c2) →
      c.LoadCache d = (.returned (c2.loadTables).1, (c2.loadTables).2)) := by
  have hB : ∀ c2 : Cluster, c2.store.kv = c.store.kv →
      (c2.loadTables).1 ≠ none ∧
      ((∀ e ∈ c2.scannedTables, c2.loadable e.2 = true) →
        (c2.loadTables).1 = some .ErrInternalError) :=
    fun c2 h2 => loadTables_uninterpretable c2 t (by rw [h2]; exact hmem) hbad
  have hN := loadNodes_store d (c.resetCaches d)
  have h0 : (c.resetCaches d).store = c.store := rfl
  rw [h0] at hN
  refine ⟨hB, ?_⟩
  cases hn : (c.resetCaches d).loadNodes d with
  | mk r1 c1 =>
    rw [hn] at hN
    simp only at hN
    cases r1 with
    | some err =>
      rw [LoadCache_loadNodes_error d c c1 err hn]
      refine ⟨⟨err, rfl⟩, by simp only [hN], ?_, fun c1 c2 h => by cases h⟩
      simp only [hN]
      exact (List.prefix_append_right_inj _).2 ⟨[scanOf PREFIX_DB, scanOf PREFIX_TABLE], rfl⟩
    | none =>
      have hD := loadDatabases_store c1
      cases hd : c1.loadDatabases with
      | mk r2 c2 =>
        rw [hd] at hD
        simp only at hD
        cases r2 with
        | some err =>
          rw [LoadCache_loadDatabases_error d c c1 c2 err hn hd]
          refine ⟨⟨err, rfl⟩, by simp only [hD, hN], ?_, fun c1 c2 h1 h2 => ?_⟩
          · simp only [hD, hN, List.append_assoc]
            exact (List.prefix_append_right_inj _).2 ⟨[scanOf PREFIX_TABLE], rfl⟩
          · cases h1
            rw [hd] at h2
            cases h2
        | none =>
          have hT := loadTables_store c2
          have hkv : c2.store.kv = c.store.kv := by rw [hD, hN]
          have hfail := (hB c2 hkv).1
          cases ht : c2.loadTables with
          | mk r3 c3 =>
            rw [ht] at hT hfail
            simp only at hT hfail
            cases r3 with
            | none => exact absurd rfl hfail
            | some err =>
              rw [LoadCache_loadTables_error d c c1 c2 c3 err hn hd ht]
              refine ⟨⟨err, rfl⟩, by simp only [hT, hD, hN], ?_, fun c1 c2 h1 h2 => ?_⟩
              · simp only [hT, hD, hN, List.append_assoc]
                exact (List.prefix_append_right_inj _).2 (List.prefix_refl _)
              · cases h1
                rw [hd] at h2
                cases h2
                rw [ht]

/-- C18, an instance: the store holds the record of the database `db` and the
record of its table 7 in status `Delete` with a 2-byte expansion field.
`LoadCache` returns `ErrInternalError` after the three scans of the nodes,
the databases and the tables. -/
theorem LoadCache_uninterpretable_table_witness :
    (tableKey 7, StoreValue.table demoBadTable) ∈ demoBadStored.store.kv ∧
    uninterpretable demoBadTable ∧
    (demoBadStored.LoadCache demoDeps).1 = .returned (some .ErrInternalError) ∧
    (demoBadStored.LoadCache demoDeps).2.store.calls =
      [scanOf PREFIX_NODE, scanOf PREFIX_DB, scanOf PREFIX_TABLE] ∧
    (demoBadStored.LoadCache demoDeps).2.store.kv = demoBadStored.store.kv ∧
    (demoBadStored.LoadCache demoDeps).2.store.calls <+:
      demoBadStored.store.calls ++ [scanOf PREFIX_NODE, scanOf PREFIX_DB, scanOf PREFIX_TABLE] :=
  ⟨by decide, by decide, by decide, by decide,
   (LoadCache_uninterpretable_table demoDeps demoBadStored demoBadTable
      (by decide) (by decide)).2.2.1,
   (LoadCache_uninterpretable_table demoDeps demoBadStored demoBadTable
      (by decide) (by decide)).2.2.2.1⟩

/-- C18 does not hold as stated: the store holds the record of table 7 in
status `Delete` with a 2-byte expansion field and no record of its database
`db`. `loadTables`, run as `LoadCache` runs it, fails at the lookup of the
database, before the status switch: it returns `ErrNotExistDatabase`, not
`ErrInternalError`, and so does `LoadCache`. -/
theorem LoadCache_missing_database :
    (tableKey 7, StoreValue.table demoBadTable) ∈ demoOrphanStored.store.kv ∧
    demoBadTable.Status = .TableDelete ∧ demoBadTable.Expand.length ≠ 8 ∧
    ((demoOrphanStored.resetCaches demoDeps).loadNodes demoDeps).1 = none ∧
    (((demoOrphanStored.resetCaches demoDeps).loadNodes demoDeps).2.loadDatabases).1 = none ∧
    ((((demoOrphanStored.resetCaches demoDeps).loadNodes demoDeps).2.loadDatabases).2.loadTables).1 =
      some .ErrNotExistDatabase ∧
    (demoOrphanStored.LoadCache demoDeps).1 = .returned (some .ErrNotExistDatabase) := by
  decide

/-! ## Reloading a deleted table with `loadTables` -/

theorem GoMap.get?_put_ne {κ α : Type} [DecidableEq κ] (m : GoMap κ α) {k x : κ} (v : α)
    (h : x ≠ k) : GoMap.get? (GoMap.put m k v) x = GoMap.get? m x := by
  have h2 : ¬ k = x := fun h0 => h h0.symm
  have := GoMap.get?_del_ne m h
  simp only [GoMap.get?, GoMap.put] at this ⊢
  rw [List.find?_cons_of_neg _ (by simpa using h2)]
  exact this

/-- A round of `loadTables` on an accepted value returns no error. -/
theorem loadTablesBody_accepts (c : Cluster) (k : Bytes) (v : StoreValue)
    (h : c.accepts v = true) : (c.loadTablesBody k v).1 = none := by
  unfold Cluster.accepts at h
  unfold Cluster.loadTablesBody
  split
  · rfl
  · cases hu : Cluster.unmarshalTable v with
    | error e => rw [hu] at h; cases h
    | ok t =>
      rw [hu] at h
      simp only [Bool.and_eq_true, Bool.not_eq_true', decide_eq_false_iff_not] at h
      obtain ⟨hdb, hbad⟩ := h
      cases hf : c.FindDatabase t.DbName with
      | none => rw [hf] at hdb; cases hdb
      | some db =>
        cases hst : t.Status with
        | TablePrepare => simp [hf, hst, Cluster.alloc]
        | TableRunning => simp [hf, hst, Cluster.alloc]
        | TableDelete =>
          have hlen : t.Expand.length = 8 := by
            by_contra hne
            exact hbad (Or.inl ⟨Or.inl hst, hne⟩)
          simp [hf, hst, hlen, Cluster.alloc]
        | TableDeleting =>
          have hlen : t.Expand.length = 8 := by
            by_contra hne
            exact hbad (Or.inl ⟨Or.inr hst, hne⟩)
          simp [hf, hst, hlen, Cluster.alloc]
        | TableInit =>
          exact absurd (Or.inr ⟨by simp [hst], by simp [hst], by simp [hst], by simp [hst]⟩) hbad
        | Other code =>
          exact absurd (Or.inr ⟨by simp [hst], by simp [hst], by simp [hst], by simp [hst]⟩) hbad

theorem loadTablesBody_accepts_eq (c : Cluster) (k : Bytes) (v w : StoreValue) :
    (c.loadTablesBody k v).2.accepts w = c.accepts w := by
  unfold Cluster.accepts
  cases Cluster.unmarshalTable w with
  | error err => rfl
  | ok t => simp only [loadTablesBody_FindDatabase c k v t.DbName]

/-- The loop of `loadTables` over accepted values returns no error. -/
theorem loadTablesLoop_accepts (it : List (Bytes × StoreValue)) (c : Cluster)
    (hall : ∀ e ∈ it, c.accepts e.2 = true) : (c.loadTablesLoop it).1 = none := by
  induction it generalizing c with
  | nil => rfl
  | cons e rest ih =>
    obtain ⟨k0, v0⟩ := e
    have hb := loadTablesBody_accepts c k0 v0 (hall _ (List.mem_cons_self _ _))
    have hl := loadTablesBody_accepts_eq c k0 v0
    unfold Cluster.loadTablesLoop
    cases hres : c.loadTablesBody k0 v0 with
    | mk res c1 =>
      rw [hres] at hb hl
      simp only at hb hl
      subst hb
      simp only
      exact ih c1 (fun e he => by rw [hl]; exact hall e (List.mem_cons_of_mem _ he))

/-- A round of `loadTables` changes no table object allocated before it. -/
theorem loadTablesBody_heap (c : Cluster) (k : Bytes) (v : StoreValue) (p : Nat)
    (hp : p < c.heapSize) :
    (c.loadTablesBody k v).2.heap p = c.heap p ∧
    c.heapSize ≤ (c.loadTablesBody k v).2.heapSize := by
  have hne : ¬ p = c.heapSize := Nat.ne_of_lt hp
  unfold Cluster.loadTablesBody
  split
  · exact ⟨rfl, le_refl _⟩
  · split
    · exact ⟨rfl, le_refl _⟩
    · split
      · exact ⟨rfl, le_refl _⟩
      · simp only [Cluster.alloc]
        split
        · simp [Cluster.setDb, hne]
        · simp [Cluster.setDb, hne]
        · split <;> simp [Cluster.store!, hne]
        · split <;> simp [Cluster.store!, hne]
        · simp [hne]

/-- A round of `loadTables` on a value that is no record of the table `id`
leaves the entry of `id` in `deletingTables` as it is. -/
theorem loadTablesBody_deleting_other (c : Cluster) (k : Bytes) (v : StoreValue) (id : Nat)
    (hv : ∀ t1, v = StoreValue.table t1 → t1.Id ≠ id) :
    GoMap.get? (c.loadTablesBody k v).2.deletingTables id = GoMap.get? c.deletingTables id := by
  unfold Cluster.loadTablesBody
  split
  · rfl
  · cases v with
    | table t1 =>
      have hid : id ≠ t1.Id := fun h0 => hv t1 rfl h0.symm
      simp only [Cluster.unmarshalTable]
      split
      · rfl
      · simp only [Cluster.alloc]
        split
        · rfl
        · rfl
        · split
          · rfl
          · simp only [Cluster.store!]
            exact GoMap.get?_put_ne _ _ hid
        · split
          · rfl
          · simp only [Cluster.store!]
            exact GoMap.get?_put_ne _ _ hid
        · rfl
    | raw b => rfl
    | database db => rfl
    | node n => rfl
    | range r => rfl
    | replica rep => rfl

/-- A round of `loadTables` on a value that is no record of the table `id` in
status `Prepare` or `Running` leaves the entries of `id` in `workingTables`
and `creatingTables` as they are. -/
theorem loadTablesBody_working_other (c : Cluster) (k : Bytes) (v : StoreValue) (id : Nat)
    (hv : ∀ t1, v = StoreValue.table t1 → t1.Id = id →
      t1.Status = .TableDelete ∨ t1.Status = .TableDeleting) :
    GoMap.get? (c.loadTablesBody k v).2.workingTables id = GoMap.get? c.workingTables id ∧
    GoMap.get? (c.loadTablesBody k v).2.creatingTables id = GoMap.get? c.creatingTables id := by
  unfold Cluster.loadTablesBody
  split
  · exact ⟨rfl, rfl⟩
  · cases v with
    | table t1 =>
      simp only [Cluster.unmarshalTable]
      split
      · exact ⟨rfl, rfl⟩
      · simp only [Cluster.alloc]
        split
        · rename_i hst
          have hid : id ≠ t1.Id := by
            intro h0
            rcases hv t1 rfl h0.symm with h1 | h1 <;> rw [hst] at h1 <;> cases h1
          exact ⟨GoMap.get?_put_ne _ _ hid, GoMap.get?_put_ne _ _ hid⟩
        · rename_i hst
          have hid : id ≠ t1.Id := by
            intro h0
            rcases hv t1 rfl h0.symm with h1 | h1 <;> rw [hst] at h1 <;> cases h1
          exact ⟨GoMap.get?_put_ne _ _ hid, rfl⟩
        · split <;> exact ⟨rfl, rfl⟩
        · split <;> exact ⟨rfl, rfl⟩
        · exact ⟨rfl, rfl⟩
    | raw b => exact ⟨rfl, rfl⟩
    | database db => exact ⟨rfl, rfl⟩
    | node n => exact ⟨rfl, rfl⟩
    | range r => exact ⟨rfl, rfl⟩
    | replica rep => exact ⟨rfl, rfl⟩

/-- A round of `loadTables` on a record in status `Delete` or `Deleting` with
an 8-byte expansion field, its database being cached, puts the table in
`deletingTables` with the object built from the record. -/
theorem loadTablesBody_holdsDeleted (c : Cluster) (db : Database) (k : Bytes) (rec : MetaTable)
    (hk : k ≠ []) (hdb : c.FindDatabase rec.DbName = some db)
    (hst : rec.Status = .TableDelete ∨ rec.Status = .TableDeleting)
    (hlen : rec.Expand.length = 8) :
    (c.loadTablesBody k (.table rec)).2.holdsDeleted rec.Id (reloadedTable rec) := by
  refine ⟨c.heapSize, ?_⟩
  rcases hst with hst | hst
  · simp [Cluster.loadTablesBody, hk, Cluster.unmarshalTable, hdb, hst, hlen,
      Cluster.alloc, Cluster.store!, GoMap.get?_put_self, NewTable, reloadedTable]
  · simp [Cluster.loadTablesBody, hk, Cluster.unmarshalTable, hdb, hst, hlen,
      Cluster.alloc, Cluster.store!, GoMap.get?_put_self, NewTable, reloadedTable]

/-- The loop of `loadTables` over accepted values, among which the record
`rec` is the only record of its table: when the table is held before the loop
or the record is among the values, the table is held after the loop. -/
theorem loadTablesLoop_holdsDeleted (rec : MetaTable)
    (hst : rec.Status = .TableDelete ∨ rec.Status = .TableDeleting)
    (hlen : rec.Expand.length = 8)
    (it : List (Bytes × StoreValue)) (c : Cluster)
    (hkeys : ∀ e ∈ it, e.1 ≠ [])
    (hall : ∀ e ∈ it, c.accepts e.2 = true)
    (hids : ∀ e ∈ it, ∀ t1, e.2 = StoreValue.table t1 → t1.Id = rec.Id → t1 = rec)
    (h : c.holdsDeleted rec.Id (reloadedTable rec) ∨ ∃ k, (k, StoreValue.table rec) ∈ it) :
    (c.loadTablesLoop it).2.holdsDeleted rec.Id (reloadedTable rec) := by
  induction it generalizing c with
  | nil =>
    rcases h with h | ⟨k, hk⟩
    · exact h
    · cases hk
  | cons e rest ih =>
    obtain ⟨k0, v0⟩ := e
    have hb := loadTablesBody_accepts c k0 v0 (hall _ (List.mem_cons_self _ _))
    have hl := loadTablesBody_accepts_eq c k0 v0
    have hk0 : k0 ≠ [] := hkeys _ (List.mem_cons_self _ _)
    have hstep : (c.loadTablesBody k0 v0).2.holdsDeleted rec.Id (reloadedTable rec) ∨
        ∃ k, (k, StoreValue.table rec) ∈ rest := by
      by_cases hv : v0 = StoreValue.table rec
      · subst hv
        have hacc := hall _ (List.mem_cons_self _ _)
        simp only [Cluster.accepts, Cluster.unmarshalTable, Bool.and_eq_true] at hacc
        cases hdb : c.FindDatabase rec.DbName with
        | none => rw [hdb] at hacc; exact absurd hacc.1 (by simp)
        | some db => exact Or.inl (loadTablesBody_holdsDeleted c db k0 rec hk0 hdb hst hlen)
      · have hother : ∀ t1, v0 = StoreValue.table t1 → t1.Id ≠ rec.Id := by
          intro t1 h1 h2
          have := hids _ (List.mem_cons_self _ _) t1 h1 h2
          rw [this] at h1
          exact hv h1
        rcases h with ⟨p, hp1, hp2, hp3⟩ | ⟨k, hk⟩
        · left
          have hheap := loadTablesBody_heap c k0 v0 p hp2
          refine ⟨p, ?_, lt_of_lt_of_le hp2 hheap.2, ?_⟩
          · rw [loadTablesBody_deleting_other c k0 v0 rec.Id hother]
            exact hp1
          · rw [hheap.1]
            exact hp3
        · right
          rcases List.mem_cons.1 hk with heq | hm
          · cases heq
            exact absurd rfl hv
          · exact ⟨k, hm⟩
    unfold Cluster.loadTablesLoop
    cases hres : c.loadTablesBody k0 v0 with
    | mk res c1 =>
      rw [hres] at hb hl hstep
      simp only at hb hl hstep
      subst hb
      simp only
      exact ih c1 (fun e he => hkeys e (List.mem_cons_of_mem _ he))
        (fun e he => by rw [hl]; exact hall e (List.mem_cons_of_mem _ he))
        (fun e he => hids e (List.mem_cons_of_mem _ he)) hstep

/-- The loop of `loadTables` over values among which every record of the
table `id` is in status `Delete` or `Deleting` leaves the entries of `id` in
`workingTables` and `creatingTables` as they are. -/
theorem loadTablesLoop_working_other (id : Nat) (it : List (Bytes × StoreValue)) (c : Cluster)
    (hv : ∀ e ∈ it, ∀ t1, e.2 = StoreValue.table t1 → t1.Id = id →
      t1.Status = .TableDelete ∨ t1.Status = .TableDeleting) :
    GoMap.get? (c.loadTablesLoop it).2.workingTables id = GoMap.get? c.workingTables id ∧
    GoMap.get? (c.loadTablesLoop it).2.creatingTables id = GoMap.get? c.creatingTables id := by
  induction it generalizing c with
  | nil => exact ⟨rfl, rfl⟩
  | cons e rest ih =>
    obtain ⟨k0, v0⟩ := e
    have hb := loadTablesBody_working_other c k0 v0 id (hv _ (List.mem_cons_self _ _))
    unfold Cluster.loadTablesLoop
    cases hres : c.loadTablesBody k0 v0 with
    | mk res c1 =>
      rw [hres] at hb
      simp only at hb
      cases res with
      | some err => exact hb
      | none =>
        simp only
        have := ih c1 (fun e he => hv e (List.mem_cons_of_mem _ he))
        exact ⟨this.1.trans hb.1, this.2.trans hb.2⟩

/-- C13 (amended): let `DeleteTable` succeed on a table, and let `loadTables`
run on a cluster over the resulting store in which the table is in neither
`workingTables` nor `creatingTables` (as after the reset of `LoadCache`).
Suppose every scanned value is accepted by a round of `loadTables` (it
unmarshals into a table whose database is cached and whose status the switch
accepts), the persisted record is the only scanned record with the id of the
table, and no flag key of the table is its table key. Then `loadTables`
succeeds; the table is in `deletingTables` and in neither `workingTables` nor
`creatingTables`; the loaded object holds the persisted record, whose status
is `Delete` or `Deleting`; and its deletion time is the deletion time of
`DeleteTable` truncated to whole seconds. The Unix seconds of the deletion
time are taken to fit an `int64`, as in Go. -/
theorem DeleteTable_reload (d : Deps) (c c1 c2 : Cluster) (now : Time)
    (dbName tableName : String) (fast : Bool) (t : Nat)
    (h : c.DeleteTable d now dbName tableName fast = (.ok t, c1))
    (hlo : -(2 : Int) ^ 63 ≤ Time.Unix (c1.deref t).deleteTime)
    (hhi : Time.Unix (c1.deref t).deleteTime < (2 : Int) ^ 63)
    (hk1 : d.autoTransferTableKey (c1.deref t).Table.Id ≠ tableKey (c1.deref t).Table.Id)
    (hk2 : d.autoFailoverTableKey (c1.deref t).Table.Id ≠ tableKey (c1.deref t).Table.Id)
    (hkv : c2.store.kv = c1.store.kv)
    (hw : c2.FindTableById (c1.deref t).Table.Id = none)
    (hcr : GoMap.get? c2.creatingTables (c1.deref t).Table.Id = none)
    (hall : ∀ e ∈ c2.scannedTables, c2.accepts e.2 = true)
    (hids : ∀ e ∈ c2.scannedTables, ∀ t1, e.2 = StoreValue.table t1 →
      t1.Id = (c1.deref t).Table.Id → t1 = (c1.deref t).Table) :
    ((c1.deref t).Table.Status = .TableDelete ∨ (c1.deref t).Table.Status = .TableDeleting) ∧
    (c2.loadTables).1 = none ∧
    (c2.loadTables).2.FindTableById (c1.deref t).Table.Id = none ∧
    GoMap.get? (c2.loadTables).2.creatingTables (c1.deref t).Table.Id = none ∧
    ∃ p, (c2.loadTables).2.FindDeleteTableById (c1.deref t).Table.Id = some p ∧
      ((c2.loadTables).2.deref p).Table = (c1.deref t).Table ∧
      ((c2.loadTables).2.deref p).deleteTime =
        (c1.deref t).deleteTime - (c1.deref t).deleteTime % 1000000000 := by
  obtain ⟨db, ref, hdb, hft, hs, ht, hc1⟩ := DeleteTable_ok_inv h
  subst ht
  have hobj : c1.deref ref.ptr =
      { Table := deletedRecord d now fast (c.deref ref.ptr),
        deleteTime := deletionTime d now fast } := by
    rw [hc1]; simp [deletedCluster, Cluster.deref]
  rw [hobj] at hlo hhi hk1 hk2 hw hcr hids ⊢
  simp only at hlo hhi hk1 hk2 hw hcr hids ⊢
  have hstatus : (deletedRecord d now fast (c.deref ref.ptr)).Status = .TableDelete ∨
      (deletedRecord d now fast (c.deref ref.ptr)).Status = .TableDeleting := by
    cases fast
    · exact Or.inl rfl
    · exact Or.inr rfl
  have hexp : (deletedRecord d now fast (c.deref ref.ptr)).Expand =
      putUint64BE (toUint64 (Time.Unix (deletionTime d now fast))) := rfl
  have hlen : (deletedRecord d now fast (c.deref ref.ptr)).Expand.length = 8 := by
    rw [hexp]; exact putUint64BE_length _
  have hid : (deletedRecord d now fast (c.deref ref.ptr)).Id = (c.deref ref.ptr).Table.Id := rfl
  have htime : Time.ofUnix (toInt64 (uint64BE
      (deletedRecord d now fast (c.deref ref.ptr)).Expand)) =
      deletionTime d now fast - deletionTime d now fast % 1000000000 := by
    rw [hexp, uint64BE_putUint64BE _ (toUint64_lt _), toInt64_toUint64 _ hlo hhi, ofUnix_Unix]
  have hscan : (tableKey (deletedRecord d now fast (c.deref ref.ptr)).Id,
      StoreValue.table (deletedRecord d now fast (c.deref ref.ptr))) ∈ c2.scannedTables := by
    unfold Cluster.scannedTables
    apply scan_table_key
    rw [hkv, hc1]
    simp only [deletedCluster, deleteBatch, List.foldl_cons, List.foldl_nil, BatchOp.apply, hid]
    rw [GoMap.get?_del_ne _ (Ne.symm (by rw [hid] at hk2; exact hk2)),
      GoMap.get?_del_ne _ (Ne.symm (by rw [hid] at hk1; exact hk1)), GoMap.get?_put_self]
  have hkeys : ∀ e ∈ c2.scannedTables, e.1 ≠ [] :=
    fun e he => scan_key_ne_nil c2.store _ _ (by decide) e he
  have hsucc : (c2.loadTables).1 = none := by
    unfold Cluster.loadTables
    simp only []
    refine loadTablesLoop_accepts _ _ ?_
    exact fun e he => hall e he
  have hwork := loadTablesLoop_working_other (deletedRecord d now fast (c.deref ref.ptr)).Id
    c2.scannedTables
    { c2 with store := (c2.store.Scan (bytesPrefix (strBytes PREFIX_TABLE)).1
      (bytesPrefix (strBytes PREFIX_TABLE)).2).2 }
    (fun e he t1 h1 h2 => by rw [hids e he t1 h1 h2]; exact hstatus)
  have hheld : (c2.loadTables).2.holdsDeleted (deletedRecord d now fast (c.deref ref.ptr)).Id
      (reloadedTable (deletedRecord d now fast (c.deref ref.ptr))) := by
    unfold Cluster.loadTables
    simp only []
    refine loadTablesLoop_holdsDeleted _ hstatus hlen _ _ hkeys ?_ hids (Or.inr ⟨_, hscan⟩)
    exact fun e he => hall e he
  obtain ⟨p, hp1, -, hp3⟩ := hheld
  refine ⟨hstatus, hsucc, ?_, ?_, p, hp1, ?_, ?_⟩
  · exact hwork.1.trans hw
  · exact hwork.2.trans hcr
  · simp only [Cluster.deref]
    rw [hp3]
    rfl
  · simp only [Cluster.deref]
    rw [hp3]
    exact htime

/-- C13, an instance: the table 7 is deleted half a second after second
400000000; `loadTables` on a cluster with empty table caches over the
resulting store succeeds and gives a table in `deletingTables` only, in
status `Delete`, with the deletion time at second 400000000. -/
theorem DeleteTable_reload_witness :
    demoLoaded.DeleteTable demoDeps 400000000500000000 "db" "t" false = (.ok 0, demoDeleted) ∧
    (demoDeleted.deref 0).Table.Id = 7 ∧
    (demoDeleted.deref 0).deleteTime = 400000000500000000 ∧
    (demoRestart.loadTables).1 = none ∧
    (demoRestart.loadTables).2.FindDeleteTableById 7 = some 0 ∧
    ((demoRestart.loadTables).2.deref 0).deleteTime = 400000000000000000 ∧
    ((demoDeleted.deref 0).Table.Status = .TableDelete ∨
      (demoDeleted.deref 0).Table.Status = .TableDeleting) ∧
    (demoRestart.loadTables).1 = none ∧
    (demoRestart.loadTables).2.FindTableById (demoDeleted.deref 0).Table.Id = none ∧
    GoMap.get? (demoRestart.loadTables).2.creatingTables (demoDeleted.deref 0).Table.Id = none ∧
    ∃ p, (demoRestart.loadTables).2.FindDeleteTableById (demoDeleted.deref 0).Table.Id = some p ∧
      ((demoRestart.loadTables).2.deref p).Table = (demoDeleted.deref 0).Table ∧
      ((demoRestart.loadTables).2.deref p).deleteTime =
        (demoDeleted.deref 0).deleteTime - (demoDeleted.deref 0).deleteTime % 1000000000 :=
  ⟨rfl, by decide, by decide, by decide, by decide, by decide,
   DeleteTable_reload demoDeps demoLoaded demoDeleted demoRestart 400000000500000000 "db" "t"
     false 0 rfl (by decide) (by decide) (by decide) (by decide) rfl (by decide) (by decide)
     (by decide)
     (fun e he t1 h1 _ => by
       have hs : demoRestart.scannedTables =
           [(tableKey 7, StoreValue.table (demoDeleted.deref 0).Table)] := by decide
       rw [hs] at he
       rw [List.mem_singleton] at he
       rw [he] at h1
       cases h1
       rfl)⟩

/-- C13 does not hold as stated: the store also holds the record of table 3,
whose database `gone` is not cached. `DeleteTable` succeeds on table 7 of the
database `db`, and its record is stored; `loadTables` on a cluster with the
database `db` and empty table caches over the resulting store comes to the
record of table 3 first and returns `ErrNotExistDatabase`: table 7 is not in
`deletingTables`. -/
theorem DeleteTable_reload_other_record :
    (demoLoadedStray.DeleteTable demoDeps 400000000500000000 "db" "t" false).1 = .ok 0 ∧
    (demoDeletedStray.deref 0).Table.Id = 7 ∧
    (demoDeletedStray.deref 0).Table.Status = .TableDelete ∧
    (tableKey 7, StoreValue.table (demoDeletedStray.deref 0).Table) ∈
      demoRestartStray.store.kv ∧
    demoRestartStray.FindDatabase (demoDeletedStray.deref 0).Table.DbName = some demoDb ∧
    (demoRestartStray.loadTables).1 = some .ErrNotExistDatabase ∧
    (demoRestartStray.loadTables).2.FindDeleteTableById 7 = none := by
  refine ⟨rfl, ?_, ?_, ?_, ?_, ?_, ?_⟩ <;> decide

end Sharkstore
